import Mathlib

/-!
Verification of the fault-tolerant JSON scanner and parser in
`src/support/utils/json.ts` (a vendored copy of the VS Code / jsonc JSON
parser).  The source is shallowly embedded: JS strings are modelled as
lists of UTF-16 code units (`List Nat`), `charCodeAt` out of range yields
a sentinel code (`0x110000`) that, like JS `NaN`, satisfies none of the
character predicates, and the mutually recursive parser of `visit` is
modelled with an explicit fuel parameter (the source loops always make
progress, so enough fuel reproduces the source behaviour; running out of
fuel yields `none`).
-/

namespace JsonTs

/-- `ScanError` enum from json.ts. -/
inductive ScanError where
  | None
  | UnexpectedEndOfComment
  | UnexpectedEndOfString
  | UnexpectedEndOfNumber
  | InvalidUnicode
  | InvalidEscapeCharacter
  | InvalidCharacter
deriving DecidableEq, Repr

/-- `SyntaxKind` enum from json.ts (token classifications). -/
inductive SyntaxKind where
  | OpenBraceToken
  | CloseBraceToken
  | OpenBracketToken
  | CloseBracketToken
  | CommaToken
  | ColonToken
  | NullKeyword
  | TrueKeyword
  | FalseKeyword
  | StringLiteral
  | NumericLiteral
  | LineCommentTrivia
  | BlockCommentTrivia
  | LineBreakTrivia
  | Trivia
  | Unknown
  | EOF
deriving DecidableEq, Repr

/-- `ParseErrorCode` enum from json.ts. -/
inductive ParseErrorCode where
  | InvalidSymbol
  | InvalidNumberFormat
  | PropertyNameExpected
  | ValueExpected
  | ColonExpected
  | CommaExpected
  | CloseBraceExpected
  | CloseBracketExpected
  | EndOfFileExpected
  | InvalidCommentToken
  | UnexpectedEndOfComment
  | UnexpectedEndOfString
  | UnexpectedEndOfNumber
  | InvalidUnicode
  | InvalidEscapeCharacter
  | InvalidCharacter
deriving DecidableEq, Repr

/-- `ParseError` record from json.ts. -/
structure ParseError where
  error : ParseErrorCode
  offset : Nat
  length : Nat
deriving DecidableEq, Repr

/-- `ParseOptions` from json.ts; missing fields of the TS interface are falsy. -/
structure ParseOptions where
  disallowComments : Bool := false
  allowTrailingComma : Bool := false
  allowEmptyContent : Bool := false
deriving DecidableEq, Repr

/-- `ParseOptions.DEFAULT` from json.ts. -/
def ParseOptions.DEFAULT : ParseOptions := { allowTrailingComma := true }

/-- `NodeType` union from json.ts. -/
inductive NodeType where
  | object
  | array
  | property
  | string
  | number
  | boolean
  | null
deriving DecidableEq, Repr

namespace CharacterCodes

def lineFeed : Nat := 0x0A
def carriageReturn : Nat := 0x0D
def lineSeparator : Nat := 0x2028
def paragraphSeparator : Nat := 0x2029
def space : Nat := 0x20
def nonBreakingSpace : Nat := 0xA0
def enQuad : Nat := 0x2000
def zeroWidthSpace : Nat := 0x200B
def narrowNoBreakSpace : Nat := 0x202F
def ideographicSpace : Nat := 0x3000
def mathematicalSpace : Nat := 0x205F
def ogham : Nat := 0x1680
def _0 : Nat := 0x30
def _9 : Nat := 0x39
def a : Nat := 0x61
def b : Nat := 0x62
def e : Nat := 0x65
def f : Nat := 0x66
def n : Nat := 0x6E
def r : Nat := 0x72
def t : Nat := 0x74
def u : Nat := 0x75
def l : Nat := 0x6C
def s : Nat := 0x73
def A : Nat := 0x41
def E : Nat := 0x45
def F : Nat := 0x46
def asterisk : Nat := 0x2A
def backslash : Nat := 0x5C
def closeBrace : Nat := 0x7D
def closeBracket : Nat := 0x5D
def colon : Nat := 0x3A
def comma : Nat := 0x2C
def dot : Nat := 0x2E
def doubleQuote : Nat := 0x22
def minus : Nat := 0x2D
def openBrace : Nat := 0x7B
def openBracket : Nat := 0x5B
def plus : Nat := 0x2B
def slash : Nat := 0x2F
def backspace : Nat := 0x08
def formFeed : Nat := 0x0C
def byteOrderMark : Nat := 0xFEFF
def tab : Nat := 0x09
def verticalTab : Nat := 0x0B

end CharacterCodes

/-- JS `text.charCodeAt(pos)`: out of range yields `NaN`, which satisfies no
character predicate; that is modelled by the sentinel code `0x110000`. -/
def charCodeAt (text : List Nat) (pos : Nat) : Nat :=
  text.getD pos 0x110000

/-- `isWhitespace` from json.ts. -/
def isWhitespace (ch : Nat) : Bool :=
  ch = CharacterCodes.space || ch = CharacterCodes.tab || ch = CharacterCodes.verticalTab ||
  ch = CharacterCodes.formFeed || ch = CharacterCodes.nonBreakingSpace || ch = CharacterCodes.ogham ||
  (CharacterCodes.enQuad ≤ ch && ch ≤ CharacterCodes.zeroWidthSpace) ||
  ch = CharacterCodes.narrowNoBreakSpace || ch = CharacterCodes.mathematicalSpace ||
  ch = CharacterCodes.ideographicSpace || ch = CharacterCodes.byteOrderMark

/-- `isLineBreak` from json.ts. -/
def isLineBreak (ch : Nat) : Bool :=
  ch = CharacterCodes.lineFeed || ch = CharacterCodes.carriageReturn ||
  ch = CharacterCodes.lineSeparator || ch = CharacterCodes.paragraphSeparator

/-- `isDigit` from json.ts. -/
def isDigit (ch : Nat) : Bool :=
  CharacterCodes._0 ≤ ch && ch ≤ CharacterCodes._9

/-- JS `text.substring(a, b)` for `a ≤ b` (clamped at the text length). -/
def substring (text : List Nat) (a b : Nat) : List Nat :=
  (text.take b).drop a

/-- `scanHexDigits` from json.ts, with the position threaded explicitly:
returns the parsed hex value (`-1` when fewer than `count` hex digits were
found, as in the source) together with the number of characters consumed. -/
def scanHexDigitsAux (text : List Nat) (pos : Nat) (count : Nat) (acc : Nat) : Int × Nat :=
  match count with
  | 0 => (Int.ofNat acc, 0)
  | Nat.succ k =>
    let ch := charCodeAt text pos
    if CharacterCodes._0 ≤ ch ∧ ch ≤ CharacterCodes._9 then
      let res := scanHexDigitsAux text (pos + 1) k (acc * 16 + (ch - CharacterCodes._0))
      (res.1, res.2 + 1)
    else if CharacterCodes.A ≤ ch ∧ ch ≤ CharacterCodes.F then
      let res := scanHexDigitsAux text (pos + 1) k (acc * 16 + (ch - CharacterCodes.A) + 10)
      (res.1, res.2 + 1)
    else if CharacterCodes.a ≤ ch ∧ ch ≤ CharacterCodes.f then
      let res := scanHexDigitsAux text (pos + 1) k (acc * 16 + (ch - CharacterCodes.a) + 10)
      (res.1, res.2 + 1)
    else
      (-1, 0)

def scanHexDigits (text : List Nat) (pos : Nat) (count : Nat) : Int × Nat :=
  scanHexDigitsAux text pos count 0

def skipDigitsAux (text : List Nat) : Nat → Nat → Nat
  | 0, pos => pos
  | Nat.succ k, pos =>
    if pos < text.length ∧ isDigit (charCodeAt text pos) then skipDigitsAux text k (pos + 1)
    else pos

/-- The `while (pos < text.length && isDigit(...)) pos++` loops of
`scanNumber`.  The loop advances one position per iteration and stops at the
text end, so `text.length - pos` iterations always suffice. -/
def skipDigits (text : List Nat) (pos : Nat) : Nat :=
  skipDigitsAux text (text.length - pos) pos

/-- Exponent part of `scanNumber` (lines 241-256 of json.ts).  `pend` is the
value of the local variable `end` when the exponent check starts.  Note the
operator precedence in the source's sign test: the bounds check guards only
the `+` comparison. -/
def scanNumberExponent (text : List Nat) (start pend : Nat) : List Nat × Nat × ScanError :=
  if pend < text.length ∧
      (charCodeAt text pend = CharacterCodes.E ∨ charCodeAt text pend = CharacterCodes.e) then
    let pos1 := pend + 1
    let pos2 :=
      if (pos1 < text.length ∧ charCodeAt text pos1 = CharacterCodes.plus) ∨
          charCodeAt text pos1 = CharacterCodes.minus then
        pos1 + 1
      else pos1
    if pos2 < text.length ∧ isDigit (charCodeAt text pos2) then
      let pos3 := skipDigits text (pos2 + 1)
      (substring text start pos3, pos3, ScanError.None)
    else
      (substring text start pend, pos2, ScanError.UnexpectedEndOfNumber)
  else
    (substring text start pend, pend, ScanError.None)

/-- `scanNumber` from json.ts: returns the token value (the substring scanned,
best effort on error), the new scan position and the scan error. -/
def scanNumber (text : List Nat) (start : Nat) : List Nat × Nat × ScanError :=
  let pos1 :=
    if charCodeAt text start = CharacterCodes._0 then start + 1
    else skipDigits text (start + 1)
  if pos1 < text.length ∧ charCodeAt text pos1 = CharacterCodes.dot then
    let pos2 := pos1 + 1
    if pos2 < text.length ∧ isDigit (charCodeAt text pos2) then
      scanNumberExponent text start (skipDigits text (pos2 + 1))
    else
      (substring text start pos2, pos2, ScanError.UnexpectedEndOfNumber)
  else
    scanNumberExponent text start pos1

/-- The body of `scanString` from json.ts: `result` is the decoded content
so far, `start` the start of the pending raw run, `err` the current value of
the closure variable `scanError`.  The loop advances at least one position
per iteration and never moves past the text end, so the structural budget
`text.length + 1 - pos` of `scanString` is never exhausted; the budget-zero
case mirrors the end-of-text exit of the source. -/
def scanStringLoop (text : List Nat) (fuel pos start : Nat) (result : List Nat) (err : ScanError) :
    List Nat × Nat × ScanError :=
  match fuel with
  | 0 => (result ++ substring text start pos, pos, ScanError.UnexpectedEndOfString)
  | Nat.succ fuel =>
  if text.length ≤ pos then
    (result ++ substring text start pos, pos, ScanError.UnexpectedEndOfString)
  else
    let ch := charCodeAt text pos
    if ch = CharacterCodes.doubleQuote then
      (result ++ substring text start pos, pos + 1, err)
    else if ch = CharacterCodes.backslash then
      let result1 := result ++ substring text start pos
      if text.length ≤ pos + 1 then
        (result1, pos + 1, ScanError.UnexpectedEndOfString)
      else
        let ch2 := charCodeAt text (pos + 1)
        let pos2 := pos + 2
        if ch2 = CharacterCodes.doubleQuote then
          scanStringLoop text fuel pos2 pos2 (result1 ++ [CharacterCodes.doubleQuote]) err
        else if ch2 = CharacterCodes.backslash then
          scanStringLoop text fuel pos2 pos2 (result1 ++ [CharacterCodes.backslash]) err
        else if ch2 = CharacterCodes.slash then
          scanStringLoop text fuel pos2 pos2 (result1 ++ [CharacterCodes.slash]) err
        else if ch2 = CharacterCodes.b then
          scanStringLoop text fuel pos2 pos2 (result1 ++ [CharacterCodes.backspace]) err
        else if ch2 = CharacterCodes.f then
          scanStringLoop text fuel pos2 pos2 (result1 ++ [CharacterCodes.formFeed]) err
        else if ch2 = CharacterCodes.n then
          scanStringLoop text fuel pos2 pos2 (result1 ++ [CharacterCodes.lineFeed]) err
        else if ch2 = CharacterCodes.r then
          scanStringLoop text fuel pos2 pos2 (result1 ++ [CharacterCodes.carriageReturn]) err
        else if ch2 = CharacterCodes.t then
          scanStringLoop text fuel pos2 pos2 (result1 ++ [CharacterCodes.tab]) err
        else if ch2 = CharacterCodes.u then
          let hd := scanHexDigits text pos2 4
          let pos3 := pos2 + hd.2
          if 0 ≤ hd.1 then
            scanStringLoop text fuel pos3 pos3 (result1 ++ [hd.1.toNat]) err
          else
            scanStringLoop text fuel pos3 pos3 result1 ScanError.InvalidUnicode
        else
          scanStringLoop text fuel pos2 pos2 result1 ScanError.InvalidEscapeCharacter
    else if ch ≤ 0x1F then
      if isLineBreak ch then
        (result ++ substring text start pos, pos, ScanError.UnexpectedEndOfString)
      else
        -- mark as error but continue with string
        scanStringLoop text fuel (pos + 1) start result ScanError.InvalidCharacter
    else
      scanStringLoop text fuel (pos + 1) start result err

/-- `scanString` from json.ts (called with `pos` just after the opening
quote; the closure's `scanError` was reset to `None` by `scanNext`). -/
def scanString (text : List Nat) (pos : Nat) : List Nat × Nat × ScanError :=
  scanStringLoop text (text.length + 1 - pos) pos pos [] ScanError.None

def scanWhitespaceLoopAux (text : List Nat) : Nat → Nat → List Nat → List Nat × Nat
  | 0, pos, value => (value, pos)
  | Nat.succ k, pos, value =>
    if pos < text.length ∧ isWhitespace (charCodeAt text pos) then
      scanWhitespaceLoopAux text k (pos + 1) (value ++ [charCodeAt text pos])
    else
      (value, pos)

/-- The whitespace-trivia do-while loop of `scanNext` (entered only when the
character at `pos` is whitespace); collects the consumed characters into the
token value.  One position per iteration, so `text.length - pos` iterations
suffice (out-of-range `charCodeAt` is never whitespace). -/
def scanWhitespaceLoop (text : List Nat) (pos : Nat) (value : List Nat) : List Nat × Nat :=
  scanWhitespaceLoopAux text (text.length - pos) pos value

/-- `isUnknownContentCharacter` from json.ts. -/
def isUnknownContentCharacter (code : Nat) : Bool :=
  if isWhitespace code || isLineBreak code then false
  else if code = CharacterCodes.closeBrace then false
  else if code = CharacterCodes.closeBracket then false
  else if code = CharacterCodes.openBrace then false
  else if code = CharacterCodes.openBracket then false
  else if code = CharacterCodes.doubleQuote then false
  else if code = CharacterCodes.colon then false
  else if code = CharacterCodes.comma then false
  else if code = CharacterCodes.slash then false
  else true

def scanUnknownLoopAux (text : List Nat) : Nat → Nat → Nat
  | 0, pos => pos
  | Nat.succ k, pos =>
    if pos < text.length ∧ isUnknownContentCharacter (charCodeAt text pos) then
      scanUnknownLoopAux text k (pos + 1)
    else
      pos

/-- The literal/unknown word loop in the default case of `scanNext`; one
position per iteration, so `text.length - pos` iterations suffice. -/
def scanUnknownLoop (text : List Nat) (pos : Nat) : Nat :=
  scanUnknownLoopAux text (text.length - pos) pos

def lineCommentLoopAux (text : List Nat) : Nat → Nat → Nat
  | 0, pos => pos
  | Nat.succ k, pos =>
    if pos < text.length then
      if isLineBreak (charCodeAt text pos) then pos
      else lineCommentLoopAux text k (pos + 1)
    else
      pos

/-- Single-line comment consumption (stops before a line break or at EOF);
one position per iteration, so `text.length - pos` iterations suffice. -/
def lineCommentLoop (text : List Nat) (pos : Nat) : Nat :=
  lineCommentLoopAux text (text.length - pos) pos

def blockCommentLoopAux (text : List Nat) (safeLength : Nat) : Nat → Nat → Nat × Bool
  | 0, pos => (pos, false)
  | Nat.succ k, pos =>
    if pos < safeLength then
      if charCodeAt text pos = CharacterCodes.asterisk ∧
          charCodeAt text (pos + 1) = CharacterCodes.slash then
        (pos + 2, true)
      else
        blockCommentLoopAux text safeLength k (pos + 1)
    else
      (pos, false)

/-- Multi-line comment consumption; returns the position and whether the
comment was closed.  `safeLength` is `len - 1` as in the source; at least
one position per iteration, so `safeLength - pos` iterations suffice. -/
def blockCommentLoop (text : List Nat) (pos safeLength : Nat) : Nat × Bool :=
  blockCommentLoopAux text safeLength (safeLength - pos) pos

/-- The scanner state of `createScanner` in json.ts. -/
structure Scanner where
  text : List Nat
  pos : Nat
  value : List Nat
  tokenOffset : Nat
  token : SyntaxKind
  scanError : ScanError
deriving DecidableEq, Repr

/-- Initial scanner state of `createScanner(text, false)`. -/
def createScanner (text : List Nat) : Scanner :=
  { text := text, pos := 0, value := [], tokenOffset := 0,
    token := SyntaxKind.Unknown, scanError := ScanError.None }

/-- `getTokenLength`: `pos - tokenOffset`. -/
def Scanner.tokenLength (s : Scanner) : Nat := s.pos - s.tokenOffset

/-- `scanNext` from `createScanner` in json.ts (the raw token scanner; `visit`
creates the scanner with `ignoreTrivia = false`, so trivia is delivered). -/
def Scanner.scanNext (s : Scanner) : Scanner :=
  let text := s.text
  let len := text.length
  let pos := s.pos
  if len ≤ pos then
    { s with value := [], scanError := ScanError.None, tokenOffset := len,
             token := SyntaxKind.EOF }
  else
    let code := charCodeAt text pos
    if isWhitespace code then
      let res := scanWhitespaceLoop text pos []
      { s with value := res.1, scanError := ScanError.None, tokenOffset := pos,
               pos := res.2, token := SyntaxKind.Trivia }
    else if isLineBreak code then
      if code = CharacterCodes.carriageReturn ∧
          charCodeAt text (pos + 1) = CharacterCodes.lineFeed then
        { s with value := [code, CharacterCodes.lineFeed], scanError := ScanError.None,
                 tokenOffset := pos, pos := pos + 2, token := SyntaxKind.LineBreakTrivia }
      else
        { s with value := [code], scanError := ScanError.None, tokenOffset := pos,
                 pos := pos + 1, token := SyntaxKind.LineBreakTrivia }
    else if code = CharacterCodes.openBrace then
      { s with value := [], scanError := ScanError.None, tokenOffset := pos,
               pos := pos + 1, token := SyntaxKind.OpenBraceToken }
    else if code = CharacterCodes.closeBrace then
      { s with value := [], scanError := ScanError.None, tokenOffset := pos,
               pos := pos + 1, token := SyntaxKind.CloseBraceToken }
    else if code = CharacterCodes.openBracket then
      { s with value := [], scanError := ScanError.None, tokenOffset := pos,
               pos := pos + 1, token := SyntaxKind.OpenBracketToken }
    else if code = CharacterCodes.closeBracket then
      { s with value := [], scanError := ScanError.None, tokenOffset := pos,
               pos := pos + 1, token := SyntaxKind.CloseBracketToken }
    else if code = CharacterCodes.colon then
      { s with value := [], scanError := ScanError.None, tokenOffset := pos,
               pos := pos + 1, token := SyntaxKind.ColonToken }
    else if code = CharacterCodes.comma then
      { s with value := [], scanError := ScanError.None, tokenOffset := pos,
               pos := pos + 1, token := SyntaxKind.CommaToken }
    else if code = CharacterCodes.doubleQuote then
      let res := scanString text (pos + 1)
      { s with value := res.1, scanError := res.2.2, tokenOffset := pos,
               pos := res.2.1, token := SyntaxKind.StringLiteral }
    else if code = CharacterCodes.slash then
      -- comments; note the source sets `start = pos - 1`
      let start := pos - 1
      if charCodeAt text (pos + 1) = CharacterCodes.slash then
        let p := lineCommentLoop text (pos + 2)
        { s with value := substring text start p, scanError := ScanError.None,
                 tokenOffset := pos, pos := p, token := SyntaxKind.LineCommentTrivia }
      else if charCodeAt text (pos + 1) = CharacterCodes.asterisk then
        let res := blockCommentLoop text (pos + 2) (len - 1)
        let p := if res.2 then res.1 else res.1 + 1
        let e := if res.2 then ScanError.None else ScanError.UnexpectedEndOfComment
        { s with value := substring text start p, scanError := e,
                 tokenOffset := pos, pos := p, token := SyntaxKind.BlockCommentTrivia }
      else
        { s with value := [code], scanError := ScanError.None, tokenOffset := pos,
                 pos := pos + 1, token := SyntaxKind.Unknown }
    else if code = CharacterCodes.minus then
      if pos + 1 = len ∨ ¬ isDigit (charCodeAt text (pos + 1)) then
        { s with value := [code], scanError := ScanError.None, tokenOffset := pos,
                 pos := pos + 1, token := SyntaxKind.Unknown }
      else
        let res := scanNumber text (pos + 1)
        { s with value := code :: res.1, scanError := res.2.2, tokenOffset := pos,
                 pos := res.2.1, token := SyntaxKind.NumericLiteral }
    else if isDigit code then
      let res := scanNumber text pos
      { s with value := res.1, scanError := res.2.2, tokenOffset := pos,
               pos := res.2.1, token := SyntaxKind.NumericLiteral }
    else
      -- literals and unknown symbols: read the full word
      let p := scanUnknownLoop text pos
      if pos ≠ p then
        let v := substring text pos p
        let tok :=
          if v = [0x74, 0x72, 0x75, 0x65] then SyntaxKind.TrueKeyword
          else if v = [0x66, 0x61, 0x6C, 0x73, 0x65] then SyntaxKind.FalseKeyword
          else if v = [0x6E, 0x75, 0x6C, 0x6C] then SyntaxKind.NullKeyword
          else SyntaxKind.Unknown
        { s with value := v, scanError := ScanError.None, tokenOffset := pos,
                 pos := p, token := tok }
      else
        { s with value := [code], scanError := ScanError.None, tokenOffset := pos,
                 pos := pos + 1, token := SyntaxKind.Unknown }

def natGcdAux : Nat → Nat → Nat → Nat
  | 0, _, b => b
  | Nat.succ k, a, b => if a = 0 then b else natGcdAux k (b % a) a

/-- Euclid's algorithm (structurally recursive: the first argument strictly
decreases, so it bounds the number of steps). -/
def natGcd (a b : Nat) : Nat := natGcdAux a a b

/-- JS numbers, modelled exactly as rationals in lowest terms (denominator
positive, zero is 0/1). -/
structure JNum where
  num : Int
  den : Nat
deriving DecidableEq, Repr

/-- Normalized rational `n / d` (for `d ≠ 0`, which is all uses here). -/
def mkJNum (n : Int) (d : Nat) : JNum :=
  if d = 0 then { num := 0, den := 1 }
  else
    let g := natGcd n.natAbs d
    if g = 0 then { num := 0, den := 1 }
    else { num := n / (g : Int), den := d / g }

instance instOfNatJNum (n : Nat) : OfNat JNum n := ⟨{ num := n, den := 1 }⟩

/-- Literal values delivered by `onLiteralValue` (JS `any`: string, number,
boolean or null). -/
inductive JLit where
  | null
  | bool (b : Bool)
  | num (q : JNum)
  | str (s : List Nat)
deriving DecidableEq, Repr

/-- JSON values materialized by `parse`: the JS `any` tree (objects are
key-value sequences in insertion order, as JS object properties are). -/
inductive JValue where
  | null
  | bool (b : Bool)
  | num (q : JNum)
  | str (s : List Nat)
  | arr (elems : List JValue)
  | obj (members : List (List Nat × JValue))

/-- The visitor callbacks of `JSONVisitor`, reified as events so that a run
of `visit` is a sequence of callback invocations; each carries the token
offset and length passed by `toNoArgVisit`/`toOneArgVisit`. -/
inductive VisitEvent where
  | objectBegin (offset length : Nat)
  | objectProperty (name : List Nat) (offset length : Nat)
  | objectEnd (offset length : Nat)
  | arrayBegin (offset length : Nat)
  | arrayEnd (offset length : Nat)
  | literal (v : JLit) (offset length : Nat)
  | separator (ch : Nat) (offset length : Nat)
  | comment (offset length : Nat)
  | error (code : ParseErrorCode) (offset length : Nat)
deriving DecidableEq, Repr

/-- Longest digit run at the head of a list, and the rest. -/
def leadingDigits : List Nat → List Nat × List Nat
  | [] => ([], [])
  | c :: rest =>
    if isDigit c then
      let res := leadingDigits rest
      (c :: res.1, res.2)
    else ([], c :: rest)

def natOfDigits (ds : List Nat) : Nat :=
  ds.foldl (fun acc c => acc * 10 + (c - CharacterCodes._0)) 0

def pow10 : Nat → Nat
  | 0 => 1
  | Nat.succ k => 10 * pow10 k

/-- Value of a decimal literal `[-] mant-digits [. frac] [e exp]`, with
`mant` the digits of integer and fractional part concatenated:
`± mant / 10^fracLen * 10^(±expVal)`. -/
def ratOfParts (neg : Bool) (mant fracLen : Nat) (expNeg : Bool) (expVal : Nat) : JNum :=
  let sNum : Int := if neg then -(mant : Int) else (mant : Int)
  if expNeg then mkJNum sNum (pow10 fracLen * pow10 expVal)
  else mkJNum (sNum * (pow10 expVal : Int)) (pow10 fracLen)

/-- Model of JS `JSON.parse` applied to a numeric token value (json.ts line
841): the exact numeric value when the text is a number per the JSON
grammar, `none` when `JSON.parse` would throw.  (The `typeof` guard of the
source handles non-number results the same way as a throw: error and 0.) -/
def jsonNumberParse (s : List Nat) : Option JNum :=
  let signRes : Bool × List Nat :=
    match s with
    | c :: rest => if c = CharacterCodes.minus then (true, rest) else (false, s)
    | [] => (false, [])
  match signRes.2 with
  | [] => none
  | c :: rest =>
    if ¬ isDigit c then none
    else
      let intRes : List Nat × List Nat :=
        if c = CharacterCodes._0 then ([c], rest)
        else
          let ds := leadingDigits rest
          (c :: ds.1, ds.2)
      let fracRes : Option (List Nat × List Nat) :=
        match intRes.2 with
        | d :: rest2 =>
          if d = CharacterCodes.dot then
            let ds := leadingDigits rest2
            if ds.1 = [] then none else some ds
          else some ([], intRes.2)
        | [] => some ([], [])
      match fracRes with
      | none => none
      | some fr =>
        let expRes : Option (Bool × List Nat × List Nat) :=
          match fr.2 with
          | ec :: rest3 =>
            if ec = CharacterCodes.e ∨ ec = CharacterCodes.E then
              let signExp : Bool × List Nat :=
                match rest3 with
                | s1 :: rest4 =>
                  if s1 = CharacterCodes.plus then (false, rest4)
                  else if s1 = CharacterCodes.minus then (true, rest4)
                  else (false, rest3)
                | [] => (false, [])
              let ds := leadingDigits signExp.2
              if ds.1 = [] then none else some (signExp.1, ds)
            else some (false, [], fr.2)
          | [] => some (false, [], [])
        match expRes with
        | none => none
        | some ex =>
          if ex.2.2 ≠ [] then none
          else
            some (ratOfParts signRes.1 (natOfDigits (intRes.1 ++ fr.1)) fr.1.length
              ex.1 (natOfDigits ex.2.1))

/-- State of the `visit` run: the scanner plus the events emitted so far
(most recent first). -/
structure PState where
  scn : Scanner
  events : List VisitEvent
deriving DecidableEq

/-- Emit one visitor event carrying the current token's offset and length,
as `toNoArgVisit`/`toOneArgVisit` do. -/
def PState.emit (st : PState) (f : Nat → Nat → VisitEvent) : PState :=
  { st with events := f st.scn.tokenOffset st.scn.tokenLength :: st.events }

mutual

/-- The `scanNext` wrapper inside `visit` (json.ts lines 763-807): scans raw
tokens, surfaces scanner errors through `handleError`, reports or rejects
comments, reports unknown tokens, and loops past trivia. -/
def visitScanNext (fuel : Nat) (opts : ParseOptions) (st : PState) : Option PState :=
  match fuel with
  | 0 => Option.none
  | Nat.succ fuel =>
    let st1 : PState := { st with scn := st.scn.scanNext }
    let st2res : Option PState :=
      match st1.scn.scanError with
      | ScanError.InvalidUnicode =>
        handleError fuel opts ParseErrorCode.InvalidUnicode [] [] st1
      | ScanError.InvalidEscapeCharacter =>
        handleError fuel opts ParseErrorCode.InvalidEscapeCharacter [] [] st1
      | ScanError.UnexpectedEndOfNumber =>
        handleError fuel opts ParseErrorCode.UnexpectedEndOfNumber [] [] st1
      | ScanError.UnexpectedEndOfComment =>
        if ¬ opts.disallowComments then
          handleError fuel opts ParseErrorCode.UnexpectedEndOfComment [] [] st1
        else some st1
      | ScanError.UnexpectedEndOfString =>
        handleError fuel opts ParseErrorCode.UnexpectedEndOfString [] [] st1
      | ScanError.InvalidCharacter =>
        handleError fuel opts ParseErrorCode.InvalidCharacter [] [] st1
      | ScanError.None => some st1
    st2res.bind (fun st2 =>
      match st2.scn.token with
      | SyntaxKind.LineCommentTrivia =>
        if opts.disallowComments then
          (handleError fuel opts ParseErrorCode.InvalidCommentToken [] [] st2).bind
            (fun st3 => visitScanNext fuel opts st3)
        else visitScanNext fuel opts (st2.emit VisitEvent.comment)
      | SyntaxKind.BlockCommentTrivia =>
        if opts.disallowComments then
          (handleError fuel opts ParseErrorCode.InvalidCommentToken [] [] st2).bind
            (fun st3 => visitScanNext fuel opts st3)
        else visitScanNext fuel opts (st2.emit VisitEvent.comment)
      | SyntaxKind.Unknown =>
        (handleError fuel opts ParseErrorCode.InvalidSymbol [] [] st2).bind
          (fun st3 => visitScanNext fuel opts st3)
      | SyntaxKind.Trivia => visitScanNext fuel opts st2
      | SyntaxKind.LineBreakTrivia => visitScanNext fuel opts st2
      | _ => some st2)

/-- `handleError` from json.ts: record the error, then (when recovery token
sets are given) skip forward. -/
def handleError (fuel : Nat) (opts : ParseOptions) (code : ParseErrorCode)
    (skipUntilAfter skipUntil : List SyntaxKind) (st : PState) : Option PState :=
  match fuel with
  | 0 => Option.none
  | Nat.succ fuel =>
    let st1 := st.emit (VisitEvent.error code)
    if skipUntilAfter.length + skipUntil.length > 0 then
      handleErrorLoop fuel opts skipUntilAfter skipUntil st1
    else some st1

/-- The skip loop of `handleError`. -/
def handleErrorLoop (fuel : Nat) (opts : ParseOptions)
    (skipUntilAfter skipUntil : List SyntaxKind) (st : PState) : Option PState :=
  match fuel with
  | 0 => Option.none
  | Nat.succ fuel =>
    if st.scn.token = SyntaxKind.EOF then some st
    else if st.scn.token ∈ skipUntilAfter then visitScanNext fuel opts st
    else if st.scn.token ∈ skipUntil then some st
    else
      (visitScanNext fuel opts st).bind
        (fun st2 => handleErrorLoop fuel opts skipUntilAfter skipUntil st2)

/-- `parseString` from json.ts (always returns true in the source). -/
def parseStringRule (fuel : Nat) (opts : ParseOptions) (isValue : Bool) (st : PState) :
    Option PState :=
  match fuel with
  | 0 => Option.none
  | Nat.succ fuel =>
    let value := st.scn.value
    let st1 :=
      if isValue then st.emit (VisitEvent.literal (JLit.str value))
      else st.emit (VisitEvent.objectProperty value)
    visitScanNext fuel opts st1

/-- `parseLiteral` from json.ts; the boolean is its return value (false on a
non-value token, in which case nothing is consumed). -/
def parseLiteral (fuel : Nat) (opts : ParseOptions) (st : PState) : Option (PState × Bool) :=
  match fuel with
  | 0 => Option.none
  | Nat.succ fuel =>
    match st.scn.token with
    | SyntaxKind.NumericLiteral =>
      match jsonNumberParse st.scn.value with
      | some q =>
        (visitScanNext fuel opts (st.emit (VisitEvent.literal (JLit.num q)))).bind
          (fun st2 => some (st2, true))
      | Option.none =>
        (handleError fuel opts ParseErrorCode.InvalidNumberFormat [] [] st).bind
          (fun st1 =>
            (visitScanNext fuel opts (st1.emit (VisitEvent.literal (JLit.num 0)))).bind
              (fun st2 => some (st2, true)))
    | SyntaxKind.NullKeyword =>
      (visitScanNext fuel opts (st.emit (VisitEvent.literal JLit.null))).bind
        (fun st2 => some (st2, true))
    | SyntaxKind.TrueKeyword =>
      (visitScanNext fuel opts (st.emit (VisitEvent.literal (JLit.bool true)))).bind
        (fun st2 => some (st2, true))
    | SyntaxKind.FalseKeyword =>
      (visitScanNext fuel opts (st.emit (VisitEvent.literal (JLit.bool false)))).bind
        (fun st2 => some (st2, true))
    | _ => some (st, false)

/-- `parseProperty` from json.ts. -/
def parseProperty (fuel : Nat) (opts : ParseOptions) (st : PState) : Option (PState × Bool) :=
  match fuel with
  | 0 => Option.none
  | Nat.succ fuel =>
    if st.scn.token ≠ SyntaxKind.StringLiteral then
      (handleError fuel opts ParseErrorCode.PropertyNameExpected []
          [SyntaxKind.CloseBraceToken, SyntaxKind.CommaToken] st).bind
        (fun st1 => some (st1, false))
    else
      (parseStringRule fuel opts false st).bind (fun st1 =>
        if st1.scn.token = SyntaxKind.ColonToken then
          (visitScanNext fuel opts (st1.emit (VisitEvent.separator CharacterCodes.colon))).bind
            (fun st3 =>
              (parseValue fuel opts st3).bind (fun vres =>
                if vres.2 then some (vres.1, true)
                else
                  (handleError fuel opts ParseErrorCode.ValueExpected []
                      [SyntaxKind.CloseBraceToken, SyntaxKind.CommaToken] vres.1).bind
                    (fun st4 => some (st4, true))))
        else
          (handleError fuel opts ParseErrorCode.ColonExpected []
              [SyntaxKind.CloseBraceToken, SyntaxKind.CommaToken] st1).bind
            (fun st2 => some (st2, true)))

/-- `if (!parseProperty()) handleError(ValueExpected, [], [CloseBrace, Comma])`
inside the `parseObject` loop. -/
def parseObjectStep (fuel : Nat) (opts : ParseOptions) (st : PState) : Option PState :=
  match fuel with
  | 0 => Option.none
  | Nat.succ fuel =>
    (parseProperty fuel opts st).bind (fun pres =>
      if pres.2 then some pres.1
      else
        handleError fuel opts ParseErrorCode.ValueExpected []
          [SyntaxKind.CloseBraceToken, SyntaxKind.CommaToken] pres.1)

/-- The member loop of `parseObject` from json.ts. -/
def parseObjectLoop (fuel : Nat) (opts : ParseOptions) (needsComma : Bool) (st : PState) :
    Option PState :=
  match fuel with
  | 0 => Option.none
  | Nat.succ fuel =>
    if st.scn.token = SyntaxKind.CloseBraceToken ∨ st.scn.token = SyntaxKind.EOF then some st
    else if st.scn.token = SyntaxKind.CommaToken then
      (if needsComma then some st
       else handleError fuel opts ParseErrorCode.ValueExpected [] [] st).bind
        (fun stA =>
          (visitScanNext fuel opts (stA.emit (VisitEvent.separator CharacterCodes.comma))).bind
            (fun stC =>
              if stC.scn.token = SyntaxKind.CloseBraceToken ∧ opts.allowTrailingComma then some stC
              else
                (parseObjectStep fuel opts stC).bind
                  (fun stD => parseObjectLoop fuel opts true stD)))
    else
      (if needsComma then handleError fuel opts ParseErrorCode.CommaExpected [] [] st
       else some st).bind
        (fun stA =>
          (parseObjectStep fuel opts stA).bind
            (fun stD => parseObjectLoop fuel opts true stD))

/-- `parseObject` from json.ts (always returns true in the source); note the
object-end event is emitted before the closing brace is checked. -/
def parseObject (fuel : Nat) (opts : ParseOptions) (st : PState) : Option PState :=
  match fuel with
  | 0 => Option.none
  | Nat.succ fuel =>
    (visitScanNext fuel opts (st.emit VisitEvent.objectBegin)).bind (fun st2 =>
      (parseObjectLoop fuel opts false st2).bind (fun st3 =>
        let st4 := st3.emit VisitEvent.objectEnd
        if st4.scn.token ≠ SyntaxKind.CloseBraceToken then
          handleError fuel opts ParseErrorCode.CloseBraceExpected [SyntaxKind.CloseBraceToken] [] st4
        else
          visitScanNext fuel opts st4))

/-- `if (!parseValue()) handleError(ValueExpected, [], [CloseBracket, Comma])`
inside the `parseArray` loop. -/
def parseArrayStep (fuel : Nat) (opts : ParseOptions) (st : PState) : Option PState :=
  match fuel with
  | 0 => Option.none
  | Nat.succ fuel =>
    (parseValue fuel opts st).bind (fun vres =>
      if vres.2 then some vres.1
      else
        handleError fuel opts ParseErrorCode.ValueExpected []
          [SyntaxKind.CloseBracketToken, SyntaxKind.CommaToken] vres.1)

/-- The element loop of `parseArray` from json.ts. -/
def parseArrayLoop (fuel : Nat) (opts : ParseOptions) (needsComma : Bool) (st : PState) :
    Option PState :=
  match fuel with
  | 0 => Option.none
  | Nat.succ fuel =>
    if st.scn.token = SyntaxKind.CloseBracketToken ∨ st.scn.token = SyntaxKind.EOF then some st
    else if st.scn.token = SyntaxKind.CommaToken then
      (if needsComma then some st
       else handleError fuel opts ParseErrorCode.ValueExpected [] [] st).bind
        (fun stA =>
          (visitScanNext fuel opts (stA.emit (VisitEvent.separator CharacterCodes.comma))).bind
            (fun stC =>
              if stC.scn.token = SyntaxKind.CloseBracketToken ∧ opts.allowTrailingComma then
                some stC
              else
                (parseArrayStep fuel opts stC).bind
                  (fun stD => parseArrayLoop fuel opts true stD)))
    else
      (if needsComma then handleError fuel opts ParseErrorCode.CommaExpected [] [] st
       else some st).bind
        (fun stA =>
          (parseArrayStep fuel opts stA).bind
            (fun stD => parseArrayLoop fuel opts true stD))

/-- `parseArray` from json.ts (always returns true in the source); note the
array-end event is emitted before the closing bracket is checked. -/
def parseArray (fuel : Nat) (opts : ParseOptions) (st : PState) : Option PState :=
  match fuel with
  | 0 => Option.none
  | Nat.succ fuel =>
    (visitScanNext fuel opts (st.emit VisitEvent.arrayBegin)).bind (fun st2 =>
      (parseArrayLoop fuel opts false st2).bind (fun st3 =>
        let st4 := st3.emit VisitEvent.arrayEnd
        if st4.scn.token ≠ SyntaxKind.CloseBracketToken then
          handleError fuel opts ParseErrorCode.CloseBracketExpected [SyntaxKind.CloseBracketToken]
            [] st4
        else
          visitScanNext fuel opts st4))

/-- `parseValue` from json.ts. -/
def parseValue (fuel : Nat) (opts : ParseOptions) (st : PState) : Option (PState × Bool) :=
  match fuel with
  | 0 => Option.none
  | Nat.succ fuel =>
    match st.scn.token with
    | SyntaxKind.OpenBracketToken =>
      (parseArray fuel opts st).bind (fun st2 => some (st2, true))
    | SyntaxKind.OpenBraceToken =>
      (parseObject fuel opts st).bind (fun st2 => some (st2, true))
    | SyntaxKind.StringLiteral =>
      (parseStringRule fuel opts true st).bind (fun st2 => some (st2, true))
    | _ => parseLiteral fuel opts st

end

/-- `visit` from json.ts: runs the parser on `text`, returning the final
state (with all events emitted, most recent first) and the boolean result of
`visit`; `none` when the step budget `fuel` is exhausted. -/
def visitCore (fuel : Nat) (opts : ParseOptions) (text : List Nat) : Option (PState × Bool) :=
  let st0 : PState := { scn := createScanner text, events := [] }
  (visitScanNext fuel opts st0).bind (fun st1 =>
    if st1.scn.token = SyntaxKind.EOF then
      if opts.allowEmptyContent then some (st1, true)
      else
        (handleError fuel opts ParseErrorCode.ValueExpected [] [] st1).bind
          (fun st2 => some (st2, false))
    else
      (parseValue fuel opts st1).bind (fun vres =>
        if vres.2 then
          if vres.1.scn.token ≠ SyntaxKind.EOF then
            (handleError fuel opts ParseErrorCode.EndOfFileExpected [] [] vres.1).bind
              (fun st3 => some (st3, true))
          else some (vres.1, true)
        else
          (handleError fuel opts ParseErrorCode.ValueExpected [] [] vres.1).bind
            (fun st3 => some (st3, false))))

/-- JS property assignment `obj[key] = v` on a plain object: overwrite in
place when the key exists (keeping its position), otherwise append. -/
def setMember : List (List Nat × JValue) → List Nat → JValue → List (List Nat × JValue)
  | [], key, v => [(key, v)]
  | m :: ms, key, v =>
    if m.1 = key then (key, v) :: ms
    else m :: setMember ms key v

/-- `onValue` of `parse`'s visitor: append to an array parent, or assign to
the pending property of an object parent (nothing happens when no property
is pending). -/
def onValue (parent : JValue) (prop : Option (List Nat)) (v : JValue) : JValue :=
  match parent with
  | JValue.arr xs => JValue.arr (xs ++ [v])
  | JValue.obj ms =>
    match prop with
    | some key => JValue.obj (setMember ms key v)
    | none => JValue.obj ms
  | other => other

def JLit.toJValue : JLit → JValue
  | JLit.null => JValue.null
  | JLit.bool b => JValue.bool b
  | JLit.num q => JValue.num q
  | JLit.str s => JValue.str s

/-- The state of `parse`'s visitor.  The source creates each container
empty, links it into its parent immediately (by JS object reference) and
then fills it in place; this functional model defers the linking to the
matching end event, saving the parent and the pending property name on the
stack — observably the same, since the parent receives no other writes
while the child is open, and `currentProperty` is left at its latest value
after the pop exactly as in the source. -/
structure ParseAcc where
  currentProperty : Option (List Nat)
  currentParent : JValue
  previousParents : List (JValue × Option (List Nat))

/-- One visitor callback of `parse` (json.ts lines 704-732) applied to the
materialization state. -/
def replayStep (acc : ParseAcc) (ev : VisitEvent) : ParseAcc :=
  match ev with
  | VisitEvent.objectBegin _ _ =>
    { currentProperty := none,
      currentParent := JValue.obj [],
      previousParents := (acc.currentParent, acc.currentProperty) :: acc.previousParents }
  | VisitEvent.objectProperty name _ _ => { acc with currentProperty := some name }
  | VisitEvent.objectEnd _ _ =>
    match acc.previousParents with
    | p :: rest =>
      { acc with currentParent := onValue p.1 p.2 acc.currentParent, previousParents := rest }
    | [] => acc
  | VisitEvent.arrayBegin _ _ =>
    { currentProperty := none,
      currentParent := JValue.arr [],
      previousParents := (acc.currentParent, acc.currentProperty) :: acc.previousParents }
  | VisitEvent.arrayEnd _ _ =>
    match acc.previousParents with
    | p :: rest =>
      { acc with currentParent := onValue p.1 p.2 acc.currentParent, previousParents := rest }
    | [] => acc
  | VisitEvent.literal v _ _ =>
    { acc with currentParent := onValue acc.currentParent acc.currentProperty v.toJValue }
  | VisitEvent.separator _ _ _ => acc
  | VisitEvent.comment _ _ => acc
  | VisitEvent.error _ _ _ => acc

/-- The `errors` array of `parse`: every error event, in emission order. -/
def errorsOf (events : List VisitEvent) : List ParseError :=
  events.foldr
    (fun ev acc =>
      match ev with
      | VisitEvent.error c o l => { error := c, offset := o, length := l } :: acc
      | _ => acc)
    []

def initParseAcc : ParseAcc :=
  { currentProperty := none, currentParent := JValue.arr [], previousParents := [] }

/-- The final `currentParent[0]` of `parse`: element 0 of the root array
(`none` models JS `undefined`). -/
def rootResult (acc : ParseAcc) : Option JValue :=
  match acc.currentParent with
  | JValue.arr xs => xs.get? 0
  | JValue.obj ms => (ms.find? (fun m => m.1 == [CharacterCodes._0])).map (fun m => m.2)
  | _ => none

/-- `parse` from json.ts: materialized value (`none` = JS `undefined`,
i.e. an absent value) and the collected errors; `none` overall when the
fuel budget of the embedding is exhausted. -/
def parse (fuel : Nat) (text : List Nat) (opts : ParseOptions) :
    Option (Option JValue × List ParseError) :=
  match visitCore fuel opts text with
  | none => none
  | some res =>
    let events := res.1.events.reverse
    some (rootResult (events.foldl replayStep initParseAcc), errorsOf events)

/-- JS `typeof` tags over the values that can reach `getNodeType`:
a materialized JSON value, or the absent (`undefined`) result. -/
inductive TypeofTag where
  | undefinedTag
  | booleanTag
  | numberTag
  | stringTag
  | objectTag
deriving DecidableEq, Repr

def typeofValue : Option JValue → TypeofTag
  | none => TypeofTag.undefinedTag
  | some JValue.null => TypeofTag.objectTag
  | some (JValue.bool _) => TypeofTag.booleanTag
  | some (JValue.num _) => TypeofTag.numberTag
  | some (JValue.str _) => TypeofTag.stringTag
  | some (JValue.arr _) => TypeofTag.objectTag
  | some (JValue.obj _) => TypeofTag.objectTag

/-- JS truthiness: the `!value` test of `getNodeType`. -/
def isFalsyValue : Option JValue → Bool
  | none => true
  | some JValue.null => true
  | some (JValue.bool b) => !b
  | some (JValue.num q) => decide (q = 0)
  | some (JValue.str s) => s.isEmpty
  | some (JValue.arr _) => false
  | some (JValue.obj _) => false

/-- JS `Array.isArray`. -/
def isArrayValue : Option JValue → Bool
  | some (JValue.arr _) => true
  | _ => false

/-- `getNodeType` from json.ts. -/
def getNodeType (value : Option JValue) : NodeType :=
  match typeofValue value with
  | TypeofTag.booleanTag => NodeType.boolean
  | TypeofTag.numberTag => NodeType.number
  | TypeofTag.stringTag => NodeType.string
  | TypeofTag.objectTag =>
    if isFalsyValue value then NodeType.null
    else if isArrayValue value then NodeType.array
    else NodeType.object
  | TypeofTag.undefinedTag => NodeType.null

/-- UTF-16 code units of a string (all inputs used here are ASCII). -/
def strCodes (s : String) : List Nat := s.data.map Char.toNat

/- ------------------------------------------------------------------ -/
/- Helper definitions for the statements below.                        -/
/- ------------------------------------------------------------------ -/

def isObjectBeginEv : VisitEvent → Bool
  | VisitEvent.objectBegin _ _ => true
  | _ => false

def isObjectEndEv : VisitEvent → Bool
  | VisitEvent.objectEnd _ _ => true
  | _ => false

def isArrayBeginEv : VisitEvent → Bool
  | VisitEvent.arrayBegin _ _ => true
  | _ => false

def isArrayEndEv : VisitEvent → Bool
  | VisitEvent.arrayEnd _ _ => true
  | _ => false

/-- Number of events satisfying `p`. -/
def countEv (p : VisitEvent → Bool) (evs : List VisitEvent) : Nat :=
  (evs.filter p).length

/-- Object-begin events minus object-end events. -/
def objDelta (st : PState) : Int :=
  (countEv isObjectBeginEv st.events : Int) - (countEv isObjectEndEv st.events : Int)

/-- Array-begin events minus array-end events. -/
def arrDelta (st : PState) : Int :=
  (countEv isArrayBeginEv st.events : Int) - (countEv isArrayEndEv st.events : Int)

/-- `st'` has the same object and array begin-minus-end event counts as `st`. -/
def Deltas (st st' : PState) : Prop :=
  objDelta st' = objDelta st ∧ arrDelta st' = arrDelta st

/-- Every successful outcome preserves the begin/end deltas. -/
def DOpt (st : PState) (r : Option PState) : Prop :=
  ∀ st', r = some st' → Deltas st st'

def DOptB (st : PState) (r : Option (PState × Bool)) : Prop :=
  ∀ p, r = some p → Deltas st p.1

/-- JS property read `obj[key]`. -/
def lookupMember (ms : List (List Nat × JValue)) (key : List Nat) : Option JValue :=
  (ms.find? (fun m => m.1 == key)).map (fun m => m.2)

/-- A sequence of JS property assignments (`currentParent[currentProperty] =
value` in `parse`'s visitor) applied in order. -/
def applyMemberWrites (ms : List (List Nat × JValue)) (ws : List (List Nat × JValue)) :
    List (List Nat × JValue) :=
  ws.foldl (fun m kv => setMember m kv.1 kv.2) ms

/-- The value of the last write to `key` in `ws`, if any (later writes take
priority). -/
def lastWrite : List (List Nat × JValue) → List Nat → Option JValue
  | [], _ => Option.none
  | kv :: ws, key =>
    match lastWrite ws key with
    | some v => some v
    | Option.none => if kv.1 == key then some kv.2 else Option.none

/- ------------------------------------------------------------------ -/
/- Lemmas.                                                             -/
/- ------------------------------------------------------------------ -/

/- ------------------------------------------------------------------ -/
/- The fuel-indexed computation framework, the reference JSON decoder   -/
/- of the standard grammar (spec side, for the refinement claim), and   -/
/- the simulation statements relating the two.                          -/
/- ------------------------------------------------------------------ -/

/- Step A: fuel-indexed computation framework -/

/-- `f` is a fuel-indexed computation that returns `x` once given enough
fuel, and never returns anything else at any fuel. -/
def RunsTo (f : Nat → Option α) (x : α) : Prop :=
  (∃ f0, ∀ fuel, f0 ≤ fuel → f fuel = some x) ∧
  (∀ fuel, f fuel = Option.none ∨ f fuel = some x)

/- Step B: the reference JSON decoder, modelled from the spec's standard
JSON grammar (no comments, no trailing commas). -/

/-- Whitespace of the standard JSON grammar: space, tab, line feed,
carriage return. -/
def isRefWs (c : Nat) : Bool :=
  c = 0x20 || c = 0x09 || c = 0x0A || c = 0x0D

def refSkipWsAux (text : List Nat) : Nat → Nat → Nat
  | 0, pos => pos
  | Nat.succ k, pos =>
    if pos < text.length ∧ isRefWs (charCodeAt text pos) then refSkipWsAux text k (pos + 1)
    else pos

/-- Skip standard-grammar whitespace. -/
def refSkipWs (text : List Nat) (pos : Nat) : Nat :=
  refSkipWsAux text (text.length - pos) pos

/-- Hex digit value, or none. -/
def hexVal (c : Nat) : Option Nat :=
  if CharacterCodes._0 ≤ c ∧ c ≤ CharacterCodes._9 then some (c - CharacterCodes._0)
  else if CharacterCodes.A ≤ c ∧ c ≤ CharacterCodes.F then some (c - CharacterCodes.A + 10)
  else if CharacterCodes.a ≤ c ∧ c ≤ CharacterCodes.f then some (c - CharacterCodes.a + 10)
  else Option.none

/-- The four-hex-digit code unit of a `\u` escape. -/
def refHex4 (text : List Nat) (pos : Nat) : Option Nat :=
  match hexVal (charCodeAt text pos), hexVal (charCodeAt text (pos + 1)),
      hexVal (charCodeAt text (pos + 2)), hexVal (charCodeAt text (pos + 3)) with
  | some a, some b, some c, some d => some (((a * 16 + b) * 16 + c) * 16 + d)
  | _, _, _, _ => Option.none

/-- The decoded value of a single-character escape of the standard grammar. -/
def refEscChar (c : Nat) : Option Nat :=
  if c = CharacterCodes.doubleQuote then some CharacterCodes.doubleQuote
  else if c = CharacterCodes.backslash then some CharacterCodes.backslash
  else if c = CharacterCodes.slash then some CharacterCodes.slash
  else if c = CharacterCodes.b then some CharacterCodes.backspace
  else if c = CharacterCodes.f then some CharacterCodes.formFeed
  else if c = CharacterCodes.n then some CharacterCodes.lineFeed
  else if c = CharacterCodes.r then some CharacterCodes.carriageReturn
  else if c = CharacterCodes.t then some CharacterCodes.tab
  else Option.none

/-- String body decoder of the standard grammar, `pos` just after the
opening quote; returns the decoded content and the position after the
closing quote.  Unescaped characters are any in-range code unit at or above
0x20 other than quote and backslash. -/
def refStringLoop (text : List Nat) : Nat → Nat → Option (List Nat × Nat)
  | 0, _ => Option.none
  | Nat.succ k, pos =>
    if text.length ≤ pos then Option.none
    else
      let c := charCodeAt text pos
      if c = CharacterCodes.doubleQuote then some ([], pos + 1)
      else if c = CharacterCodes.backslash then
        if charCodeAt text (pos + 1) = CharacterCodes.u then
          match refHex4 text (pos + 2) with
          | some h => (refStringLoop text k (pos + 6)).map (fun r => (h :: r.1, r.2))
          | Option.none => Option.none
        else
          match refEscChar (charCodeAt text (pos + 1)) with
          | some e => (refStringLoop text k (pos + 2)).map (fun r => (e :: r.1, r.2))
          | Option.none => Option.none
      else if c < 0x20 then Option.none
      else (refStringLoop text k (pos + 1)).map (fun r => (c :: r.1, r.2))

def refString (text : List Nat) (pos : Nat) : Option (List Nat × Nat) :=
  refStringLoop text (text.length + 1 - pos) pos

/-- Number of the standard grammar at `pos`: `[-] int [frac] [exp]` with
`int = 0 | [1-9][0-9]*`; returns its exact value and end position. -/
def refNumber (text : List Nat) (pos : Nat) : Option (JNum × Nat) :=
  let neg := charCodeAt text pos = CharacterCodes.minus
  let p0 := if neg then pos + 1 else pos
  let c := charCodeAt text p0
  if ¬ isDigit c then Option.none
  else
    let pInt := if c = CharacterCodes._0 then p0 + 1 else skipDigits text (p0 + 1)
    let fr : Option Nat :=
      if charCodeAt text pInt = CharacterCodes.dot then
        if isDigit (charCodeAt text (pInt + 1)) then some (skipDigits text (pInt + 2))
        else Option.none
      else some pInt
    match fr with
    | Option.none => Option.none
    | some pFrac =>
      let ex : Option (Bool × Nat × Nat) :=
        if charCodeAt text pFrac = CharacterCodes.e ∨ charCodeAt text pFrac = CharacterCodes.E then
          let pE1 :=
            if charCodeAt text (pFrac + 1) = CharacterCodes.plus ∨
                charCodeAt text (pFrac + 1) = CharacterCodes.minus then pFrac + 2
            else pFrac + 1
          if isDigit (charCodeAt text pE1) then
            some (charCodeAt text (pFrac + 1) = CharacterCodes.minus, pE1, skipDigits text (pE1 + 1))
          else Option.none
        else some (false, pFrac, pFrac)
      match ex with
      | Option.none => Option.none
      | some exr =>
        let intDs := substring text p0 pInt
        let fracDs := if pFrac = pInt then [] else substring text (pInt + 1) pFrac
        let expDs := substring text exr.2.1 exr.2.2
        some (ratOfParts neg (natOfDigits (intDs ++ fracDs)) fracDs.length exr.1 (natOfDigits expDs),
          exr.2.2)

/-- Duplicate-key policy of the reference decoder: last occurrence wins,
keeping the key's first position (a JS reference decoder's assignment). -/
def refInsert : List (List Nat × JValue) → List Nat → JValue → List (List Nat × JValue)
  | [], key, v => [(key, v)]
  | m :: ms, key, v =>
    if m.1 = key then (key, v) :: ms
    else m :: refInsert ms key v

mutual

/-- Value of the standard JSON grammar at `pos` (no leading whitespace);
returns the decoded value and its end position. -/
def refValue : Nat → List Nat → Nat → Option (JValue × Nat)
  | 0, _, _ => Option.none
  | Nat.succ k, text, pos =>
    let c := charCodeAt text pos
    if c = CharacterCodes.openBrace then
      let p1 := refSkipWs text (pos + 1)
      if charCodeAt text p1 = CharacterCodes.closeBrace then some (JValue.obj [], p1 + 1)
      else (refMembers k text p1 []).map (fun r => (JValue.obj r.1, r.2))
    else if c = CharacterCodes.openBracket then
      let p1 := refSkipWs text (pos + 1)
      if charCodeAt text p1 = CharacterCodes.closeBracket then some (JValue.arr [], p1 + 1)
      else (refElements k text p1 []).map (fun r => (JValue.arr r.1, r.2))
    else if c = CharacterCodes.doubleQuote then
      (refString text (pos + 1)).map (fun r => (JValue.str r.1, r.2))
    else if c = CharacterCodes.t then
      if charCodeAt text (pos + 1) = CharacterCodes.r ∧
          charCodeAt text (pos + 2) = CharacterCodes.u ∧
          charCodeAt text (pos + 3) = CharacterCodes.e then
        some (JValue.bool true, pos + 4)
      else Option.none
    else if c = CharacterCodes.f then
      if charCodeAt text (pos + 1) = CharacterCodes.a ∧
          charCodeAt text (pos + 2) = CharacterCodes.l ∧
          charCodeAt text (pos + 3) = CharacterCodes.s ∧
          charCodeAt text (pos + 4) = CharacterCodes.e then
        some (JValue.bool false, pos + 5)
      else Option.none
    else if c = CharacterCodes.n then
      if charCodeAt text (pos + 1) = CharacterCodes.u ∧
          charCodeAt text (pos + 2) = CharacterCodes.l ∧
          charCodeAt text (pos + 3) = CharacterCodes.l then
        some (JValue.null, pos + 4)
      else Option.none
    else
      (refNumber text pos).map (fun r => (JValue.num r.1, r.2))

/-- Member list of an object, `pos` at the opening quote of the next member
name; `acc` holds the members decoded so far.  Ends after the closing
brace. -/
def refMembers : Nat → List Nat → Nat → List (List Nat × JValue) →
    Option (List (List Nat × JValue) × Nat)
  | 0, _, _, _ => Option.none
  | Nat.succ k, text, pos, acc =>
    if charCodeAt text pos = CharacterCodes.doubleQuote then
      match refString text (pos + 1) with
      | Option.none => Option.none
      | some ks =>
        let p3 := refSkipWs text ks.2
        if charCodeAt text p3 = CharacterCodes.colon then
          match refValue k text (refSkipWs text (p3 + 1)) with
          | Option.none => Option.none
          | some vr =>
            let p6 := refSkipWs text vr.2
            let acc2 := refInsert acc ks.1 vr.1
            if charCodeAt text p6 = CharacterCodes.comma then
              refMembers k text (refSkipWs text (p6 + 1)) acc2
            else if charCodeAt text p6 = CharacterCodes.closeBrace then some (acc2, p6 + 1)
            else Option.none
        else Option.none
    else Option.none

/-- Element list of an array, `pos` at the first character of the next
element; ends after the closing bracket. -/
def refElements : Nat → List Nat → Nat → List JValue → Option (List JValue × Nat)
  | 0, _, _, _ => Option.none
  | Nat.succ k, text, pos, acc =>
    match refValue k text pos with
    | Option.none => Option.none
    | some vr =>
      let p2 := refSkipWs text vr.2
      if charCodeAt text p2 = CharacterCodes.comma then
        refElements k text (refSkipWs text (p2 + 1)) (acc ++ [vr.1])
      else if charCodeAt text p2 = CharacterCodes.closeBracket then
        some (acc ++ [vr.1], p2 + 1)
      else Option.none

end

/-- The reference JSON decoder: optional whitespace, one value of the
standard grammar, optional whitespace, end of input. -/
def refDecode (text : List Nat) : Option JValue :=
  match refValue (2 * text.length + 2) text (refSkipWs text 0) with
  | some vr => if refSkipWs text vr.2 = text.length then some vr.1 else Option.none
  | Option.none => Option.none

/-- The scanner state after one raw `scan` from position `q` (the scan
depends only on the text and the position). -/
def specScanner (text : List Nat) (q : Nat) : Scanner :=
  Scanner.scanNext
    { text := text, pos := q, value := [], tokenOffset := 0,
      token := SyntaxKind.Unknown, scanError := ScanError.None }

/-- The character after a keyword in valid JSON (whitespace, a structural
character, or the end of the text) never extends the keyword word. -/
def StopsWord (text : List Nat) (p : Nat) : Prop :=
  ¬ (p < text.length ∧ isUnknownContentCharacter (charCodeAt text p) = true)

/-- The token starting at `q` scans without error and is not trivia or
unknown. -/
def GoodTok (text : List Nat) (q : Nat) : Prop :=
  (specScanner text q).scanError = ScanError.None ∧
  (specScanner text q).token ≠ SyntaxKind.LineCommentTrivia ∧
  (specScanner text q).token ≠ SyntaxKind.BlockCommentTrivia ∧
  (specScanner text q).token ≠ SyntaxKind.LineBreakTrivia ∧
  (specScanner text q).token ≠ SyntaxKind.Trivia ∧
  (specScanner text q).token ≠ SyntaxKind.Unknown

/-- After a complete value of valid JSON, the next non-whitespace position
holds a separator, a closing bracket or brace, or the end of the text. -/
def NextTok (text : List Nat) (p : Nat) : Prop :=
  text.length ≤ refSkipWs text p ∨
  charCodeAt text (refSkipWs text p) = CharacterCodes.comma ∨
  charCodeAt text (refSkipWs text p) = CharacterCodes.closeBrace ∨
  charCodeAt text (refSkipWs text p) = CharacterCodes.closeBracket

/-- Replaying the events of one parsed value attaches the value to the
current parent under the pending property, leaving the parent stack
unchanged (the pending-property residue after the events is arbitrary). -/
def ReplayVal (δ : List VisitEvent) (v : JValue) : Prop :=
  ∀ acc : ParseAcc, ∃ prop',
    List.foldl replayStep acc δ =
      { currentProperty := prop',
        currentParent := onValue acc.currentParent acc.currentProperty v,
        previousParents := acc.previousParents }

/-- Replaying the events of an object's member list turns the open object
`ms0` into `ms`, leaving the parent stack unchanged. -/
def ReplayMems (δ : List VisitEvent) (ms0 ms : List (List Nat × JValue)) : Prop :=
  ∀ acc : ParseAcc, acc.currentParent = JValue.obj ms0 → ∃ prop',
    List.foldl replayStep acc δ =
      { currentProperty := prop', currentParent := JValue.obj ms,
        previousParents := acc.previousParents }

/-- Replaying the events of an array's element list turns the open array
`xs0` into `xs`, leaving the parent stack unchanged. -/
def ReplayElems (δ : List VisitEvent) (xs0 xs : List JValue) : Prop :=
  ∀ acc : ParseAcc, acc.currentParent = JValue.arr xs0 → ∃ prop',
    List.foldl replayStep acc δ =
      { currentProperty := prop', currentParent := JValue.arr xs,
        previousParents := acc.previousParents }

/-- Event is an error event. -/
def IsErrEv : VisitEvent → Bool
  | VisitEvent.error _ _ _ => true
  | _ => false

/-- No error events among `δ`. -/
def NoErr (δ : List VisitEvent) : Prop := ∀ e ∈ δ, IsErrEv e = false

/-- Simulation statement for `refValue` against `parseValue`. -/
def SimV (kr : Nat) : Prop :=
  ∀ text q v p', refValue kr text q = some (v, p') → NextTok text p' →
    ∃ δ, NoErr δ ∧ ReplayVal δ v ∧
      ∀ evs, RunsTo (fun k => parseValue k ParseOptions.DEFAULT
          ({ scn := specScanner text q, events := evs } : PState))
        (({ scn := specScanner text (refSkipWs text p'), events := δ.reverse ++ evs } : PState),
          true)

/-- Simulation statement for `refMembers` against the member loop of
`parseObject`; the loop is left at the closing brace token. -/
def SimM (kr : Nat) : Prop :=
  ∀ text q acc0 ms p', refMembers kr text q acc0 = some (ms, p') →
    ∃ δ, NoErr δ ∧ ReplayMems δ acc0 ms ∧
      1 ≤ p' ∧ charCodeAt text (p' - 1) = CharacterCodes.closeBrace ∧
      ∀ evs, RunsTo (fun k =>
          (parseObjectStep k ParseOptions.DEFAULT
            ({ scn := specScanner text q, events := evs } : PState)).bind
            (fun stD => parseObjectLoop k ParseOptions.DEFAULT true stD))
        ({ scn := specScanner text (p' - 1), events := δ.reverse ++ evs } : PState)

/-- Simulation statement for `refElements` against the element loop of
`parseArray`; the loop is left at the closing bracket token. -/
def SimE (kr : Nat) : Prop :=
  ∀ text q acc0 xs p', refElements kr text q acc0 = some (xs, p') →
    ∃ δ, NoErr δ ∧ ReplayElems δ acc0 xs ∧
      1 ≤ p' ∧ charCodeAt text (p' - 1) = CharacterCodes.closeBracket ∧
      ∀ evs, RunsTo (fun k =>
          (parseArrayStep k ParseOptions.DEFAULT
            ({ scn := specScanner text q, events := evs } : PState)).bind
            (fun stD => parseArrayLoop k ParseOptions.DEFAULT true stD))
        ({ scn := specScanner text (p' - 1), events := δ.reverse ++ evs } : PState)

theorem countEv_cons (p : VisitEvent → Bool) (e : VisitEvent) (evs : List VisitEvent) :
    countEv p (e :: evs) = (if p e then 1 else 0) + countEv p evs := by
  simp only [countEv, List.filter_cons]
  split <;> simp [Nat.add_comm]

theorem objDelta_emit (st : PState) (f : Nat → Nat → VisitEvent) :
    objDelta (st.emit f) = objDelta st
      + (if isObjectBeginEv (f st.scn.tokenOffset st.scn.tokenLength) then 1 else 0)
      - (if isObjectEndEv (f st.scn.tokenOffset st.scn.tokenLength) then 1 else 0) := by
  unfold objDelta PState.emit
  rw [countEv_cons, countEv_cons]
  split_ifs <;> push_cast <;> omega

theorem arrDelta_emit (st : PState) (f : Nat → Nat → VisitEvent) :
    arrDelta (st.emit f) = arrDelta st
      + (if isArrayBeginEv (f st.scn.tokenOffset st.scn.tokenLength) then 1 else 0)
      - (if isArrayEndEv (f st.scn.tokenOffset st.scn.tokenLength) then 1 else 0) := by
  unfold arrDelta PState.emit
  rw [countEv_cons, countEv_cons]
  split_ifs <;> push_cast <;> omega

theorem Deltas.refl (st : PState) : Deltas st st := ⟨Eq.refl _, Eq.refl _⟩

theorem Deltas.trans {a b c : PState} (h1 : Deltas a b) (h2 : Deltas b c) : Deltas a c :=
  ⟨h2.1.trans h1.1, h2.2.trans h1.2⟩

theorem Deltas.scn (st : PState) (x : Scanner) : Deltas st { st with scn := x } :=
  ⟨Eq.refl _, Eq.refl _⟩

theorem Deltas.emit_error (st : PState) (c : ParseErrorCode) :
    Deltas st (st.emit (VisitEvent.error c)) := by
  constructor <;> simp [objDelta_emit, arrDelta_emit, isObjectBeginEv, isObjectEndEv,
    isArrayBeginEv, isArrayEndEv]

theorem Deltas.emit_comment (st : PState) :
    Deltas st (st.emit VisitEvent.comment) := by
  constructor <;> simp [objDelta_emit, arrDelta_emit, isObjectBeginEv, isObjectEndEv,
    isArrayBeginEv, isArrayEndEv]

theorem Deltas.emit_literal (st : PState) (l : JLit) :
    Deltas st (st.emit (VisitEvent.literal l)) := by
  constructor <;> simp [objDelta_emit, arrDelta_emit, isObjectBeginEv, isObjectEndEv,
    isArrayBeginEv, isArrayEndEv]

theorem Deltas.emit_property (st : PState) (v : List Nat) :
    Deltas st (st.emit (VisitEvent.objectProperty v)) := by
  constructor <;> simp [objDelta_emit, arrDelta_emit, isObjectBeginEv, isObjectEndEv,
    isArrayBeginEv, isArrayEndEv]

theorem Deltas.emit_separator (st : PState) (c : Nat) :
    Deltas st (st.emit (VisitEvent.separator c)) := by
  constructor <;> simp [objDelta_emit, arrDelta_emit, isObjectBeginEv, isObjectEndEv,
    isArrayBeginEv, isArrayEndEv]

theorem dOptNone (st : PState) : DOpt st Option.none := fun _ h => nomatch h

theorem dOptSome {st st' : PState} (h : Deltas st st') : DOpt st (some st') :=
  fun _ e => by cases e; exact h

theorem dOptBSome {st st' : PState} {b : Bool} (h : Deltas st st') : DOptB st (some (st', b)) :=
  fun _ e => by cases e; exact h

theorem dOptPre {st stm : PState} {r : Option PState} (h0 : Deltas st stm) (h : DOpt stm r) :
    DOpt st r :=
  fun st' e => h0.trans (h st' e)

theorem dOptBPre {st stm : PState} {r : Option (PState × Bool)} (h0 : Deltas st stm)
    (h : DOptB stm r) : DOptB st r :=
  fun p e => h0.trans (h p e)

theorem dOptBindO {st : PState} {r : Option PState} {f : PState → Option PState}
    (h1 : DOpt st r) (h2 : ∀ x, DOpt x (f x)) : DOpt st (r.bind f) := by
  cases r with
  | none => exact fun _ h => nomatch h
  | some x => exact dOptPre (h1 x rfl) (h2 x)

theorem dOptBBindO {st : PState} {r : Option PState} {f : PState → Option (PState × Bool)}
    (h1 : DOpt st r) (h2 : ∀ x, DOptB x (f x)) : DOptB st (r.bind f) := by
  cases r with
  | none => exact fun _ h => nomatch h
  | some x => exact dOptBPre (h1 x rfl) (h2 x)

theorem dOptBindB {st : PState} {r : Option (PState × Bool)} {f : PState × Bool → Option PState}
    (h1 : DOptB st r) (h2 : ∀ x, DOpt x.1 (f x)) : DOpt st (r.bind f) := by
  cases r with
  | none => exact fun _ h => nomatch h
  | some x => exact dOptPre (h1 x rfl) (h2 x)

theorem dOptBBindB {st : PState} {r : Option (PState × Bool)}
    {f : PState × Bool → Option (PState × Bool)}
    (h1 : DOptB st r) (h2 : ∀ x, DOptB x.1 (f x)) : DOptB st (r.bind f) := by
  cases r with
  | none => exact fun _ h => nomatch h
  | some x => exact dOptBPre (h1 x rfl) (h2 x)

/-- Every parser routine of `visit` preserves the begin/end event balance:
object-end events only ever accompany the object-begin of the same
`parseObject` activation, and likewise for arrays. -/
theorem visit_balanced (fuel : Nat) :
    (∀ opts st, DOpt st (visitScanNext fuel opts st)) ∧
    (∀ opts code a b st, DOpt st (handleError fuel opts code a b st)) ∧
    (∀ opts a b st, DOpt st (handleErrorLoop fuel opts a b st)) ∧
    (∀ opts isValue st, DOpt st (parseStringRule fuel opts isValue st)) ∧
    (∀ opts st, DOptB st (parseLiteral fuel opts st)) ∧
    (∀ opts st, DOptB st (parseProperty fuel opts st)) ∧
    (∀ opts st, DOpt st (parseObjectStep fuel opts st)) ∧
    (∀ opts nc st, DOpt st (parseObjectLoop fuel opts nc st)) ∧
    (∀ opts st, DOpt st (parseObject fuel opts st)) ∧
    (∀ opts st, DOpt st (parseArrayStep fuel opts st)) ∧
    (∀ opts nc st, DOpt st (parseArrayLoop fuel opts nc st)) ∧
    (∀ opts st, DOpt st (parseArray fuel opts st)) ∧
    (∀ opts st, DOptB st (parseValue fuel opts st)) := by
  induction fuel with
  | zero =>
    refine ⟨?_, ?_, ?_, ?_, ?_, ?_, ?_, ?_, ?_, ?_, ?_, ?_, ?_⟩ <;> intros <;>
      exact fun _ h => nomatch h
  | succ n ih =>
    obtain ⟨ihScan, ihHE, ihHEL, ihStr, ihLit, ihProp, ihOStep, ihOLoop, ihObj,
      ihAStep, ihALoop, ihArr, ihVal⟩ := ih
    refine ⟨?_, ?_, ?_, ?_, ?_, ?_, ?_, ?_, ?_, ?_, ?_, ?_, ?_⟩
    · -- visitScanNext
      intro opts st
      simp only [visitScanNext]
      apply dOptBindO
      · split
        · exact dOptPre (Deltas.scn st _) (ihHE _ _ _ _ _)
        · exact dOptPre (Deltas.scn st _) (ihHE _ _ _ _ _)
        · exact dOptPre (Deltas.scn st _) (ihHE _ _ _ _ _)
        · split
          · exact dOptPre (Deltas.scn st _) (ihHE _ _ _ _ _)
          · exact dOptSome (Deltas.scn st _)
        · exact dOptPre (Deltas.scn st _) (ihHE _ _ _ _ _)
        · exact dOptPre (Deltas.scn st _) (ihHE _ _ _ _ _)
        · exact dOptSome (Deltas.scn st _)
      · intro st2
        split
        · split
          · exact dOptBindO (ihHE _ _ _ _ _) (fun st3 => ihScan _ _)
          · exact dOptPre (Deltas.emit_comment st2) (ihScan _ _)
        · split
          · exact dOptBindO (ihHE _ _ _ _ _) (fun st3 => ihScan _ _)
          · exact dOptPre (Deltas.emit_comment st2) (ihScan _ _)
        · exact dOptBindO (ihHE _ _ _ _ _) (fun st3 => ihScan _ _)
        · exact ihScan _ _
        · exact ihScan _ _
        · exact dOptSome (Deltas.refl st2)
    · -- handleError
      intro opts code a b st
      simp only [handleError]
      split
      · exact dOptPre (Deltas.emit_error st code) (ihHEL _ _ _ _)
      · exact dOptSome (Deltas.emit_error st code)
    · -- handleErrorLoop
      intro opts a b st
      simp only [handleErrorLoop]
      split
      · exact dOptSome (Deltas.refl st)
      · split
        · exact ihScan _ _
        · split
          · exact dOptSome (Deltas.refl st)
          · exact dOptBindO (ihScan _ _) (fun st2 => ihHEL _ _ _ _)
    · -- parseStringRule
      intro opts isValue st
      simp only [parseStringRule]
      split
      · exact dOptPre (Deltas.emit_literal st _) (ihScan _ _)
      · exact dOptPre (Deltas.emit_property st _) (ihScan _ _)
    · -- parseLiteral
      intro opts st
      simp only [parseLiteral]
      split
      · split
        · exact dOptBBindO (dOptPre (Deltas.emit_literal st _) (ihScan _ _))
            (fun st2 => dOptBSome (Deltas.refl st2))
        · apply dOptBBindO (ihHE _ _ _ _ _)
          intro st1
          exact dOptBBindO (dOptPre (Deltas.emit_literal st1 _) (ihScan _ _))
            (fun st2 => dOptBSome (Deltas.refl st2))
      · exact dOptBBindO (dOptPre (Deltas.emit_literal st _) (ihScan _ _))
          (fun st2 => dOptBSome (Deltas.refl st2))
      · exact dOptBBindO (dOptPre (Deltas.emit_literal st _) (ihScan _ _))
          (fun st2 => dOptBSome (Deltas.refl st2))
      · exact dOptBBindO (dOptPre (Deltas.emit_literal st _) (ihScan _ _))
          (fun st2 => dOptBSome (Deltas.refl st2))
      · exact dOptBSome (Deltas.refl st)
    · -- parseProperty
      intro opts st
      simp only [parseProperty]
      split
      · exact dOptBBindO (ihHE _ _ _ _ _) (fun st1 => dOptBSome (Deltas.refl st1))
      · apply dOptBBindO (ihStr _ _ _)
        intro st1
        split
        · apply dOptBBindO (dOptPre (Deltas.emit_separator st1 _) (ihScan _ _))
          intro st3
          apply dOptBBindB (ihVal _ _)
          intro vres
          split
          · exact dOptBSome (Deltas.refl _)
          · exact dOptBBindO (ihHE _ _ _ _ _) (fun st4 => dOptBSome (Deltas.refl st4))
        · exact dOptBBindO (ihHE _ _ _ _ _) (fun st2 => dOptBSome (Deltas.refl st2))
    · -- parseObjectStep
      intro opts st
      simp only [parseObjectStep]
      apply dOptBindB (ihProp _ _)
      intro pres
      split
      · exact dOptSome (Deltas.refl _)
      · exact ihHE _ _ _ _ _
    · -- parseObjectLoop
      intro opts nc st
      simp only [parseObjectLoop]
      split
      · exact dOptSome (Deltas.refl st)
      · split
        · apply dOptBindO
          · split
            · exact dOptSome (Deltas.refl st)
            · exact ihHE _ _ _ _ _
          · intro stA
            apply dOptBindO (dOptPre (Deltas.emit_separator stA _) (ihScan _ _))
            intro stC
            split
            · exact dOptSome (Deltas.refl stC)
            · exact dOptBindO (ihOStep _ _) (fun stD => ihOLoop _ _ _)
        · apply dOptBindO
          · split
            · exact ihHE _ _ _ _ _
            · exact dOptSome (Deltas.refl st)
          · intro stA
            exact dOptBindO (ihOStep _ _) (fun stD => ihOLoop _ _ _)
    · -- parseObject
      intro opts st
      simp only [parseObject]
      intro st' heq
      rcases h2 : visitScanNext n opts (st.emit VisitEvent.objectBegin) with _ | st2
      · rw [h2] at heq; simp at heq
      rw [h2] at heq
      simp only [Option.some_bind] at heq
      rcases h3 : parseObjectLoop n opts false st2 with _ | st3
      · rw [h3] at heq; simp at heq
      rw [h3] at heq
      simp only [Option.some_bind] at heq
      have hA : Deltas (st.emit VisitEvent.objectBegin) st2 := ihScan _ _ st2 h2
      have hB : Deltas st2 st3 := ihOLoop _ _ _ st3 h3
      have hEnd : ∀ st'', Deltas (st3.emit VisitEvent.objectEnd) st'' → Deltas st st'' := by
        intro st'' hD
        have o1 := objDelta_emit st VisitEvent.objectBegin
        have o2 := objDelta_emit st3 VisitEvent.objectEnd
        have a1 := arrDelta_emit st VisitEvent.objectBegin
        have a2 := arrDelta_emit st3 VisitEvent.objectEnd
        simp only [isObjectBeginEv, isObjectEndEv, isArrayBeginEv, isArrayEndEv,
          if_true, if_false] at o1 o2 a1 a2
        obtain ⟨hD1, hD2⟩ := hD
        obtain ⟨hA1, hA2⟩ := hA
        obtain ⟨hB1, hB2⟩ := hB
        constructor <;> omega
      split at heq
      · exact hEnd st' (ihHE _ _ _ _ _ st' heq)
      · exact hEnd st' (ihScan _ _ st' heq)
    · -- parseArrayStep
      intro opts st
      simp only [parseArrayStep]
      apply dOptBindB (ihVal _ _)
      intro vres
      split
      · exact dOptSome (Deltas.refl _)
      · exact ihHE _ _ _ _ _
    · -- parseArrayLoop
      intro opts nc st
      simp only [parseArrayLoop]
      split
      · exact dOptSome (Deltas.refl st)
      · split
        · apply dOptBindO
          · split
            · exact dOptSome (Deltas.refl st)
            · exact ihHE _ _ _ _ _
          · intro stA
            apply dOptBindO (dOptPre (Deltas.emit_separator stA _) (ihScan _ _))
            intro stC
            split
            · exact dOptSome (Deltas.refl stC)
            · exact dOptBindO (ihAStep _ _) (fun stD => ihALoop _ _ _)
        · apply dOptBindO
          · split
            · exact ihHE _ _ _ _ _
            · exact dOptSome (Deltas.refl st)
          · intro stA
            exact dOptBindO (ihAStep _ _) (fun stD => ihALoop _ _ _)
    · -- parseArray
      intro opts st
      simp only [parseArray]
      intro st' heq
      rcases h2 : visitScanNext n opts (st.emit VisitEvent.arrayBegin) with _ | st2
      · rw [h2] at heq; simp at heq
      rw [h2] at heq
      simp only [Option.some_bind] at heq
      rcases h3 : parseArrayLoop n opts false st2 with _ | st3
      · rw [h3] at heq; simp at heq
      rw [h3] at heq
      simp only [Option.some_bind] at heq
      have hA : Deltas (st.emit VisitEvent.arrayBegin) st2 := ihScan _ _ st2 h2
      have hB : Deltas st2 st3 := ihALoop _ _ _ st3 h3
      have hEnd : ∀ st'', Deltas (st3.emit VisitEvent.arrayEnd) st'' → Deltas st st'' := by
        intro st'' hD
        have o1 := objDelta_emit st VisitEvent.arrayBegin
        have o2 := objDelta_emit st3 VisitEvent.arrayEnd
        have a1 := arrDelta_emit st VisitEvent.arrayBegin
        have a2 := arrDelta_emit st3 VisitEvent.arrayEnd
        simp only [isObjectBeginEv, isObjectEndEv, isArrayBeginEv, isArrayEndEv,
          if_true, if_false] at o1 o2 a1 a2
        obtain ⟨hD1, hD2⟩ := hD
        obtain ⟨hA1, hA2⟩ := hA
        obtain ⟨hB1, hB2⟩ := hB
        constructor <;> omega
      split at heq
      · exact hEnd st' (ihHE _ _ _ _ _ st' heq)
      · exact hEnd st' (ihScan _ _ st' heq)
    · -- parseValue
      intro opts st
      simp only [parseValue]
      split
      · exact dOptBBindO (ihArr _ _) (fun st2 => dOptBSome (Deltas.refl st2))
      · exact dOptBBindO (ihObj _ _) (fun st2 => dOptBSome (Deltas.refl st2))
      · exact dOptBBindO (ihStr _ _ _) (fun st2 => dOptBSome (Deltas.refl st2))
      · exact ihLit _ _

/-- A whole `visit` run preserves the begin/end event balance from the empty
initial event list. -/
theorem visitCore_deltas (fuel : Nat) (opts : ParseOptions) (text : List Nat) :
    DOptB { scn := createScanner text, events := [] } (visitCore fuel opts text) := by
  obtain ⟨hScan, hHE, _, _, _, _, _, _, _, _, _, _, hVal⟩ := visit_balanced fuel
  unfold visitCore
  apply dOptBBindO (hScan _ _)
  intro st1
  split
  · split
    · exact dOptBSome (Deltas.refl st1)
    · exact dOptBBindO (hHE _ _ _ _ _) (fun st2 => dOptBSome (Deltas.refl st2))
  · apply dOptBBindB (hVal _ _)
    intro vres
    split
    · split
      · exact dOptBBindO (hHE _ _ _ _ _) (fun st3 => dOptBSome (Deltas.refl st3))
      · exact dOptBSome (Deltas.refl _)
    · exact dOptBBindO (hHE _ _ _ _ _) (fun st3 => dOptBSome (Deltas.refl st3))

/-- Every branch of `scanNumber` returns some substring of the text starting
at the token start as the token value. -/
theorem scanNumber_substring (text : List Nat) (start : Nat) :
    ∃ e, (scanNumber text start).1 = substring text start e := by
  simp only [scanNumber, scanNumberExponent]
  split_ifs <;> exact ⟨_, rfl⟩

theorem lookupMember_setMember_self (ms : List (List Nat × JValue)) (key : List Nat) (v : JValue) :
    lookupMember (setMember ms key v) key = some v := by
  induction ms with
  | nil => simp [setMember, lookupMember, List.find?]
  | cons m ms ih =>
    by_cases h : m.1 = key
    · simp [setMember, if_pos h, lookupMember, List.find?]
    · have hb : (m.1 == key) = false := by simp [h]
      simp only [setMember, if_neg h, lookupMember, List.find?, hb]
      simpa [lookupMember] using ih

theorem lookupMember_setMember_other (ms : List (List Nat × JValue)) (key key' : List Nat)
    (v : JValue) (h : key' ≠ key) :
    lookupMember (setMember ms key' v) key = lookupMember ms key := by
  have hb : (key' == key) = false := by simp [h]
  induction ms with
  | nil => simp [setMember, lookupMember, List.find?, hb]
  | cons m ms ih =>
    by_cases hm : m.1 = key'
    · have h2 : (m.1 == key) = false := by simp [hm, h]
      simp [setMember, if_pos hm, lookupMember, List.find?, hb, h2]
    · simp only [setMember, if_neg hm]
      simp only [lookupMember, List.find?] at *
      cases hc : (m.1 == key) <;> simp [hc, ih]

/-- Applying a sequence of JS property assignments leaves exactly the last
written value under each key; keys never written keep their old binding. -/
theorem applyMemberWrites_lastWrite (ws : List (List Nat × JValue))
    (ms : List (List Nat × JValue)) (key : List Nat) :
    lookupMember (applyMemberWrites ms ws) key
      = match lastWrite ws key with
        | some v => some v
        | Option.none => lookupMember ms key := by
  induction ws generalizing ms with
  | nil => simp [applyMemberWrites, lastWrite]
  | cons kv ws ih =>
    simp only [applyMemberWrites, List.foldl_cons] at *
    rw [ih, lastWrite]
    cases hl : lastWrite ws key with
    | some v => simp
    | none =>
      simp only []
      by_cases hk : kv.1 = key
      · subst hk
        simp [lookupMember_setMember_self]
      · have hb : (kv.1 == key) = false := by simp [hk]
        simp [hb, lookupMember_setMember_other _ _ _ _ hk]

/- ------------------------------------------------------------------ -/
/- Claims.                                                             -/
/- ------------------------------------------------------------------ -/

/-- C2 (amended): parsing `{"a":1,}` with `allowTrailingComma = true` yields
zero errors and the object `\x7ba: 1\x7d`; with the option false the parser
still yields that object, but records exactly two errors — property-name-
expected and value-expected, both at the closing brace — because the failed
`parseProperty` on the `}` after the comma reports those, not a
comma-expected error. -/
theorem claim_C2 :
    parse 1000 (strCodes "\x7b\"a\":1,\x7d") { allowTrailingComma := true }
      = some (some (JValue.obj [(strCodes "a", JValue.num 1)]), []) ∧
    parse 1000 (strCodes "\x7b\"a\":1,\x7d") { allowTrailingComma := false }
      = some (some (JValue.obj [(strCodes "a", JValue.num 1)]),
          [⟨ParseErrorCode.PropertyNameExpected, 7, 1⟩, ⟨ParseErrorCode.ValueExpected, 7, 1⟩]) :=
  ⟨rfl, rfl⟩

/-- C2 (counterexample): with `allowTrailingComma = false` the errors
recorded for `{"a":1,}` are not one comma-expected error, contrary to the
claim. -/
theorem claim_C2_counterexample :
    (parse 1000 (strCodes "\x7b\"a\":1,\x7d") { allowTrailingComma := false }).map
        (fun r => r.2.map (fun pe => pe.error))
      ≠ some [ParseErrorCode.CommaExpected] := by
  decide

/-- C3: parsing `{"a" 1}` yields exactly one colon-expected error (at the
numeric token) and the empty object: the member `"a"` is discarded, not
associated with 1. -/
theorem claim_C3 :
    parse 1000 (strCodes "\x7b\"a\" 1\x7d") ParseOptions.DEFAULT
      = some (some (JValue.obj []), [⟨ParseErrorCode.ColonExpected, 5, 1⟩]) :=
  rfl

/-- C4 (amended): parsing the truncated text `{"a": "b` yields the object
`\x7ba: "b"\x7d` with the partial string content, but two errors rather than
one: unexpected-end-of-string for the unterminated string and
close-brace-expected for the unterminated object. -/
theorem claim_C4 :
    parse 1000 (strCodes "\x7b\"a\": \"b") ParseOptions.DEFAULT
      = some (some (JValue.obj [(strCodes "a", JValue.str (strCodes "b"))]),
          [⟨ParseErrorCode.UnexpectedEndOfString, 6, 2⟩,
           ⟨ParseErrorCode.CloseBraceExpected, 8, 0⟩]) :=
  rfl

/-- C4 (counterexample): parsing `{"a": "b` does not record exactly one
unexpected-end-of-string error, contrary to the claim. -/
theorem claim_C4_counterexample :
    (parse 1000 (strCodes "\x7b\"a\": \"b") ParseOptions.DEFAULT).map
        (fun r => r.2.map (fun pe => pe.error))
      ≠ some [ParseErrorCode.UnexpectedEndOfString] := by
  decide

/-- C5: parsing the empty string with `allowEmptyContent = false` yields an
absent value and exactly one value-expected error at offset 0 (and `visit`
returns false); with `allowEmptyContent = true` it succeeds with an absent
value and zero errors (and `visit` returns true). -/
theorem claim_C5 :
    parse 1000 (strCodes "") { allowEmptyContent := false }
      = some (Option.none, [⟨ParseErrorCode.ValueExpected, 0, 0⟩]) ∧
    parse 1000 (strCodes "") { allowEmptyContent := true } = some (Option.none, []) ∧
    (visitCore 1000 { allowEmptyContent := false } (strCodes "")).map (fun r => r.2)
      = some false ∧
    (visitCore 1000 { allowEmptyContent := true } (strCodes "")).map (fun r => r.2)
      = some true :=
  ⟨rfl, rfl, rfl, rfl⟩

/-- C6: in every completed run of `visit`, object-begin events are matched
one-for-one by object-end events, and likewise for arrays — the end event is
emitted even when the closing brace/bracket is missing, in which case a
close-brace/close-bracket-expected error is recorded as well, as the run on
the truncated text `{"a":[1` shows. -/
theorem claim_C6 :
    (∀ fuel opts text res, visitCore fuel opts text = some res →
      countEv isObjectBeginEv res.1.events = countEv isObjectEndEv res.1.events ∧
      countEv isArrayBeginEv res.1.events = countEv isArrayEndEv res.1.events) ∧
    (visitCore 1000 ParseOptions.DEFAULT (strCodes "\x7b\"a\":[1")).map
        (fun res => res.1.events.reverse)
      = some [VisitEvent.objectBegin 0 1, VisitEvent.objectProperty (strCodes "a") 1 3,
          VisitEvent.separator CharacterCodes.colon 4 1, VisitEvent.arrayBegin 5 1,
          VisitEvent.literal (JLit.num 1) 6 1, VisitEvent.arrayEnd 7 0,
          VisitEvent.error ParseErrorCode.CloseBracketExpected 7 0, VisitEvent.objectEnd 7 0,
          VisitEvent.error ParseErrorCode.CloseBraceExpected 7 0] := by
  constructor
  · intro fuel opts text res h
    obtain ⟨h1, h2⟩ := visitCore_deltas fuel opts text res h
    have hz1 : objDelta { scn := createScanner text, events := [] } = 0 := by
      simp [objDelta, countEv]
    have hz2 : arrDelta { scn := createScanner text, events := [] } = 0 := by
      simp [arrDelta, countEv]
    rw [hz1] at h1
    rw [hz2] at h2
    simp only [objDelta] at h1
    simp only [arrDelta] at h2
    constructor <;> omega
  · rfl

/-- C6 (witness): the balance statement applied to the concrete run of
`visit` on `{"a":[1`. -/
theorem claim_C6_witness :
    ∃ res, visitCore 1000 ParseOptions.DEFAULT (strCodes "\x7b\"a\":[1") = some res ∧
      countEv isObjectBeginEv res.1.events = countEv isObjectEndEv res.1.events ∧
      countEv isArrayBeginEv res.1.events = countEv isArrayEndEv res.1.events :=
  ⟨_, rfl, claim_C6.1 1000 ParseOptions.DEFAULT (strCodes "\x7b\"a\":[1") _ rfl⟩

/-- C7: `"0"` parses to the number 0 with no errors; in `"01"` the scanner
ends the numeric token right after the leading 0 (a 0 integer part is never
extended), so `parse` returns 0 together with exactly one
end-of-file-expected error at the trailing `1`. -/
theorem claim_C7 :
    parse 1000 (strCodes "0") ParseOptions.DEFAULT = some (some (JValue.num 0), []) ∧
    scanNumber (strCodes "01") 0 = (strCodes "0", 1, ScanError.None) ∧
    parse 1000 (strCodes "01") ParseOptions.DEFAULT
      = some (some (JValue.num 0), [⟨ParseErrorCode.EndOfFileExpected, 1, 1⟩]) :=
  ⟨rfl, rfl, rfl⟩

/-- C8: a malformed fractional or exponent part makes `scanNumber` flag
unexpected-end-of-number while still returning a best-effort substring of
the input as the token value; for `1.2e` the value is the substring `1.2` up
to the exponent marker (the scan position having advanced past the `e`), and
for `1.` the partial fraction `1.` is returned. -/
theorem claim_C8 :
    (∀ text start, ∃ e, (scanNumber text start).1 = substring text start e) ∧
    scanNumber (strCodes "1.2e") 0 = (strCodes "1.2", 4, ScanError.UnexpectedEndOfNumber) ∧
    scanNumber (strCodes "1.") 0 = (strCodes "1.", 2, ScanError.UnexpectedEndOfNumber) :=
  ⟨scanNumber_substring, rfl, rfl⟩

/-- C9: the object materializer's property assignment is last-write-wins —
after any sequence of member writes the object maps each key to the value of
its last write (earlier bindings kept only for keys not written) — and
concretely `{"a":1,"a":2}` parses to the one-member object `\x7ba: 2\x7d`
with the earlier value 1 gone. -/
theorem claim_C9 :
    (∀ ws ms key, lookupMember (applyMemberWrites ms ws) key
        = match lastWrite ws key with
          | some v => some v
          | Option.none => lookupMember ms key) ∧
    parse 1000 (strCodes "\x7b\"a\":1,\"a\":2\x7d") ParseOptions.DEFAULT
      = some (some (JValue.obj [(strCodes "a", JValue.num 2)]), []) :=
  ⟨applyMemberWrites_lastWrite, rfl⟩

/-- C10: `getNodeType` classifies the absent (undefined) value as 'null',
the same result as for a parsed JSON null — so they are indistinguishable by
`getNodeType` alone — and maps objects to 'object', booleans to 'boolean',
numbers to 'number' and strings to 'string'. -/
theorem claim_C10 :
    getNodeType Option.none = NodeType.null ∧
    getNodeType (some JValue.null) = NodeType.null ∧
    (∀ ms, getNodeType (some (JValue.obj ms)) = NodeType.object) ∧
    (∀ b, getNodeType (some (JValue.bool b)) = NodeType.boolean) ∧
    (∀ q, getNodeType (some (JValue.num q)) = NodeType.number) ∧
    (∀ s, getNodeType (some (JValue.str s)) = NodeType.string) :=
  ⟨rfl, rfl, fun _ => rfl, fun _ => rfl, fun _ => rfl, fun _ => rfl⟩

/- ------------------------------------------------------------------ -/
/- Proofs of the scanner, decoder and parser correspondence.           -/
/- ------------------------------------------------------------------ -/

theorem RunsTo.ret {α : Type} (g : Nat → Option α) (x : α) (h : ∀ fuel, g fuel = some x) :
    RunsTo g x :=
  ⟨⟨0, fun fuel _ => h fuel⟩, fun fuel => Or.inr (h fuel)⟩

theorem runsTo_pred {α : Type} {F : Nat → Option α} {x : α} (h0 : F 0 = Option.none)
    (h : RunsTo (fun k => F (k + 1)) x) : RunsTo F x := by
  obtain ⟨⟨f0, hs⟩, hd⟩ := h
  constructor
  · refine ⟨f0 + 1, fun fuel hf => ?_⟩
    cases fuel with
    | zero => omega
    | succ k => exact hs k (by omega)
  · intro fuel
    cases fuel with
    | zero => exact Or.inl h0
    | succ k => exact hd k

theorem RunsTo.bindF {α β : Type} {A : Nat → Option α} {B : α → Nat → Option β} {x : α} {y : β}
    (h1 : RunsTo A x) (h2 : RunsTo (fun k => B x k) y) :
    RunsTo (fun k => (A k).bind (fun a => B a k)) y := by
  obtain ⟨⟨a0, ha⟩, had⟩ := h1
  obtain ⟨⟨b0, hb⟩, hbd⟩ := h2
  constructor
  · refine ⟨max a0 b0, fun fuel hf => ?_⟩
    show (A fuel).bind (fun a => B a fuel) = some y
    rw [ha fuel (by omega)]
    simpa using hb fuel (by omega)
  · intro fuel
    show (A fuel).bind (fun a => B a fuel) = Option.none ∨
      (A fuel).bind (fun a => B a fuel) = some y
    rcases had fuel with h | h
    · rw [h]; exact Or.inl rfl
    · rw [h]; simpa using hbd fuel

theorem runsTo_congr {α : Type} {F G : Nat → Option α} {x : α} (he : ∀ k, F k = G k)
    (h : RunsTo G x) : RunsTo F x := by
  obtain ⟨⟨f0, hs⟩, hd⟩ := h
  exact ⟨⟨f0, fun fuel hf => (he fuel).trans (hs fuel hf)⟩,
    fun fuel => (he fuel) ▸ hd fuel⟩

theorem scanNext_canon (s : Scanner) : Scanner.scanNext s = specScanner s.text s.pos := by
  cases s
  rfl

theorem charCodeAt_sentinel (text : List Nat) (q : Nat) (h : text.length ≤ q) :
    charCodeAt text q = 0x110000 := by
  have hn : text[q]? = Option.none := List.getElem?_eq_none h
  simp [charCodeAt, List.getD, hn]

theorem charCodeAt_lt (text : List Nat) (q : Nat) (h : charCodeAt text q ≠ 0x110000) :
    q < text.length := by
  by_contra hc
  exact h (charCodeAt_sentinel text q (by omega))

theorem isWhitespace_iff (c : Nat) : isWhitespace c = true ↔
    (c = 0x20 ∨ c = 0x09 ∨ c = 0x0B ∨ c = 0x0C ∨ c = 0xA0 ∨ c = 0x1680 ∨
      (0x2000 ≤ c ∧ c ≤ 0x200B) ∨ c = 0x202F ∨ c = 0x205F ∨ c = 0x3000 ∨ c = 0xFEFF) := by
  simp [isWhitespace, CharacterCodes.space, CharacterCodes.tab, CharacterCodes.verticalTab,
    CharacterCodes.formFeed, CharacterCodes.nonBreakingSpace, CharacterCodes.ogham,
    CharacterCodes.enQuad, CharacterCodes.zeroWidthSpace, CharacterCodes.narrowNoBreakSpace,
    CharacterCodes.mathematicalSpace, CharacterCodes.ideographicSpace,
    CharacterCodes.byteOrderMark]
  tauto

theorem isLineBreak_iff (c : Nat) : isLineBreak c = true ↔
    (c = 0x0A ∨ c = 0x0D ∨ c = 0x2028 ∨ c = 0x2029) := by
  simp [isLineBreak, CharacterCodes.lineFeed, CharacterCodes.carriageReturn,
    CharacterCodes.lineSeparator, CharacterCodes.paragraphSeparator]
  tauto

theorem isDigit_iff (c : Nat) : isDigit c = true ↔ (0x30 ≤ c ∧ c ≤ 0x39) := by
  simp [isDigit, CharacterCodes._0, CharacterCodes._9]

/-- Characters that begin a non-trivia token: everything needed to push the
scanner's dispatch past the whitespace and line-break cases. -/
theorem isWhitespace_false_of (c : Nat) (h : c < 0x1680) (h2 : c ≠ 0x20) (h3 : c ≠ 0x09)
    (h4 : c ≠ 0x0B) (h5 : c ≠ 0x0C) (h6 : c ≠ 0xA0) : isWhitespace c = false := by
  rw [Bool.eq_false_iff]
  intro hc
  rw [isWhitespace_iff] at hc
  omega

theorem isLineBreak_false_of (c : Nat) (h : c < 0x2028) (h2 : c ≠ 0x0A) (h3 : c ≠ 0x0D) :
    isLineBreak c = false := by
  rw [Bool.eq_false_iff]
  intro hc
  rw [isLineBreak_iff] at hc
  omega

theorem specScanner_eof (text : List Nat) (q : Nat) (h : text.length ≤ q) :
    specScanner text q
      = { text := text, pos := q, value := [], tokenOffset := text.length,
          token := SyntaxKind.EOF, scanError := ScanError.None } := by
  simp [specScanner, Scanner.scanNext, h]

theorem specScanner_openBrace (text : List Nat) (q : Nat)
    (h : charCodeAt text q = CharacterCodes.openBrace) :
    specScanner text q
      = { text := text, pos := q + 1, value := [], tokenOffset := q,
          token := SyntaxKind.OpenBraceToken, scanError := ScanError.None } := by
  have hlen : q < text.length := charCodeAt_lt text q (by rw [h]; decide)
  simp [specScanner, Scanner.scanNext, h, Nat.not_le.mpr hlen, isWhitespace_false_of,
    isLineBreak_false_of, CharacterCodes.openBrace]

theorem specScanner_closeBrace (text : List Nat) (q : Nat)
    (h : charCodeAt text q = CharacterCodes.closeBrace) :
    specScanner text q
      = { text := text, pos := q + 1, value := [], tokenOffset := q,
          token := SyntaxKind.CloseBraceToken, scanError := ScanError.None } := by
  have hlen : q < text.length := charCodeAt_lt text q (by rw [h]; decide)
  simp [specScanner, Scanner.scanNext, h, Nat.not_le.mpr hlen, isWhitespace_false_of,
    isLineBreak_false_of, CharacterCodes.closeBrace, CharacterCodes.openBrace]

theorem specScanner_openBracket (text : List Nat) (q : Nat)
    (h : charCodeAt text q = CharacterCodes.openBracket) :
    specScanner text q
      = { text := text, pos := q + 1, value := [], tokenOffset := q,
          token := SyntaxKind.OpenBracketToken, scanError := ScanError.None } := by
  have hlen : q < text.length := charCodeAt_lt text q (by rw [h]; decide)
  simp [specScanner, Scanner.scanNext, h, Nat.not_le.mpr hlen, isWhitespace_false_of,
    isLineBreak_false_of, CharacterCodes.openBracket, CharacterCodes.openBrace,
    CharacterCodes.closeBrace]

theorem specScanner_closeBracket (text : List Nat) (q : Nat)
    (h : charCodeAt text q = CharacterCodes.closeBracket) :
    specScanner text q
      = { text := text, pos := q + 1, value := [], tokenOffset := q,
          token := SyntaxKind.CloseBracketToken, scanError := ScanError.None } := by
  have hlen : q < text.length := charCodeAt_lt text q (by rw [h]; decide)
  simp [specScanner, Scanner.scanNext, h, Nat.not_le.mpr hlen, isWhitespace_false_of,
    isLineBreak_false_of, CharacterCodes.closeBracket, CharacterCodes.openBrace,
    CharacterCodes.closeBrace, CharacterCodes.openBracket]

theorem specScanner_colon (text : List Nat) (q : Nat)
    (h : charCodeAt text q = CharacterCodes.colon) :
    specScanner text q
      = { text := text, pos := q + 1, value := [], tokenOffset := q,
          token := SyntaxKind.ColonToken, scanError := ScanError.None } := by
  have hlen : q < text.length := charCodeAt_lt text q (by rw [h]; decide)
  simp [specScanner, Scanner.scanNext, h, Nat.not_le.mpr hlen, isWhitespace_false_of,
    isLineBreak_false_of, CharacterCodes.colon, CharacterCodes.openBrace,
    CharacterCodes.closeBrace, CharacterCodes.openBracket, CharacterCodes.closeBracket]

theorem specScanner_comma (text : List Nat) (q : Nat)
    (h : charCodeAt text q = CharacterCodes.comma) :
    specScanner text q
      = { text := text, pos := q + 1, value := [], tokenOffset := q,
          token := SyntaxKind.CommaToken, scanError := ScanError.None } := by
  have hlen : q < text.length := charCodeAt_lt text q (by rw [h]; decide)
  simp [specScanner, Scanner.scanNext, h, Nat.not_le.mpr hlen, isWhitespace_false_of,
    isLineBreak_false_of, CharacterCodes.comma, CharacterCodes.openBrace,
    CharacterCodes.closeBrace, CharacterCodes.openBracket, CharacterCodes.closeBracket,
    CharacterCodes.colon]

theorem specScanner_quote (text : List Nat) (q : Nat)
    (h : charCodeAt text q = CharacterCodes.doubleQuote) :
    specScanner text q
      = { text := text, pos := (scanString text (q + 1)).2.1,
          value := (scanString text (q + 1)).1, tokenOffset := q,
          token := SyntaxKind.StringLiteral, scanError := (scanString text (q + 1)).2.2 } := by
  have hlen : q < text.length := charCodeAt_lt text q (by rw [h]; decide)
  simp [specScanner, Scanner.scanNext, h, Nat.not_le.mpr hlen, isWhitespace_false_of,
    isLineBreak_false_of, CharacterCodes.doubleQuote, CharacterCodes.openBrace,
    CharacterCodes.closeBrace, CharacterCodes.openBracket, CharacterCodes.closeBracket,
    CharacterCodes.colon, CharacterCodes.comma]

theorem specScanner_digit (text : List Nat) (q : Nat)
    (h : isDigit (charCodeAt text q) = true) :
    specScanner text q
      = { text := text, pos := (scanNumber text q).2.1, value := (scanNumber text q).1,
          tokenOffset := q, token := SyntaxKind.NumericLiteral,
          scanError := (scanNumber text q).2.2 } := by
  have hd := (isDigit_iff _).mp h
  have hlen : q < text.length := charCodeAt_lt text q (by omega)
  have hws : isWhitespace (charCodeAt text q) = false :=
    isWhitespace_false_of _ (by omega) (by omega) (by omega) (by omega) (by omega) (by omega)
  have hlb : isLineBreak (charCodeAt text q) = false :=
    isLineBreak_false_of _ (by omega) (by omega) (by omega)
  have e1 : charCodeAt text q ≠ CharacterCodes.openBrace := by
    simp [CharacterCodes.openBrace]; omega
  have e2 : charCodeAt text q ≠ CharacterCodes.closeBrace := by
    simp [CharacterCodes.closeBrace]; omega
  have e3 : charCodeAt text q ≠ CharacterCodes.openBracket := by
    simp [CharacterCodes.openBracket]; omega
  have e4 : charCodeAt text q ≠ CharacterCodes.closeBracket := by
    simp [CharacterCodes.closeBracket]; omega
  have e5 : charCodeAt text q ≠ CharacterCodes.colon := by
    simp [CharacterCodes.colon]; omega
  have e6 : charCodeAt text q ≠ CharacterCodes.comma := by
    simp [CharacterCodes.comma]; omega
  have e7 : charCodeAt text q ≠ CharacterCodes.doubleQuote := by
    simp [CharacterCodes.doubleQuote]; omega
  have e8 : charCodeAt text q ≠ CharacterCodes.slash := by
    simp [CharacterCodes.slash]; omega
  have e9 : charCodeAt text q ≠ CharacterCodes.minus := by
    simp [CharacterCodes.minus]; omega
  simp [specScanner, Scanner.scanNext, Nat.not_le.mpr hlen, hws, hlb, e1, e2, e3, e4, e5, e6,
    e7, e8, e9, h]

theorem specScanner_minus_digit (text : List Nat) (q : Nat)
    (h : charCodeAt text q = CharacterCodes.minus)
    (h2 : isDigit (charCodeAt text (q + 1)) = true) :
    specScanner text q
      = { text := text, pos := (scanNumber text (q + 1)).2.1,
          value := CharacterCodes.minus :: (scanNumber text (q + 1)).1,
          tokenOffset := q, token := SyntaxKind.NumericLiteral,
          scanError := (scanNumber text (q + 1)).2.2 } := by
  have hd := (isDigit_iff _).mp h2
  have hlen : q < text.length := charCodeAt_lt text q (by rw [h]; decide)
  have hlen2 : q + 1 < text.length := charCodeAt_lt text (q + 1) (by omega)
  have hne : ¬ (q + 1 = text.length) := by omega
  simp [specScanner, Scanner.scanNext, h, h2, Nat.not_le.mpr hlen, hne, isWhitespace_false_of,
    isLineBreak_false_of, CharacterCodes.minus, CharacterCodes.openBrace,
    CharacterCodes.closeBrace, CharacterCodes.openBracket, CharacterCodes.closeBracket,
    CharacterCodes.colon, CharacterCodes.comma, CharacterCodes.doubleQuote,
    CharacterCodes.slash]

theorem substring_nil (text : List Nat) (a b : Nat) (h : b ≤ a) : substring text a b = [] := by
  apply List.drop_eq_nil_of_le
  simp
  omega

theorem substring_cons (text : List Nat) (a b : Nat) (hab : a < b) (ha : a < text.length) :
    substring text a b = charCodeAt text a :: substring text (a + 1) b := by
  unfold substring
  have h1 : a < (text.take b).length := by simp; omega
  rw [List.drop_eq_getElem_cons h1]
  congr 1
  rw [List.getElem_take]
  simp [charCodeAt, List.getD, List.getElem?_eq_getElem ha]

theorem scanUnknownLoopAux_stop (text : List Nat) : ∀ fuel pos,
    ¬ (pos < text.length ∧ isUnknownContentCharacter (charCodeAt text pos) = true) →
    scanUnknownLoopAux text fuel pos = pos := by
  intro fuel pos h
  cases fuel with
  | zero => rfl
  | succ k => simp [scanUnknownLoopAux, h]

theorem scanUnknownLoopAux_adds (text : List Nat) : ∀ n fuel pos, n ≤ fuel →
    (∀ i, i < n → pos + i < text.length ∧
      isUnknownContentCharacter (charCodeAt text (pos + i)) = true) →
    ¬ (pos + n < text.length ∧ isUnknownContentCharacter (charCodeAt text (pos + n)) = true) →
    scanUnknownLoopAux text fuel pos = pos + n := by
  intro n
  induction n with
  | zero =>
    intro fuel pos _ _ hstop
    simpa using scanUnknownLoopAux_stop text fuel pos (by simpa using hstop)
  | succ m ih =>
    intro fuel pos hf hrun hstop
    cases fuel with
    | zero => omega
    | succ k =>
      have h0 := hrun 0 (by omega)
      simp only [Nat.add_zero] at h0
      simp only [scanUnknownLoopAux, h0, and_self, if_pos]
      rw [ih k (pos + 1) (by omega) (fun i hi => by
        have := hrun (i + 1) (by omega)
        simpa [Nat.add_assoc, Nat.add_comm 1 i] using this)
        (by
          have : pos + 1 + m = pos + (m + 1) := by omega
          rw [this]
          exact hstop)]
      omega

theorem scanUnknownLoop_adds (text : List Nat) (pos n : Nat)
    (hrun : ∀ i, i < n → pos + i < text.length ∧
      isUnknownContentCharacter (charCodeAt text (pos + i)) = true)
    (hstop : ¬ (pos + n < text.length ∧
      isUnknownContentCharacter (charCodeAt text (pos + n)) = true)) :
    scanUnknownLoop text pos = pos + n := by
  unfold scanUnknownLoop
  apply scanUnknownLoopAux_adds text n _ pos _ hrun hstop
  rcases Nat.eq_zero_or_pos n with h | h
  · omega
  · have := (hrun (n - 1) (by omega)).1
    omega

theorem specScanner_true (text : List Nat) (q : Nat)
    (h0 : charCodeAt text q = CharacterCodes.t)
    (h1 : charCodeAt text (q + 1) = CharacterCodes.r)
    (h2 : charCodeAt text (q + 2) = CharacterCodes.u)
    (h3 : charCodeAt text (q + 3) = CharacterCodes.e)
    (hstop : StopsWord text (q + 4)) :
    specScanner text q
      = { text := text, pos := q + 4, value := [0x74, 0x72, 0x75, 0x65], tokenOffset := q,
          token := SyntaxKind.TrueKeyword, scanError := ScanError.None } := by
  have l0 : q < text.length := charCodeAt_lt text q (by rw [h0]; decide)
  have l1 : q + 1 < text.length := charCodeAt_lt text _ (by rw [h1]; decide)
  have l2 : q + 2 < text.length := charCodeAt_lt text _ (by rw [h2]; decide)
  have l3 : q + 3 < text.length := charCodeAt_lt text _ (by rw [h3]; decide)
  have hrun : ∀ i, i < 4 → q + i < text.length ∧
      isUnknownContentCharacter (charCodeAt text (q + i)) = true := by
    intro i hi
    interval_cases i
    · exact ⟨by omega, by simp only [Nat.add_zero]; rw [h0]; decide⟩
    · exact ⟨l1, by rw [h1]; decide⟩
    · exact ⟨l2, by rw [h2]; decide⟩
    · exact ⟨l3, by rw [h3]; decide⟩
  have hloop := scanUnknownLoop_adds text q 4 hrun hstop
  have hsub : substring text q (q + 4) = [0x74, 0x72, 0x75, 0x65] := by
    rw [substring_cons text q _ (by omega) l0, substring_cons text (q + 1) _ (by omega) l1,
      substring_cons text (q + 2) _ (by omega) l2, substring_cons text (q + 3) _ (by omega) l3,
      substring_nil text (q + 4) (q + 4) (by omega)]
    rw [h0, h1, h2, h3]
    rfl
  have hws : isWhitespace (charCodeAt text q) = false := by rw [h0]; decide
  have hlb : isLineBreak (charCodeAt text q) = false := by rw [h0]; decide
  have mdig : isDigit (charCodeAt text q) = false := by rw [h0]; decide
  have m1 : ¬ charCodeAt text q = CharacterCodes.openBrace := by rw [h0]; decide
  have m2 : ¬ charCodeAt text q = CharacterCodes.closeBrace := by rw [h0]; decide
  have m3 : ¬ charCodeAt text q = CharacterCodes.openBracket := by rw [h0]; decide
  have m4 : ¬ charCodeAt text q = CharacterCodes.closeBracket := by rw [h0]; decide
  have m5 : ¬ charCodeAt text q = CharacterCodes.colon := by rw [h0]; decide
  have m6 : ¬ charCodeAt text q = CharacterCodes.comma := by rw [h0]; decide
  have m7 : ¬ charCodeAt text q = CharacterCodes.doubleQuote := by rw [h0]; decide
  have m8 : ¬ charCodeAt text q = CharacterCodes.slash := by rw [h0]; decide
  have m9 : ¬ charCodeAt text q = CharacterCodes.minus := by rw [h0]; decide
  have hqn : ¬ (q = q + 4) := by omega
  simp [specScanner, Scanner.scanNext, Nat.not_le.mpr l0, hws, hlb, m1, m2, m3, m4, m5, m6, m7,
    m8, m9, mdig, hloop, hqn, hsub]

theorem specScanner_false (text : List Nat) (q : Nat)
    (h0 : charCodeAt text q = CharacterCodes.f)
    (h1 : charCodeAt text (q + 1) = CharacterCodes.a)
    (h2 : charCodeAt text (q + 2) = CharacterCodes.l)
    (h3 : charCodeAt text (q + 3) = CharacterCodes.s)
    (h4 : charCodeAt text (q + 4) = CharacterCodes.e)
    (hstop : StopsWord text (q + 5)) :
    specScanner text q
      = { text := text, pos := q + 5, value := [0x66, 0x61, 0x6C, 0x73, 0x65], tokenOffset := q,
          token := SyntaxKind.FalseKeyword, scanError := ScanError.None } := by
  have l0 : q < text.length := charCodeAt_lt text q (by rw [h0]; decide)
  have l1 : q + 1 < text.length := charCodeAt_lt text _ (by rw [h1]; decide)
  have l2 : q + 2 < text.length := charCodeAt_lt text _ (by rw [h2]; decide)
  have l3 : q + 3 < text.length := charCodeAt_lt text _ (by rw [h3]; decide)
  have l4 : q + 4 < text.length := charCodeAt_lt text _ (by rw [h4]; decide)
  have hrun : ∀ i, i < 5 → q + i < text.length ∧
      isUnknownContentCharacter (charCodeAt text (q + i)) = true := by
    intro i hi
    interval_cases i
    · exact ⟨by omega, by simp only [Nat.add_zero]; rw [h0]; decide⟩
    · exact ⟨l1, by rw [h1]; decide⟩
    · exact ⟨l2, by rw [h2]; decide⟩
    · exact ⟨l3, by rw [h3]; decide⟩
    · exact ⟨l4, by rw [h4]; decide⟩
  have hloop := scanUnknownLoop_adds text q 5 hrun hstop
  have hsub : substring text q (q + 5) = [0x66, 0x61, 0x6C, 0x73, 0x65] := by
    rw [substring_cons text q _ (by omega) l0, substring_cons text (q + 1) _ (by omega) l1,
      substring_cons text (q + 2) _ (by omega) l2, substring_cons text (q + 3) _ (by omega) l3,
      substring_cons text (q + 4) _ (by omega) l4,
      substring_nil text (q + 5) (q + 5) (by omega)]
    rw [h0, h1, h2, h3, h4]
    rfl
  have hws : isWhitespace (charCodeAt text q) = false := by rw [h0]; decide
  have hlb : isLineBreak (charCodeAt text q) = false := by rw [h0]; decide
  have mdig : isDigit (charCodeAt text q) = false := by rw [h0]; decide
  have m1 : ¬ charCodeAt text q = CharacterCodes.openBrace := by rw [h0]; decide
  have m2 : ¬ charCodeAt text q = CharacterCodes.closeBrace := by rw [h0]; decide
  have m3 : ¬ charCodeAt text q = CharacterCodes.openBracket := by rw [h0]; decide
  have m4 : ¬ charCodeAt text q = CharacterCodes.closeBracket := by rw [h0]; decide
  have m5 : ¬ charCodeAt text q = CharacterCodes.colon := by rw [h0]; decide
  have m6 : ¬ charCodeAt text q = CharacterCodes.comma := by rw [h0]; decide
  have m7 : ¬ charCodeAt text q = CharacterCodes.doubleQuote := by rw [h0]; decide
  have m8 : ¬ charCodeAt text q = CharacterCodes.slash := by rw [h0]; decide
  have m9 : ¬ charCodeAt text q = CharacterCodes.minus := by rw [h0]; decide
  have hqn : ¬ (q = q + 5) := by omega
  simp [specScanner, Scanner.scanNext, Nat.not_le.mpr l0, hws, hlb, m1, m2, m3, m4, m5, m6, m7,
    m8, m9, mdig, hloop, hqn, hsub]

theorem specScanner_null (text : List Nat) (q : Nat)
    (h0 : charCodeAt text q = CharacterCodes.n)
    (h1 : charCodeAt text (q + 1) = CharacterCodes.u)
    (h2 : charCodeAt text (q + 2) = CharacterCodes.l)
    (h3 : charCodeAt text (q + 3) = CharacterCodes.l)
    (hstop : StopsWord text (q + 4)) :
    specScanner text q
      = { text := text, pos := q + 4, value := [0x6E, 0x75, 0x6C, 0x6C], tokenOffset := q,
          token := SyntaxKind.NullKeyword, scanError := ScanError.None } := by
  have l0 : q < text.length := charCodeAt_lt text q (by rw [h0]; decide)
  have l1 : q + 1 < text.length := charCodeAt_lt text _ (by rw [h1]; decide)
  have l2 : q + 2 < text.length := charCodeAt_lt text _ (by rw [h2]; decide)
  have l3 : q + 3 < text.length := charCodeAt_lt text _ (by rw [h3]; decide)
  have hrun : ∀ i, i < 4 → q + i < text.length ∧
      isUnknownContentCharacter (charCodeAt text (q + i)) = true := by
    intro i hi
    interval_cases i
    · exact ⟨by omega, by simp only [Nat.add_zero]; rw [h0]; decide⟩
    · exact ⟨l1, by rw [h1]; decide⟩
    · exact ⟨l2, by rw [h2]; decide⟩
    · exact ⟨l3, by rw [h3]; decide⟩
  have hloop := scanUnknownLoop_adds text q 4 hrun hstop
  have hsub : substring text q (q + 4) = [0x6E, 0x75, 0x6C, 0x6C] := by
    rw [substring_cons text q _ (by omega) l0, substring_cons text (q + 1) _ (by omega) l1,
      substring_cons text (q + 2) _ (by omega) l2, substring_cons text (q + 3) _ (by omega) l3,
      substring_nil text (q + 4) (q + 4) (by omega)]
    rw [h0, h1, h2, h3]
    rfl
  have hws : isWhitespace (charCodeAt text q) = false := by rw [h0]; decide
  have hlb : isLineBreak (charCodeAt text q) = false := by rw [h0]; decide
  have mdig : isDigit (charCodeAt text q) = false := by rw [h0]; decide
  have m1 : ¬ charCodeAt text q = CharacterCodes.openBrace := by rw [h0]; decide
  have m2 : ¬ charCodeAt text q = CharacterCodes.closeBrace := by rw [h0]; decide
  have m3 : ¬ charCodeAt text q = CharacterCodes.openBracket := by rw [h0]; decide
  have m4 : ¬ charCodeAt text q = CharacterCodes.closeBracket := by rw [h0]; decide
  have m5 : ¬ charCodeAt text q = CharacterCodes.colon := by rw [h0]; decide
  have m6 : ¬ charCodeAt text q = CharacterCodes.comma := by rw [h0]; decide
  have m7 : ¬ charCodeAt text q = CharacterCodes.doubleQuote := by rw [h0]; decide
  have m8 : ¬ charCodeAt text q = CharacterCodes.slash := by rw [h0]; decide
  have m9 : ¬ charCodeAt text q = CharacterCodes.minus := by rw [h0]; decide
  have hqn : ¬ (q = q + 4) := by omega
  simp [specScanner, Scanner.scanNext, Nat.not_le.mpr l0, hws, hlb, m1, m2, m3, m4, m5, m6, m7,
    m8, m9, mdig, hloop, hqn, hsub]

theorem specScanner_ws (text : List Nat) (q : Nat)
    (h : isWhitespace (charCodeAt text q) = true) :
    specScanner text q
      = { text := text, pos := (scanWhitespaceLoop text q []).2,
          value := (scanWhitespaceLoop text q []).1, tokenOffset := q,
          token := SyntaxKind.Trivia, scanError := ScanError.None } := by
  have hlen : q < text.length := by
    apply charCodeAt_lt
    intro hs
    rw [hs] at h
    exact absurd h (by decide)
  simp [specScanner, Scanner.scanNext, Nat.not_le.mpr hlen, h]

theorem specScanner_lb_nocr (text : List Nat) (q : Nat)
    (hw : isWhitespace (charCodeAt text q) = false)
    (hl : isLineBreak (charCodeAt text q) = true)
    (hcr : ¬ charCodeAt text q = CharacterCodes.carriageReturn) :
    specScanner text q
      = { text := text, pos := q + 1, value := [charCodeAt text q], tokenOffset := q,
          token := SyntaxKind.LineBreakTrivia, scanError := ScanError.None } := by
  have hlen : q < text.length := by
    apply charCodeAt_lt
    intro hs
    rw [hs] at hl
    exact absurd hl (by decide)
  have hc2 : ¬ (charCodeAt text q = CharacterCodes.carriageReturn ∧
      charCodeAt text (q + 1) = CharacterCodes.lineFeed) := fun hc => hcr hc.1
  simp [specScanner, Scanner.scanNext, Nat.not_le.mpr hlen, hw, hl, hc2]

theorem specScanner_cr_lf (text : List Nat) (q : Nat) (h : charCodeAt text q = 0x0D)
    (h2 : charCodeAt text (q + 1) = 0x0A) :
    specScanner text q
      = { text := text, pos := q + 2, value := [0x0D, 0x0A], tokenOffset := q,
          token := SyntaxKind.LineBreakTrivia, scanError := ScanError.None } := by
  have hlen : q < text.length := charCodeAt_lt text q (by rw [h]; decide)
  have hw : isWhitespace (charCodeAt text q) = false := by rw [h]; decide
  have hl : isLineBreak (charCodeAt text q) = true := by rw [h]; decide
  simp [specScanner, Scanner.scanNext, Nat.not_le.mpr hlen, h, h2,
    CharacterCodes.carriageReturn, CharacterCodes.lineFeed,
    show isWhitespace 13 = false from by decide, show isLineBreak 13 = true from by decide]

theorem specScanner_cr_solo (text : List Nat) (q : Nat) (h : charCodeAt text q = 0x0D)
    (h2 : ¬ charCodeAt text (q + 1) = 0x0A) :
    specScanner text q
      = { text := text, pos := q + 1, value := [0x0D], tokenOffset := q,
          token := SyntaxKind.LineBreakTrivia, scanError := ScanError.None } := by
  have hlen : q < text.length := charCodeAt_lt text q (by rw [h]; decide)
  have hw : isWhitespace (charCodeAt text q) = false := by rw [h]; decide
  have hl : isLineBreak (charCodeAt text q) = true := by rw [h]; decide
  have h2n : ¬ (charCodeAt text (q + 1) = CharacterCodes.lineFeed) := by
    simpa [CharacterCodes.lineFeed] using h2
  simp [specScanner, Scanner.scanNext, Nat.not_le.mpr hlen, h, h2n, h2,
    CharacterCodes.carriageReturn, CharacterCodes.lineFeed,
    show isWhitespace 13 = false from by decide, show isLineBreak 13 = true from by decide]

theorem scanWhitespaceLoopAux_ge (text : List Nat) : ∀ fuel pos value,
    pos ≤ (scanWhitespaceLoopAux text fuel pos value).2 := by
  intro fuel
  induction fuel with
  | zero => intro pos value; simp [scanWhitespaceLoopAux]
  | succ k ih =>
    intro pos value
    simp only [scanWhitespaceLoopAux]
    split
    · exact le_trans (by omega) (ih (pos + 1) _)
    · simp

theorem scanWhitespaceLoopAux_le (text : List Nat) (qT : Nat)
    (hT : isWhitespace (charCodeAt text qT) = false) : ∀ fuel pos value, pos ≤ qT →
    (scanWhitespaceLoopAux text fuel pos value).2 ≤ qT := by
  intro fuel
  induction fuel with
  | zero => intro pos value h; simpa [scanWhitespaceLoopAux] using h
  | succ k ih =>
    intro pos value h
    simp only [scanWhitespaceLoopAux]
    split
    · rename_i hc
      apply ih
      rcases Nat.eq_or_lt_of_le h with he | hlt
      · rw [he] at hc
        rw [hc.2] at hT
        exact absurd hT (by simp)
      · omega
    · simpa

theorem scanWhitespaceLoop_pos (text : List Nat) (q : Nat)
    (h : isWhitespace (charCodeAt text q) = true) (hlen : q < text.length) :
    q < (scanWhitespaceLoop text q []).2 := by
  unfold scanWhitespaceLoop
  have hf : text.length - q = (text.length - q - 1) + 1 := by omega
  rw [hf]
  simp only [scanWhitespaceLoopAux, hlen, h, and_self, if_pos, true_and]
  exact lt_of_lt_of_le (by omega) (scanWhitespaceLoopAux_ge text _ (q + 1) _)

theorem scanWhitespaceLoop_le (text : List Nat) (q qT : Nat) (hq : q ≤ qT)
    (hT : isWhitespace (charCodeAt text qT) = false) :
    (scanWhitespaceLoop text q []).2 ≤ qT :=
  scanWhitespaceLoopAux_le text qT hT _ q [] hq

theorem isRefWs_iff (c : Nat) : isRefWs c = true ↔ (c = 0x20 ∨ c = 0x09 ∨ c = 0x0A ∨ c = 0x0D) := by
  simp [isRefWs]
  tauto

theorem goodTok_not_ws (text : List Nat) (q : Nat) (h : GoodTok text q) :
    isWhitespace (charCodeAt text q) = false := by
  by_contra hc
  rw [Bool.not_eq_false] at hc
  have := h.2.2.2.2.1
  rw [specScanner_ws text q hc] at this
  exact this rfl

theorem goodTok_not_lb (text : List Nat) (q : Nat) (h : GoodTok text q) :
    isLineBreak (charCodeAt text q) = false := by
  have hw := goodTok_not_ws text q h
  by_contra hc
  rw [Bool.not_eq_false] at hc
  have hlb := h.2.2.2.1
  by_cases hcr : charCodeAt text q = CharacterCodes.carriageReturn
  · by_cases hlf : charCodeAt text (q + 1) = 0x0A
    · rw [specScanner_cr_lf text q (by simpa [CharacterCodes.carriageReturn] using hcr) hlf]
        at hlb
      exact hlb rfl
    · rw [specScanner_cr_solo text q (by simpa [CharacterCodes.carriageReturn] using hcr) hlf]
        at hlb
      exact hlb rfl
  · rw [specScanner_lb_nocr text q hw hc hcr] at hlb
    exact hlb rfl

theorem visitScanNext_ws (opts : ParseOptions) (text : List Nat) (q : Nat)
    (hGood : GoodTok text q) :
    ∀ n p, q - p = n → p ≤ q →
    (∀ i, p ≤ i → i < q → isRefWs (charCodeAt text i) = true) →
    ∀ scn evs, scn.text = text → scn.pos = p →
    RunsTo (fun k => visitScanNext k opts { scn := scn, events := evs })
      ({ scn := specScanner text q, events := evs } : PState) := by
  intro n
  induction n using Nat.strong_induction_on with
  | _ n ih =>
    intro p hqp hpq hrun scn evs htext hpos
    apply runsTo_pred rfl
    have hcanon : Scanner.scanNext scn = specScanner text p := by
      rw [scanNext_canon, htext, hpos]
    rcases Nat.eq_or_lt_of_le hpq with he | hlt
    · -- p = q: scan the good token and stop
      subst he
      obtain ⟨hErr, hT1, hT2, hT3, hT4, hT5⟩ := hGood
      refine RunsTo.ret _ _ (fun k => ?_)
      simp only [visitScanNext, hcanon, hErr, Option.some_bind]
    · -- p < q: the character at p is reference whitespace
      have hws := hrun p (le_refl p) hlt
      rw [isRefWs_iff] at hws
      have hsub : ∀ p2, p < p2 → p2 ≤ q → (specScanner text p).scanError = ScanError.None →
          (specScanner text p).token = SyntaxKind.Trivia ∨
          (specScanner text p).token = SyntaxKind.LineBreakTrivia →
          (specScanner text p).pos = p2 → (specScanner text p).text = text →
          RunsTo (fun k => visitScanNext (k + 1) opts { scn := scn, events := evs })
            ({ scn := specScanner text q, events := evs } : PState) := by
        intro p2 hp2 hp2q hErr htok hpos2 htext2
        have hrec := ih (q - p2) (by omega) p2 rfl (by omega)
          (fun i h1 h2 => hrun i (by omega) h2) (specScanner text p) evs htext2 hpos2
        obtain ⟨⟨f0, hf⟩, hd⟩ := hrec
        constructor
        · refine ⟨f0, fun fuel hfu => ?_⟩
          simp only [visitScanNext, hcanon, hErr, Option.some_bind]
          rcases htok with ht | ht <;> rw [ht] <;> exact hf fuel hfu
        · intro fuel
          simp only [visitScanNext, hcanon, hErr, Option.some_bind]
          rcases htok with ht | ht <;> rw [ht] <;> exact hd fuel
      rcases hws with hc | hc | hc | hc
      · -- space
        have hwst : isWhitespace (charCodeAt text p) = true := by rw [hc]; decide
        have hlen : p < text.length := charCodeAt_lt text p (by rw [hc]; decide)
        have hrec := specScanner_ws text p hwst
        have hgt := scanWhitespaceLoop_pos text p hwst hlen
        have hle := scanWhitespaceLoop_le text p q hpq (goodTok_not_ws text q hGood)
        exact hsub _ hgt hle (by rw [hrec]) (Or.inl (by rw [hrec])) (by rw [hrec]) (by rw [hrec])
      · -- tab
        have hwst : isWhitespace (charCodeAt text p) = true := by rw [hc]; decide
        have hlen : p < text.length := charCodeAt_lt text p (by rw [hc]; decide)
        have hrec := specScanner_ws text p hwst
        have hgt := scanWhitespaceLoop_pos text p hwst hlen
        have hle := scanWhitespaceLoop_le text p q hpq (goodTok_not_ws text q hGood)
        exact hsub _ hgt hle (by rw [hrec]) (Or.inl (by rw [hrec])) (by rw [hrec]) (by rw [hrec])
      · -- line feed
        have hrec := specScanner_lb_nocr text p (by rw [hc]; decide) (by rw [hc]; decide)
          (by rw [hc]; decide)
        exact hsub (p + 1) (by omega) (by omega) (by rw [hrec]) (Or.inr (by rw [hrec]))
          (by rw [hrec]) (by rw [hrec])
      · -- carriage return
        by_cases hlf : charCodeAt text (p + 1) = 0x0A
        · have hrec := specScanner_cr_lf text p hc hlf
          have hq1 : p + 1 ≠ q := by
            intro he
            have := goodTok_not_lb text q hGood
            rw [← he, hlf] at this
            exact absurd this (by decide)
          exact hsub (p + 2) (by omega) (by omega) (by rw [hrec]) (Or.inr (by rw [hrec]))
            (by rw [hrec]) (by rw [hrec])
        · have hrec := specScanner_cr_solo text p hc hlf
          exact hsub (p + 1) (by omega) (by omega) (by rw [hrec]) (Or.inr (by rw [hrec]))
            (by rw [hrec]) (by rw [hrec])

theorem substring_snoc (text : List Nat) (a b : Nat) (hab : a ≤ b) (hb : b < text.length) :
    substring text a (b + 1) = substring text a b ++ [charCodeAt text b] := by
  unfold substring
  rw [List.take_succ]
  rw [List.drop_append_of_le_length (by simp; omega)]
  congr 1
  simp [List.getElem?_eq_getElem hb, charCodeAt, List.getD]

theorem hexVal_cases (c v : Nat) (h : hexVal c = some v) :
    (0x30 ≤ c ∧ c ≤ 0x39 ∧ v = c - 0x30) ∨ (0x41 ≤ c ∧ c ≤ 0x46 ∧ v = c - 0x41 + 10) ∨
    (0x61 ≤ c ∧ c ≤ 0x66 ∧ v = c - 0x61 + 10) := by
  unfold hexVal at h
  split_ifs at h with h1 h2 h3 <;> simp at h
  · exact Or.inl ⟨by simpa [CharacterCodes._0] using h1.1, by simpa [CharacterCodes._9] using h1.2,
      by simp [← h, CharacterCodes._0]⟩
  · refine Or.inr (Or.inl ⟨by simpa [CharacterCodes.A] using h2.1,
      by simpa [CharacterCodes.F] using h2.2, ?_⟩)
    simp [← h, CharacterCodes.A]
  · refine Or.inr (Or.inr ⟨by simpa [CharacterCodes.a] using h3.1,
      by simpa [CharacterCodes.f] using h3.2, ?_⟩)
    simp [← h, CharacterCodes.a]

theorem scanHexDigitsAux_step (text : List Nat) (pos k acc v : Nat)
    (h : hexVal (charCodeAt text pos) = some v) :
    scanHexDigitsAux text pos (k + 1) acc
      = ((scanHexDigitsAux text (pos + 1) k (acc * 16 + v)).1,
         (scanHexDigitsAux text (pos + 1) k (acc * 16 + v)).2 + 1) := by
  rcases hexVal_cases _ _ h with ⟨h1, h2, h3⟩ | ⟨h1, h2, h3⟩ | ⟨h1, h2, h3⟩ <;>
    subst h3 <;>
    simp only [scanHexDigitsAux, CharacterCodes._0, CharacterCodes._9, CharacterCodes.A,
      CharacterCodes.F, CharacterCodes.a, CharacterCodes.f]
  · rw [if_pos ⟨h1, h2⟩]
  · rw [if_neg (by omega), if_pos ⟨h1, h2⟩, Nat.add_assoc]
  · rw [if_neg (by omega), if_neg (by omega), if_pos ⟨h1, h2⟩, Nat.add_assoc]

theorem scanHexDigits_of_refHex4 (text : List Nat) (pos h4 : Nat)
    (h : refHex4 text pos = some h4) :
    scanHexDigits text pos 4 = (Int.ofNat h4, 4) := by
  unfold refHex4 at h
  rcases ha : hexVal (charCodeAt text pos) with _ | a <;> rw [ha] at h
  · simp at h
  rcases hb : hexVal (charCodeAt text (pos + 1)) with _ | b <;> rw [hb] at h
  · simp at h
  rcases hc : hexVal (charCodeAt text (pos + 2)) with _ | c <;> rw [hc] at h
  · simp at h
  rcases hd : hexVal (charCodeAt text (pos + 3)) with _ | d <;> rw [hd] at h
  · simp at h
  have h4eq : ((a * 16 + b) * 16 + c) * 16 + d = h4 := by simpa using h
  subst h4eq
  unfold scanHexDigits
  rw [scanHexDigitsAux_step text pos 3 0 a ha,
    scanHexDigitsAux_step text (pos + 1) 2 _ b hb]
  rw [show pos + 1 + 1 = pos + 2 from rfl]
  rw [scanHexDigitsAux_step text (pos + 2) 1 _ c hc]
  rw [show pos + 2 + 1 = pos + 3 from rfl]
  rw [scanHexDigitsAux_step text (pos + 3) 0 _ d hd]
  simp only [scanHexDigitsAux]
  norm_num

theorem refStringLoop_bounds (text : List Nat) : ∀ rf pos content p2,
    refStringLoop text rf pos = some (content, p2) → pos < p2 ∧ p2 ≤ text.length := by
  intro rf
  induction rf with
  | zero => intro pos content p2 h; exact absurd h (by simp [refStringLoop])
  | succ k ih =>
    intro pos content p2 h
    simp only [refStringLoop] at h
    split at h
    · exact absurd h (by simp)
    · rename_i hpos
      split at h
      · simp only [Option.some.injEq, Prod.mk.injEq] at h
        omega
      · split at h
        · split at h
          · rcases h4o : refHex4 text (pos + 2) with _ | hv <;> rw [h4o] at h
            · simp at h
            rcases hr : refStringLoop text k (pos + 6) with _ | r <;> rw [hr] at h
            · simp at h
            rcases r with ⟨cs, p3⟩
            simp at h
            obtain ⟨h1, h2⟩ := h
            subst h2
            have := ih (pos + 6) cs p3 (by rw [hr])
            omega
          · rcases heo : refEscChar (charCodeAt text (pos + 1)) with _ | e <;> rw [heo] at h
            · simp at h
            rcases hr : refStringLoop text k (pos + 2) with _ | r <;> rw [hr] at h
            · simp at h
            rcases r with ⟨cs, p3⟩
            simp at h
            obtain ⟨h1, h2⟩ := h
            subst h2
            have := ih (pos + 2) cs p3 (by rw [hr])
            omega
        · split at h
          · exact absurd h (by simp)
          · rcases hr : refStringLoop text k (pos + 1) with _ | r <;> rw [hr] at h
            · simp at h
            rcases r with ⟨cs, p3⟩
            simp at h
            obtain ⟨h1, h2⟩ := h
            subst h2
            have := ih (pos + 1) cs p3 (by rw [hr])
            omega

theorem scanStringLoop_esc (text : List Nat) (sf pos start : Nat) (result : List Nat)
    (err : ScanError) (e : Nat)
    (hb : charCodeAt text pos = CharacterCodes.backslash)
    (he : refEscChar (charCodeAt text (pos + 1)) = some e) :
    scanStringLoop text (sf + 1) pos start result err
      = scanStringLoop text sf (pos + 2) (pos + 2)
          ((result ++ substring text start pos) ++ [e]) err := by
  have hp1 : pos + 1 < text.length := by
    by_contra hc
    push_neg at hc
    rw [charCodeAt_sentinel text _ hc] at he
    simp [refEscChar, CharacterCodes.doubleQuote, CharacterCodes.backslash, CharacterCodes.slash,
      CharacterCodes.b, CharacterCodes.f, CharacterCodes.n, CharacterCodes.r,
      CharacterCodes.t] at he
  show (if text.length ≤ pos then _ else _) = _
  rw [if_neg (by omega)]
  rw [if_neg (show ¬ charCodeAt text pos = CharacterCodes.doubleQuote from by rw [hb]; decide)]
  rw [if_pos hb, if_neg (by omega)]
  unfold refEscChar at he
  split_ifs at he with e1 e2 e3 e4 e5 e6 e7 e8
  · simp only [Option.some.injEq] at he; subst he; rw [if_pos e1]
  · simp only [Option.some.injEq] at he; subst he; rw [if_neg e1, if_pos e2]
  · simp only [Option.some.injEq] at he; subst he; rw [if_neg e1, if_neg e2, if_pos e3]
  · simp only [Option.some.injEq] at he; subst he; rw [if_neg e1, if_neg e2, if_neg e3, if_pos e4]
  · simp only [Option.some.injEq] at he; subst he
    rw [if_neg e1, if_neg e2, if_neg e3, if_neg e4, if_pos e5]
  · simp only [Option.some.injEq] at he; subst he
    rw [if_neg e1, if_neg e2, if_neg e3, if_neg e4, if_neg e5, if_pos e6]
  · simp only [Option.some.injEq] at he; subst he
    rw [if_neg e1, if_neg e2, if_neg e3, if_neg e4, if_neg e5, if_neg e6, if_pos e7]
  · simp only [Option.some.injEq] at he; subst he
    rw [if_neg e1, if_neg e2, if_neg e3, if_neg e4, if_neg e5, if_neg e6, if_neg e7, if_pos e8]

theorem scanStringLoop_u (text : List Nat) (sf pos start : Nat) (result : List Nat)
    (err : ScanError) (hv : Nat)
    (hb : charCodeAt text pos = CharacterCodes.backslash)
    (hu : charCodeAt text (pos + 1) = CharacterCodes.u)
    (hh : refHex4 text (pos + 2) = some hv) :
    scanStringLoop text (sf + 1) pos start result err
      = scanStringLoop text sf (pos + 6) (pos + 6)
          ((result ++ substring text start pos) ++ [hv]) err := by
  have hp1 : pos + 1 < text.length := by
    by_contra hc
    push_neg at hc
    rw [charCodeAt_sentinel text _ hc] at hu
    exact absurd hu (by decide)
  show (if text.length ≤ pos then _ else _) = _
  rw [if_neg (by omega)]
  rw [if_neg (show ¬ charCodeAt text pos = CharacterCodes.doubleQuote from by rw [hb]; decide)]
  rw [if_pos hb, if_neg (by omega)]
  rw [if_neg (show ¬ charCodeAt text (pos + 1) = CharacterCodes.doubleQuote from by
    rw [hu]; decide)]
  rw [if_neg (show ¬ charCodeAt text (pos + 1) = CharacterCodes.backslash from by
    rw [hu]; decide)]
  rw [if_neg (show ¬ charCodeAt text (pos + 1) = CharacterCodes.slash from by rw [hu]; decide)]
  rw [if_neg (show ¬ charCodeAt text (pos + 1) = CharacterCodes.b from by rw [hu]; decide)]
  rw [if_neg (show ¬ charCodeAt text (pos + 1) = CharacterCodes.f from by rw [hu]; decide)]
  rw [if_neg (show ¬ charCodeAt text (pos + 1) = CharacterCodes.n from by rw [hu]; decide)]
  rw [if_neg (show ¬ charCodeAt text (pos + 1) = CharacterCodes.r from by rw [hu]; decide)]
  rw [if_neg (show ¬ charCodeAt text (pos + 1) = CharacterCodes.t from by rw [hu]; decide)]
  rw [if_pos hu]
  rw [scanHexDigits_of_refHex4 text (pos + 2) hv hh]
  rw [if_pos (show (0 : Int) ≤ Int.ofNat hv from Int.ofNat_nonneg hv)]
  have h1 : pos + 2 + (Int.ofNat hv, 4).2 = pos + 6 := by omega
  rw [h1]
  have h2 : (Int.ofNat hv, 4).1.toNat = hv := rfl
  rw [h2]

theorem scanStringLoop_of_ref (text : List Nat) : ∀ rf pos content p2,
    refStringLoop text rf pos = some (content, p2) →
    ∀ sf start result err, text.length + 1 - pos ≤ sf → start ≤ pos →
    scanStringLoop text sf pos start result err
      = (result ++ (substring text start pos ++ content), p2, err) := by
  intro rf
  induction rf with
  | zero => intro pos content p2 h; exact absurd h (by simp [refStringLoop])
  | succ k ih =>
    intro pos content p2 h sf start result err hsf hsp
    simp only [refStringLoop] at h
    split at h
    · exact absurd h (by simp)
    rename_i hpos
    push_neg at hpos
    obtain ⟨sf', rfl⟩ : ∃ s, sf = s + 1 := ⟨sf - 1, by omega⟩
    split at h
    · -- closing quote
      rename_i hq
      simp only [Option.some.injEq, Prod.mk.injEq] at h
      obtain ⟨h1, h2⟩ := h
      subst h1; subst h2
      show (if text.length ≤ pos then _ else _) = _
      rw [if_neg (by omega), if_pos hq]
      simp
    split at h
    · rename_i hq hb
      split at h
      · -- \u escape
        rename_i hu
        rcases h4o : refHex4 text (pos + 2) with _ | hv <;> rw [h4o] at h
        · simp at h
        rcases hr : refStringLoop text k (pos + 6) with _ | r <;> rw [hr] at h
        · simp at h
        rcases r with ⟨cs, p3⟩
        simp at h
        obtain ⟨h1, h2⟩ := h
        subst h1; subst h2
        rw [scanStringLoop_u text sf' pos start result err hv hb hu h4o]
        have hb6 := refStringLoop_bounds text k (pos + 6) cs p3 hr
        rw [ih (pos + 6) cs p3 hr sf' (pos + 6)
          ((result ++ substring text start pos) ++ [hv]) err (by omega) (le_refl _)]
        rw [substring_nil text (pos + 6) (pos + 6) (le_refl _)]
        simp
      · -- simple escape
        rename_i hu
        rcases heo : refEscChar (charCodeAt text (pos + 1)) with _ | e <;> rw [heo] at h
        · simp at h
        rcases hr : refStringLoop text k (pos + 2) with _ | r <;> rw [hr] at h
        · simp at h
        rcases r with ⟨cs, p3⟩
        simp at h
        obtain ⟨h1, h2⟩ := h
        subst h1; subst h2
        rw [scanStringLoop_esc text sf' pos start result err e hb heo]
        have hb2 := refStringLoop_bounds text k (pos + 2) cs p3 hr
        rw [ih (pos + 2) cs p3 hr sf' (pos + 2)
          ((result ++ substring text start pos) ++ [e]) err (by omega) (le_refl _)]
        rw [substring_nil text (pos + 2) (pos + 2) (le_refl _)]
        simp
    split at h
    · exact absurd h (by simp)
    · -- plain character
      rename_i hq hb hlt
      rcases hr : refStringLoop text k (pos + 1) with _ | r <;> rw [hr] at h
      · simp at h
      rcases r with ⟨cs, p3⟩
      simp at h
      obtain ⟨h1, h2⟩ := h
      subst h1; subst h2
      show (if text.length ≤ pos then _ else _) = _
      rw [if_neg (by omega), if_neg hq, if_neg hb, if_neg (show ¬ charCodeAt text pos ≤ 0x1F by
        omega)]
      rw [ih (pos + 1) cs p3 hr sf' start result err (by omega) (by omega)]
      rw [substring_snoc text start pos hsp (by omega)]
      simp

theorem scanString_of_refString (text : List Nat) (pos : Nat) (content : List Nat) (p2 : Nat)
    (h : refString text pos = some (content, p2)) :
    scanString text pos = (content, p2, ScanError.None) := by
  unfold refString at h
  unfold scanString
  rw [scanStringLoop_of_ref text _ pos content p2 h _ pos [] ScanError.None (le_refl _)
    (le_refl _)]
  rw [substring_nil text pos pos (le_refl _)]
  simp

theorem skipDigitsAux_ge (text : List Nat) : ∀ k pos, pos ≤ skipDigitsAux text k pos := by
  intro k
  induction k with
  | zero => intro pos; simp [skipDigitsAux]
  | succ n ih =>
    intro pos
    simp only [skipDigitsAux]
    split
    · exact le_trans (by omega) (ih (pos + 1))
    · exact le_refl _

theorem skipDigitsAux_le (text : List Nat) : ∀ k pos, pos ≤ text.length →
    skipDigitsAux text k pos ≤ text.length := by
  intro k
  induction k with
  | zero => intro pos h; simpa [skipDigitsAux] using h
  | succ n ih =>
    intro pos h
    simp only [skipDigitsAux]
    split
    · rename_i hc; exact ih (pos + 1) (by omega)
    · exact h

theorem skipDigitsAux_all (text : List Nat) : ∀ k pos i, pos ≤ i →
    i < skipDigitsAux text k pos → i < text.length ∧ isDigit (charCodeAt text i) = true := by
  intro k
  induction k with
  | zero => intro pos i h1 h2; simp [skipDigitsAux] at h2; omega
  | succ n ih =>
    intro pos i h1 h2
    simp only [skipDigitsAux] at h2
    split at h2
    · rename_i hc
      rcases Nat.eq_or_lt_of_le h1 with h | h
      · exact ⟨by omega, h ▸ hc.2⟩
      · exact ih (pos + 1) i h h2
    · omega

theorem skipDigitsAux_stop (text : List Nat) : ∀ k pos, text.length ≤ pos + k →
    isDigit (charCodeAt text (skipDigitsAux text k pos)) = false := by
  intro k
  induction k with
  | zero =>
    intro pos h
    simp only [skipDigitsAux]
    rw [charCodeAt_sentinel text pos h]
    decide
  | succ n ih =>
    intro pos h
    simp only [skipDigitsAux]
    split
    · exact ih (pos + 1) (by omega)
    · rename_i hc
      rw [Decidable.not_and_iff_or_not] at hc
      rcases hc with hc | hc
      · rw [charCodeAt_sentinel text pos (by omega)]
        decide
      · simpa using hc

theorem skipDigits_ge (text : List Nat) (pos : Nat) : pos ≤ skipDigits text pos :=
  skipDigitsAux_ge text _ pos

theorem skipDigits_le (text : List Nat) (pos : Nat) (h : pos ≤ text.length) :
    skipDigits text pos ≤ text.length :=
  skipDigitsAux_le text _ pos h

theorem skipDigits_all (text : List Nat) (pos i : Nat) (h1 : pos ≤ i)
    (h2 : i < skipDigits text pos) : i < text.length ∧ isDigit (charCodeAt text i) = true :=
  skipDigitsAux_all text _ pos i h1 h2

theorem skipDigits_stop (text : List Nat) (pos : Nat) :
    isDigit (charCodeAt text (skipDigits text pos)) = false :=
  skipDigitsAux_stop text _ pos (by omega)

theorem isDigit_lt_of (text : List Nat) (pos : Nat) (h : isDigit (charCodeAt text pos) = true) :
    pos < text.length := by
  by_contra hc
  push_neg at hc
  rw [charCodeAt_sentinel text pos hc] at h
  exact absurd h (by decide)

theorem substring_nil_of_len (text : List Nat) (a b : Nat) (h : text.length ≤ a) :
    substring text a b = [] := by
  unfold substring
  apply List.drop_eq_nil_of_le
  simp
  omega

theorem substring_append (text : List Nat) (a b c : Nat) (h1 : a ≤ b) (h2 : b ≤ c) :
    substring text a c = substring text a b ++ substring text b c := by
  unfold substring
  rw [show text.take b = (text.take c).take b from by rw [List.take_take, min_eq_left h2]]
  conv_rhs =>
    rw [List.drop_take, show (text.take c).drop b = ((text.take c).drop a).drop (b - a) from by
      rw [List.drop_drop]; congr 1; omega]
  rw [List.take_append_drop]

theorem substring_all (text : List Nat) (P : Nat → Prop) : ∀ n a b, b - a = n →
    (∀ i, a ≤ i → i < b → P (charCodeAt text i)) →
    ∀ c ∈ substring text a b, P c := by
  intro n
  induction n with
  | zero =>
    intro a b hn _ c hc
    rw [substring_nil text a b (by omega)] at hc
    exact absurd hc (by simp)
  | succ k ih =>
    intro a b hn hall c hc
    by_cases hlen : a < text.length
    · rw [substring_cons text a b (by omega) hlen] at hc
      rcases List.mem_cons.mp hc with h | h
      · rw [h]; exact hall a (le_refl _) (by omega)
      · exact ih (a + 1) b (by omega) (fun i hi1 hi2 => hall i (by omega) hi2) c h
    · rw [substring_nil_of_len text a b (by omega)] at hc
      exact absurd hc (by simp)

theorem substring_head (text : List Nat) (a b c : Nat)
    (hc : (substring text a b).head? = some c) : c = charCodeAt text a ∧ a < b ∧
    a < text.length := by
  by_cases h1 : a < b
  · by_cases h2 : a < text.length
    · rw [substring_cons text a b h1 h2] at hc
      simp at hc
      exact ⟨hc.symm, h1, h2⟩
    · rw [substring_nil_of_len text a b (by omega)] at hc
      exact absurd hc (by simp)
  · rw [substring_nil text a b (by omega)] at hc
    exact absurd hc (by simp)

theorem leadingDigits_append (ds rest : List Nat) (h1 : ∀ c ∈ ds, isDigit c = true)
    (h2 : ∀ c, rest.head? = some c → isDigit c = false) :
    leadingDigits (ds ++ rest) = (ds, rest) := by
  induction ds with
  | nil =>
    simp only [List.nil_append]
    cases rest with
    | nil => rfl
    | cons c r =>
      simp only [leadingDigits]
      rw [if_neg (by simp [h2 c rfl])]
  | cons c ds' ih =>
    simp only [List.cons_append, leadingDigits]
    rw [if_pos (h1 c (by simp))]
    simp only [List.append_eq]
    rw [ih (fun x hx => h1 x (by simp [hx]))]

set_option maxHeartbeats 1000000 in
theorem refNumber_elim (text : List Nat) (pos : Nat) (v : JNum) (p2 : Nat)
    (h : refNumber text pos = some (v, p2)) :
    ∃ p0 pInt pFrac : Nat, ∃ eneg : Bool, ∃ pE1 : Nat,
      p0 = (if charCodeAt text pos = CharacterCodes.minus then pos + 1 else pos) ∧
      isDigit (charCodeAt text p0) = true ∧
      pInt = (if charCodeAt text p0 = CharacterCodes._0 then p0 + 1
        else skipDigits text (p0 + 1)) ∧
      ((¬ charCodeAt text pInt = CharacterCodes.dot ∧ pFrac = pInt) ∨
       (charCodeAt text pInt = CharacterCodes.dot ∧
        isDigit (charCodeAt text (pInt + 1)) = true ∧
        pFrac = skipDigits text (pInt + 2))) ∧
      ((¬ (charCodeAt text pFrac = CharacterCodes.e ∨ charCodeAt text pFrac = CharacterCodes.E) ∧
        eneg = false ∧ pE1 = pFrac ∧ p2 = pFrac) ∨
       ((charCodeAt text pFrac = CharacterCodes.e ∨ charCodeAt text pFrac = CharacterCodes.E) ∧
        pE1 = (if charCodeAt text (pFrac + 1) = CharacterCodes.plus ∨
            charCodeAt text (pFrac + 1) = CharacterCodes.minus then pFrac + 2 else pFrac + 1) ∧
        isDigit (charCodeAt text pE1) = true ∧
        eneg = decide (charCodeAt text (pFrac + 1) = CharacterCodes.minus) ∧
        p2 = skipDigits text (pE1 + 1))) ∧
      v = ratOfParts (decide (charCodeAt text pos = CharacterCodes.minus))
            (natOfDigits (substring text p0 pInt ++
              if pFrac = pInt then [] else substring text (pInt + 1) pFrac))
            (if pFrac = pInt then ([] : List Nat) else substring text (pInt + 1) pFrac).length
            eneg (natOfDigits (substring text pE1 p2)) := by
  simp only [refNumber] at h
  generalize hp0 : (if charCodeAt text pos = CharacterCodes.minus then pos + 1 else pos) = p0 at h
  generalize hpInt : (if charCodeAt text p0 = CharacterCodes._0 then p0 + 1
    else skipDigits text (p0 + 1)) = pInt at h
  split at h
  · exact absurd h (by simp)
  rename_i hdig
  rw [Decidable.not_not] at hdig
  refine ⟨p0, pInt, ?_⟩
  split at h
  · exact absurd h (by simp)
  rename_i pFrac hfr
  have hfrs : (¬ charCodeAt text pInt = CharacterCodes.dot ∧ pFrac = pInt) ∨
      (charCodeAt text pInt = CharacterCodes.dot ∧
       isDigit (charCodeAt text (pInt + 1)) = true ∧
       pFrac = skipDigits text (pInt + 2)) := by
    split at hfr
    · rename_i hdot
      split at hfr
      · rename_i hd1
        simp only [Option.some.injEq] at hfr
        exact Or.inr ⟨hdot, hd1, hfr.symm⟩
      · exact absurd hfr (by simp)
    · rename_i hdot
      simp only [Option.some.injEq] at hfr
      exact Or.inl ⟨hdot, hfr.symm⟩
  split at h
  · exact absurd h (by simp)
  rename_i exr hex
  have hexs : (¬ (charCodeAt text pFrac = CharacterCodes.e ∨
        charCodeAt text pFrac = CharacterCodes.E) ∧
      exr = (false, pFrac, pFrac)) ∨
      ((charCodeAt text pFrac = CharacterCodes.e ∨ charCodeAt text pFrac = CharacterCodes.E) ∧
       ∃ pE1, pE1 = (if charCodeAt text (pFrac + 1) = CharacterCodes.plus ∨
            charCodeAt text (pFrac + 1) = CharacterCodes.minus then pFrac + 2 else pFrac + 1) ∧
        isDigit (charCodeAt text pE1) = true ∧
        exr = (decide (charCodeAt text (pFrac + 1) = CharacterCodes.minus), pE1,
          skipDigits text (pE1 + 1))) := by
    split at hex
    · rename_i he
      split at hex
      · rename_i hsign
        split at hex
        · rename_i hdE
          simp only [Option.some.injEq] at hex
          exact Or.inr ⟨he, pFrac + 2, (if_pos hsign).symm, hdE, hex.symm⟩
        · exact absurd hex (by simp)
      · rename_i hsign
        split at hex
        · rename_i hdE
          simp only [Option.some.injEq] at hex
          exact Or.inr ⟨he, pFrac + 1, (if_neg hsign).symm, hdE, hex.symm⟩
        · exact absurd hex (by simp)
    · rename_i he
      simp only [Option.some.injEq] at hex
      exact Or.inl ⟨he, hex.symm⟩
  simp only [Option.some.injEq, Prod.mk.injEq] at h
  obtain ⟨hv, hp2⟩ := h
  rcases hexs with ⟨he, hexr⟩ | ⟨he, pE1, hpE1, hdE, hexr⟩
  · refine ⟨pFrac, false, pFrac, rfl, hdig, hpInt.symm, hfrs, Or.inl ⟨he, rfl, rfl, ?_⟩, ?_⟩
    · rw [hexr] at hp2; exact hp2.symm
    · rw [hexr] at hv hp2
      simp at hv hp2
      rw [← hv]
      rw [← hp2]
  · refine ⟨pFrac, decide (charCodeAt text (pFrac + 1) = CharacterCodes.minus), pE1,
      rfl, hdig, hpInt.symm, hfrs, Or.inr ⟨he, hpE1, hdE, rfl, ?_⟩, ?_⟩
    · rw [hexr] at hp2; exact hp2.symm
    · rw [hexr] at hv hp2
      simp at hv hp2
      rw [← hv, ← hp2]

set_option maxHeartbeats 1000000 in
theorem scanNumber_of_refNumber (text : List Nat) (pos : Nat) (v : JNum) (p2 : Nat)
    (h : refNumber text pos = some (v, p2)) :
    scanNumber text (if charCodeAt text pos = CharacterCodes.minus then pos + 1 else pos)
      = (substring text (if charCodeAt text pos = CharacterCodes.minus then pos + 1 else pos) p2,
         p2, ScanError.None) := by
  obtain ⟨p0, pInt, pFrac, eneg, pE1, hp0, hdig, hpInt, hfrs, hexs, hv⟩ := refNumber_elim
    text pos v p2 h
  rw [← hp0]
  simp only [scanNumber]
  rw [← hpInt]
  have hexp : scanNumberExponent text p0 pFrac = (substring text p0 p2, p2, ScanError.None) := by
    simp only [scanNumberExponent]
    rcases hexs with ⟨he, _, _, hp2⟩ | ⟨he, hpE1, hdE, _, hp2⟩
    · rw [if_neg (by rintro ⟨-, hEe⟩; exact he hEe.symm)]
      rw [hp2]
    · have hfl : pFrac < text.length := by
        apply charCodeAt_lt
        rcases he with he | he <;> rw [he] <;> decide
      rw [if_pos ⟨hfl, he.symm⟩]
      have hsame : ((pFrac + 1 < text.length ∧
          charCodeAt text (pFrac + 1) = CharacterCodes.plus) ∨
          charCodeAt text (pFrac + 1) = CharacterCodes.minus)
          ↔ (charCodeAt text (pFrac + 1) = CharacterCodes.plus ∨
             charCodeAt text (pFrac + 1) = CharacterCodes.minus) := by
        constructor
        · rintro (⟨-, hc⟩ | hc)
          · exact Or.inl hc
          · exact Or.inr hc
        · rintro (hc | hc)
          · exact Or.inl ⟨charCodeAt_lt text _ (by rw [hc]; decide), hc⟩
          · exact Or.inr hc
      by_cases hsc : charCodeAt text (pFrac + 1) = CharacterCodes.plus ∨
          charCodeAt text (pFrac + 1) = CharacterCodes.minus
      · rw [if_pos (hsame.mpr hsc)]
        rw [if_pos hsc] at hpE1
        rw [← hpE1]
        rw [if_pos ⟨isDigit_lt_of text pE1 hdE, hdE⟩]
        rw [← hp2]
      · rw [if_neg (fun hx => hsc (hsame.mp hx))]
        rw [if_neg hsc] at hpE1
        rw [← hpE1]
        rw [if_pos ⟨isDigit_lt_of text pE1 hdE, hdE⟩]
        rw [← hp2]
  rcases hfrs with ⟨hdot, hpf⟩ | ⟨hdot, hd1, hpf⟩
  · rw [if_neg (by rintro ⟨-, hd⟩; exact hdot hd)]
    rw [hpf] at hexp
    exact hexp
  · have hIl : pInt < text.length := charCodeAt_lt text pInt (by rw [hdot]; decide)
    rw [if_pos ⟨hIl, hdot⟩]
    rw [if_pos ⟨isDigit_lt_of text (pInt + 1) hd1, hd1⟩]
    rw [← hpf]
    exact hexp

theorem isDigit_ne_special (c : Nat) (h : isDigit c = true) :
    c ≠ CharacterCodes.plus ∧ c ≠ CharacterCodes.minus ∧ c ≠ CharacterCodes.dot ∧
    c ≠ CharacterCodes.e ∧ c ≠ CharacterCodes.E := by
  have := isDigit_iff c
  rw [h] at this
  have hr : 0x30 ≤ c ∧ c ≤ 0x39 := this.mp rfl
  refine ⟨?_, ?_, ?_, ?_, ?_⟩ <;> intro hc <;> subst hc <;>
    simp [CharacterCodes.plus, CharacterCodes.minus, CharacterCodes.dot, CharacterCodes.e,
      CharacterCodes.E] at hr

theorem leadingDigits_all (ds : List Nat) (h : ∀ x ∈ ds, isDigit x = true) :
    leadingDigits ds = (ds, []) := by
  have := leadingDigits_append ds [] h (by simp)
  simpa using this

set_option maxHeartbeats 1600000 in
theorem jsonNumberParse_build (neg : Bool) (c : Nat) (Ir Fd Ed expPart : List Nat)
    (eneg : Bool)
    (hc : isDigit c = true)
    (hI0 : c = CharacterCodes._0 → Ir = [])
    (hIr : ∀ x ∈ Ir, isDigit x = true)
    (hFd : ∀ x ∈ Fd, isDigit x = true)
    (hEd : ∀ x ∈ Ed, isDigit x = true)
    (hexp : (expPart = [] ∧ Ed = [] ∧ eneg = false) ∨
      (∃ ech sch, (ech = CharacterCodes.e ∨ ech = CharacterCodes.E) ∧
        ((sch = [CharacterCodes.plus] ∧ eneg = false) ∨
         (sch = [CharacterCodes.minus] ∧ eneg = true) ∨
         (sch = ([] : List Nat) ∧ eneg = false)) ∧
        Ed ≠ [] ∧ expPart = ech :: (sch ++ Ed))) :
    jsonNumberParse ((if neg then [CharacterCodes.minus] else []) ++ (c :: Ir) ++
        (if Fd = [] then [] else CharacterCodes.dot :: Fd) ++ expPart)
      = some (ratOfParts neg (natOfDigits ((c :: Ir) ++ Fd)) Fd.length eneg
          (natOfDigits Ed)) := by
  have hcs := isDigit_ne_special c hc
  have hLE := leadingDigits_all Ed hEd
  have h0m : CharacterCodes._0 ≠ CharacterCodes.minus := by decide
  have hdotd : isDigit CharacterCodes.dot = false := by decide
  have h00 : isDigit CharacterCodes._0 = true := by decide
  have hTail : ∀ T : List Nat, (∀ x, T.head? = some x → isDigit x = false) →
      leadingDigits (Ir ++ T) = (Ir, T) := fun T hT => leadingDigits_append Ir T hIr hT
  rcases hexp with ⟨hE1, hE2, hE3⟩ | ⟨ech, sch, hech, hsch, hEdne, hE⟩
  · -- no exponent part
    subst hE1; subst hE2; subst hE3
    by_cases hf : Fd = []
    · subst hf
      have hLI := hTail [] (by simp)
      simp only [List.append_nil] at hLI
      by_cases h0 : c = CharacterCodes._0
      · rw [hI0 h0]; subst h0
        cases neg <;> simp [jsonNumberParse, h0m, h00]
      · cases neg <;> simp [jsonNumberParse, hc, h0, hLI, hcs.2.1, h0m]
    · have hLFx : leadingDigits (Fd ++ []) = (Fd, []) := by
        simpa using leadingDigits_all Fd hFd
      have hLI := hTail (CharacterCodes.dot :: (Fd ++ []))
        (by intro x hx; simp at hx; subst hx; exact hdotd)
      simp only [List.append_nil] at hLI hLFx
      by_cases h0 : c = CharacterCodes._0
      · rw [hI0 h0]; subst h0
        cases neg <;> simp [jsonNumberParse, h0m, h00, hf, hLFx]
      · cases neg <;> simp [jsonNumberParse, hc, h0, hf, hLFx, hLI, hcs.2.1, h0m]
  · -- exponent present
    have hechne : ech ≠ CharacterCodes.dot ∧ ech ≠ CharacterCodes.plus ∧
        ech ≠ CharacterCodes.minus ∧ isDigit ech = false := by
      rcases hech with h | h <;> subst h <;> exact ⟨by decide, by decide, by decide, by decide⟩
    have hexpHead : ∀ x : Nat, (ech :: (sch ++ Ed)).head? = some x → isDigit x = false := by
      intro x hx; simp at hx; subst hx; exact hechne.2.2.2
    have hmp : CharacterCodes.minus ≠ CharacterCodes.plus := by decide
    subst hE
    have hLI := hTail _ hexpHead
    have hLFx := leadingDigits_append Fd (ech :: (sch ++ Ed)) hFd hexpHead
    rcases hsch with ⟨hs, he'⟩ | ⟨hs, he'⟩ | ⟨hs, he'⟩ <;> subst hs <;> subst he'
    · -- explicit plus sign
      simp only [List.singleton_append] at hLI hLFx
      have hLId := hTail (CharacterCodes.dot :: (Fd ++ ech :: CharacterCodes.plus :: Ed))
        (by intro x hx; simp at hx; subst hx; exact hdotd)
      by_cases hf : Fd = []
      all_goals by_cases h0 : c = CharacterCodes._0
      all_goals cases neg
      all_goals try rw [hI0 h0]
      all_goals simp [jsonNumberParse, hc, h0, hf, hLI, hLFx, hLId, hLE, hEdne, hcs.2.1,
          h0m, h00, hechne.1, hechne.2.1, hechne.2.2.1, hech, hmp]
    · -- explicit minus sign
      simp only [List.singleton_append] at hLI hLFx
      have hLId := hTail (CharacterCodes.dot :: (Fd ++ ech :: CharacterCodes.minus :: Ed))
        (by intro x hx; simp at hx; subst hx; exact hdotd)
      by_cases hf : Fd = []
      all_goals by_cases h0 : c = CharacterCodes._0
      all_goals cases neg
      all_goals try rw [hI0 h0]
      all_goals simp [jsonNumberParse, hc, h0, hf, hLI, hLFx, hLId, hLE, hEdne, hcs.2.1,
          h0m, h00, hechne.1, hechne.2.1, hechne.2.2.1, hech, hmp]
    · -- no explicit sign
      obtain ⟨d, Ed', rfl⟩ : ∃ d Ed', Ed = d :: Ed' := by
        cases Ed with
        | nil => exact absurd rfl hEdne
        | cons d E => exact ⟨d, E, rfl⟩
      have hds := isDigit_ne_special d (hEd d (by simp))
      simp only [List.nil_append] at hLI hLFx
      have hLId := hTail (CharacterCodes.dot :: (Fd ++ ech :: d :: Ed'))
        (by intro x hx; simp at hx; subst hx; exact hdotd)
      by_cases hf : Fd = []
      all_goals by_cases h0 : c = CharacterCodes._0
      all_goals cases neg
      all_goals try rw [hI0 h0]
      all_goals simp [jsonNumberParse, hc, h0, hf, hLI, hLFx, hLId, hLE, hcs.2.1, h0m, h00,
          hechne.1, hechne.2.1, hechne.2.2.1, hech, hds.1, hds.2.1]

set_option maxHeartbeats 1600000 in
theorem jsonNumberParse_of_refNumber (text : List Nat) (pos : Nat) (v : JNum) (p2 : Nat)
    (h : refNumber text pos = some (v, p2)) :
    jsonNumberParse (substring text pos p2) = some v := by
  obtain ⟨p0, pInt, pFrac, eneg, pE1, hp0, hdig, hpInt, hfrs, hexs, hv⟩ := refNumber_elim
    text pos v p2 h
  have hp0len : p0 < text.length := isDigit_lt_of text p0 hdig
  have hpInt_ge : p0 + 1 ≤ pInt := by
    rw [hpInt]; split
    · omega
    · exact skipDigits_ge text (p0 + 1)
  have hpInt_le : pInt ≤ text.length := by
    rw [hpInt]; split
    · omega
    · exact skipDigits_le text (p0 + 1) (by omega)
  have hIr : ∀ x ∈ substring text (p0 + 1) pInt, isDigit x = true := by
    apply substring_all text (fun x => isDigit x = true) (pInt - (p0 + 1)) _ _ rfl
    intro i hi1 hi2
    rw [hpInt] at hi2
    split at hi2
    · omega
    · exact (skipDigits_all text (p0 + 1) i hi1 hi2).2
  have hI0 : charCodeAt text p0 = CharacterCodes._0 → substring text (p0 + 1) pInt = [] := by
    intro h0
    rw [hpInt, if_pos h0]
    exact substring_nil text _ _ (le_refl _)
  have hIeq : substring text p0 pInt = charCodeAt text p0 :: substring text (p0 + 1) pInt :=
    substring_cons text p0 pInt (by omega) hp0len
  -- fraction part facts
  have hFfacts : pInt ≤ pFrac ∧ pFrac ≤ text.length ∧
      (∀ x ∈ (if pFrac = pInt then ([] : List Nat) else substring text (pInt + 1) pFrac),
        isDigit x = true) ∧
      substring text pInt pFrac =
        ((if (if pFrac = pInt then ([] : List Nat) else substring text (pInt + 1) pFrac) = []
          then [] else CharacterCodes.dot ::
            (if pFrac = pInt then ([] : List Nat) else substring text (pInt + 1) pFrac))) := by
    rcases hfrs with ⟨hdot, hpf⟩ | ⟨hdot, hd1, hpf⟩
    · subst hpf
      refine ⟨le_refl _, hpInt_le, by simp, ?_⟩
      rw [if_pos rfl]
      rw [if_pos rfl]
      exact substring_nil text _ _ (le_refl _)
    · have hIlen : pInt < text.length := charCodeAt_lt text pInt (by rw [hdot]; decide)
      have hI1len : pInt + 1 < text.length := isDigit_lt_of text (pInt + 1) hd1
      have hge : pInt + 2 ≤ pFrac := by rw [hpf]; exact skipDigits_ge text (pInt + 2)
      have hle : pFrac ≤ text.length := by rw [hpf]; exact skipDigits_le text _ (by omega)
      have hne : pFrac ≠ pInt := by omega
      have hFde : substring text (pInt + 1) pFrac =
          charCodeAt text (pInt + 1) :: substring text (pInt + 2) pFrac :=
        substring_cons text _ _ (by omega) (by omega)
      refine ⟨by omega, hle, ?_, ?_⟩
      · rw [if_neg hne]
        apply substring_all text (fun x => isDigit x = true) (pFrac - (pInt + 1)) _ _ rfl
        intro i hi1 hi2
        rcases Nat.eq_or_lt_of_le hi1 with he | hlt
        · rw [← he]; exact hd1
        · rw [hpf] at hi2
          exact (skipDigits_all text (pInt + 2) i (by omega) hi2).2
      · rw [if_neg hne, if_neg (by rw [hFde]; simp)]
        rw [substring_cons text pInt pFrac (by omega) hIlen, hdot]
  obtain ⟨hpF_ge, hpF_le, hFd, hFeq⟩ := hFfacts
  -- exponent part facts
  have hEfacts : pFrac ≤ p2 ∧ p2 ≤ text.length ∧
      (∀ x ∈ substring text pE1 p2, isDigit x = true) ∧
      ((substring text pFrac p2 = [] ∧ substring text pE1 p2 = [] ∧ eneg = false) ∨
       (∃ ech sch, (ech = CharacterCodes.e ∨ ech = CharacterCodes.E) ∧
         ((sch = [CharacterCodes.plus] ∧ eneg = false) ∨
          (sch = [CharacterCodes.minus] ∧ eneg = true) ∨
          (sch = ([] : List Nat) ∧ eneg = false)) ∧
         substring text pE1 p2 ≠ [] ∧
         substring text pFrac p2 = ech :: (sch ++ substring text pE1 p2))) := by
    rcases hexs with ⟨he, hen, hpE, hp2⟩ | ⟨he, hpE1, hdE, hen, hp2⟩
    · subst hp2
      refine ⟨le_refl _, hpF_le, ?_, Or.inl ⟨?_, ?_, hen⟩⟩
      · rw [hpE]; simp [substring_nil]
      · exact substring_nil text _ _ (le_refl _)
      · rw [hpE]; exact substring_nil text _ _ (le_refl _)
    · have hFlen : pFrac < text.length := by
        apply charCodeAt_lt
        rcases he with h' | h' <;> rw [h'] <;> decide
      have hE1len : pE1 < text.length := isDigit_lt_of text pE1 hdE
      have hE1ge : pFrac + 1 ≤ pE1 := by rw [hpE1]; split <;> omega
      have hp2ge : pE1 + 1 ≤ p2 := by rw [hp2]; exact skipDigits_ge text (pE1 + 1)
      have hp2le : p2 ≤ text.length := by rw [hp2]; exact skipDigits_le text _ (by omega)
      have hEdlist : ∀ x ∈ substring text pE1 p2, isDigit x = true := by
        apply substring_all text (fun x => isDigit x = true) (p2 - pE1) _ _ rfl
        intro i hi1 hi2
        rcases Nat.eq_or_lt_of_le hi1 with he' | hlt
        · rw [← he']; exact hdE
        · rw [hp2] at hi2
          exact (skipDigits_all text (pE1 + 1) i (by omega) hi2).2
      have hEdne : substring text pE1 p2 ≠ [] := by
        rw [substring_cons text pE1 p2 (by omega) hE1len]
        simp
      refine ⟨by omega, hp2le, hEdlist, Or.inr ⟨charCodeAt text pFrac, ?_⟩⟩
      by_cases hsc : charCodeAt text (pFrac + 1) = CharacterCodes.plus ∨
          charCodeAt text (pFrac + 1) = CharacterCodes.minus
      · rw [if_pos hsc] at hpE1
        have hF1len : pFrac + 1 < text.length := by
          apply charCodeAt_lt
          rcases hsc with h' | h' <;> rw [h'] <;> decide
        refine ⟨[charCodeAt text (pFrac + 1)], he, ?_, hEdne, ?_⟩
        · rcases hsc with h' | h'
          · refine Or.inl ⟨by rw [h'], ?_⟩
            rw [hen, h']
            simp [CharacterCodes.plus, CharacterCodes.minus]
          · refine Or.inr (Or.inl ⟨by rw [h'], ?_⟩)
            rw [hen, h']
            simp
        · rw [substring_cons text pFrac p2 (by omega) hFlen]
          rw [substring_cons text (pFrac + 1) p2 (by omega) hF1len]
          rw [hpE1]
          simp
      · rw [if_neg hsc] at hpE1
        push_neg at hsc
        refine ⟨[], he, Or.inr (Or.inr ⟨rfl, ?_⟩), hEdne, ?_⟩
        · rw [hen]
          simp [hsc.2]
        · rw [substring_cons text pFrac p2 (by omega) hFlen]
          rw [hpE1]
          simp
  obtain ⟨hp2_ge, hp2_le, hEd, hexpCase⟩ := hEfacts
  -- assemble the full decomposition and conclude
  have hneg0 : pos ≤ p0 := by rw [hp0]; split <;> omega
  have hsplit : substring text pos p2 =
      (if decide (charCodeAt text pos = CharacterCodes.minus) then [CharacterCodes.minus]
        else []) ++ (charCodeAt text p0 :: substring text (p0 + 1) pInt) ++
      (if (if pFrac = pInt then ([] : List Nat) else substring text (pInt + 1) pFrac) = []
        then [] else CharacterCodes.dot ::
          (if pFrac = pInt then ([] : List Nat) else substring text (pInt + 1) pFrac)) ++
      substring text pFrac p2 := by
    rw [substring_append text pos p0 p2 hneg0 (by omega)]
    rw [substring_append text p0 pInt p2 (by omega) (by omega)]
    rw [substring_append text pInt pFrac p2 hpF_ge (by omega)]
    rw [hIeq, hFeq]
    by_cases hm : charCodeAt text pos = CharacterCodes.minus
    · rw [hp0, if_pos hm] at *
      rw [substring_cons text pos (pos + 1) (by omega) (by
        apply charCodeAt_lt; rw [hm]; decide)]
      rw [substring_nil text (pos + 1) (pos + 1) (le_refl _), hm]
      simp [hm]
    · rw [hp0, if_neg hm] at *
      rw [substring_nil text pos pos (le_refl _)]
      simp [hm]
  rw [hsplit, hv]
  have := jsonNumberParse_build (decide (charCodeAt text pos = CharacterCodes.minus))
    (charCodeAt text p0) (substring text (p0 + 1) pInt)
    (if pFrac = pInt then ([] : List Nat) else substring text (pInt + 1) pFrac)
    (substring text pE1 p2) (substring text pFrac p2) eneg hdig hI0 hIr hFd hEd hexpCase
  rw [this]
  rw [hIeq]

theorem refSkipWsAux_ge (text : List Nat) : ∀ k pos, pos ≤ refSkipWsAux text k pos := by
  intro k
  induction k with
  | zero => intro pos; simp [refSkipWsAux]
  | succ n ih =>
    intro pos
    simp only [refSkipWsAux]
    split
    · exact le_trans (by omega) (ih (pos + 1))
    · exact le_refl _

theorem refSkipWsAux_le (text : List Nat) : ∀ k pos, pos ≤ text.length →
    refSkipWsAux text k pos ≤ text.length := by
  intro k
  induction k with
  | zero => intro pos h; simpa [refSkipWsAux] using h
  | succ n ih =>
    intro pos h
    simp only [refSkipWsAux]
    split
    · rename_i hc; exact ih (pos + 1) (by omega)
    · exact h

theorem refSkipWsAux_all (text : List Nat) : ∀ k pos i, pos ≤ i →
    i < refSkipWsAux text k pos → i < text.length ∧ isRefWs (charCodeAt text i) = true := by
  intro k
  induction k with
  | zero => intro pos i h1 h2; simp [refSkipWsAux] at h2; omega
  | succ n ih =>
    intro pos i h1 h2
    simp only [refSkipWsAux] at h2
    split at h2
    · rename_i hc
      rcases Nat.eq_or_lt_of_le h1 with h | h
      · exact ⟨by omega, h ▸ hc.2⟩
      · exact ih (pos + 1) i h h2
    · omega

theorem refSkipWsAux_stop (text : List Nat) : ∀ k pos, text.length ≤ pos + k →
    ¬ (refSkipWsAux text k pos < text.length ∧
      isRefWs (charCodeAt text (refSkipWsAux text k pos)) = true) := by
  intro k
  induction k with
  | zero =>
    intro pos h
    simp only [refSkipWsAux]
    omega
  | succ n ih =>
    intro pos h
    simp only [refSkipWsAux]
    split
    · exact ih (pos + 1) (by omega)
    · assumption

theorem refSkipWs_ge (text : List Nat) (pos : Nat) : pos ≤ refSkipWs text pos :=
  refSkipWsAux_ge text _ pos

theorem refSkipWs_le (text : List Nat) (pos : Nat) (h : pos ≤ text.length) :
    refSkipWs text pos ≤ text.length :=
  refSkipWsAux_le text _ pos h

theorem refSkipWs_all (text : List Nat) (pos i : Nat) (h1 : pos ≤ i)
    (h2 : i < refSkipWs text pos) : i < text.length ∧ isRefWs (charCodeAt text i) = true :=
  refSkipWsAux_all text _ pos i h1 h2

theorem refSkipWs_stop (text : List Nat) (pos : Nat) :
    ¬ (refSkipWs text pos < text.length ∧
      isRefWs (charCodeAt text (refSkipWs text pos)) = true) :=
  refSkipWsAux_stop text _ pos (by omega)

theorem nextTok_goodTok (text : List Nat) (p : Nat) (h : NextTok text p) :
    GoodTok text (refSkipWs text p) := by
  rcases h with h | h | h | h
  · rw [GoodTok, specScanner_eof text _ h]
    refine ⟨rfl, ?_, ?_, ?_, ?_, ?_⟩ <;> (intro hx; cases hx)
  · rw [GoodTok, specScanner_comma text _ h]
    refine ⟨rfl, ?_, ?_, ?_, ?_, ?_⟩ <;> (intro hx; cases hx)
  · rw [GoodTok, specScanner_closeBrace text _ h]
    refine ⟨rfl, ?_, ?_, ?_, ?_, ?_⟩ <;> (intro hx; cases hx)
  · rw [GoodTok, specScanner_closeBracket text _ h]
    refine ⟨rfl, ?_, ?_, ?_, ?_, ?_⟩ <;> (intro hx; cases hx)

theorem nextTok_stops (text : List Nat) (p : Nat) (h : NextTok text p) :
    StopsWord text p := by
  unfold StopsWord
  unfold NextTok at h
  rcases Nat.eq_or_lt_of_le (refSkipWs_ge text p) with he | hlt
  · rw [← he] at h
    rcases h with h | h | h | h
    · omega
    all_goals (rintro ⟨-, hu⟩; rw [h] at hu)
    · exact absurd hu (by decide)
    · exact absurd hu (by decide)
    · exact absurd hu (by decide)
  · have := (refSkipWs_all text p p (le_refl _) hlt).2
    rw [isRefWs_iff] at this
    rintro ⟨-, hu⟩
    rcases this with h' | h' | h' | h' <;> rw [h'] at hu <;> exact absurd hu (by decide)

theorem errorsOf_append (a b : List VisitEvent) :
    errorsOf (a ++ b) = errorsOf a ++ errorsOf b := by
  unfold errorsOf
  induction a with
  | nil => simp
  | cons e rest ih =>
    simp only [List.cons_append, List.foldr_cons, ih]
    cases e <;> simp

theorem refInsert_eq_setMember : ∀ (ms : List (List Nat × JValue)) key v,
    refInsert ms key v = setMember ms key v := by
  intro ms
  induction ms with
  | nil => intro key v; rfl
  | cons m rest ih =>
    intro key v
    simp only [refInsert, setMember]
    split <;> simp [ih]

theorem RunsTo.mapF {α β : Type} {A : Nat → Option α} {g : α → β} {x : α}
    (h : RunsTo A x) : RunsTo (fun k => (A k).map g) (g x) := by
  obtain ⟨⟨a0, ha⟩, had⟩ := h
  constructor
  · exact ⟨a0, fun fuel hf => by simp [ha fuel hf]⟩
  · intro fuel
    rcases had fuel with h | h <;> simp [h]

set_option maxHeartbeats 1000000 in
theorem refValue_goodTok (kr : Nat) (text : List Nat) (q : Nat) (v : JValue) (p' : Nat)
    (h : refValue kr text q = some (v, p')) (hnt : NextTok text p') :
    GoodTok text q ∧
    ((specScanner text q).token = SyntaxKind.OpenBraceToken ∨
     (specScanner text q).token = SyntaxKind.OpenBracketToken ∨
     (specScanner text q).token = SyntaxKind.StringLiteral ∨
     (specScanner text q).token = SyntaxKind.NumericLiteral ∨
     (specScanner text q).token = SyntaxKind.TrueKeyword ∨
     (specScanner text q).token = SyntaxKind.FalseKeyword ∨
     (specScanner text q).token = SyntaxKind.NullKeyword) := by
  cases kr with
  | zero => exact absurd h (by simp [refValue])
  | succ k =>
    simp only [refValue] at h
    split at h
    · rename_i hc
      rw [GoodTok, specScanner_openBrace text q hc]
      exact ⟨⟨rfl, (by intro hx; cases hx), (by intro hx; cases hx), (by intro hx; cases hx),
        (by intro hx; cases hx), (by intro hx; cases hx)⟩, Or.inl rfl⟩
    split at h
    · rename_i hc
      rw [GoodTok, specScanner_openBracket text q hc]
      exact ⟨⟨rfl, (by intro hx; cases hx), (by intro hx; cases hx), (by intro hx; cases hx),
        (by intro hx; cases hx), (by intro hx; cases hx)⟩, Or.inr (Or.inl rfl)⟩
    split at h
    · rename_i hc
      rcases hs : refString text (q + 1) with _ | sres <;> rw [hs] at h
      · exact absurd h (by simp)
      have hscan := scanString_of_refString text (q + 1) sres.1 sres.2 (by rw [hs])
      rw [GoodTok, specScanner_quote text q hc, hscan]
      exact ⟨⟨rfl, (by intro hx; cases hx), (by intro hx; cases hx), (by intro hx; cases hx),
        (by intro hx; cases hx), (by intro hx; cases hx)⟩, Or.inr (Or.inr (Or.inl rfl))⟩
    split at h
    · rename_i hc
      split at h
      · rename_i hks
        simp only [Option.some.injEq, Prod.mk.injEq] at h
        have hstop : StopsWord text (q + 4) := h.2 ▸ nextTok_stops text p' hnt
        rw [GoodTok, specScanner_true text q hc hks.1 hks.2.1 hks.2.2 hstop]
        exact ⟨⟨rfl, (by intro hx; cases hx), (by intro hx; cases hx), (by intro hx; cases hx),
          (by intro hx; cases hx), (by intro hx; cases hx)⟩,
          Or.inr (Or.inr (Or.inr (Or.inr (Or.inl rfl))))⟩
      · exact absurd h (by simp)
    split at h
    · rename_i hc
      split at h
      · rename_i hks
        simp only [Option.some.injEq, Prod.mk.injEq] at h
        have hstop : StopsWord text (q + 5) := h.2 ▸ nextTok_stops text p' hnt
        rw [GoodTok, specScanner_false text q hc hks.1 hks.2.1 hks.2.2.1 hks.2.2.2 hstop]
        exact ⟨⟨rfl, (by intro hx; cases hx), (by intro hx; cases hx), (by intro hx; cases hx),
          (by intro hx; cases hx), (by intro hx; cases hx)⟩,
          Or.inr (Or.inr (Or.inr (Or.inr (Or.inr (Or.inl rfl)))))⟩
      · exact absurd h (by simp)
    split at h
    · rename_i hc
      split at h
      · rename_i hks
        simp only [Option.some.injEq, Prod.mk.injEq] at h
        have hstop : StopsWord text (q + 4) := h.2 ▸ nextTok_stops text p' hnt
        rw [GoodTok, specScanner_null text q hc hks.1 hks.2.1 hks.2.2 hstop]
        exact ⟨⟨rfl, (by intro hx; cases hx), (by intro hx; cases hx), (by intro hx; cases hx),
          (by intro hx; cases hx), (by intro hx; cases hx)⟩,
          Or.inr (Or.inr (Or.inr (Or.inr (Or.inr (Or.inr rfl)))))⟩
      · exact absurd h (by simp)
    · rename_i hc1 hc2 hc3 hc4 hc5 hc6
      rcases hn : refNumber text q with _ | nres <;> rw [hn] at h
      · exact absurd h (by simp)
      obtain ⟨p0, pInt, pFrac, eneg, pE1, hp0, hdig, -, -, -, -⟩ :=
        refNumber_elim text q nres.1 nres.2 hn
      have hscan := scanNumber_of_refNumber text q nres.1 nres.2 hn
      by_cases hm : charCodeAt text q = CharacterCodes.minus
      · rw [if_pos hm] at hp0 hscan
        subst hp0
        rw [GoodTok, specScanner_minus_digit text q hm hdig, hscan]
        exact ⟨⟨rfl, (by intro hx; cases hx), (by intro hx; cases hx), (by intro hx; cases hx),
          (by intro hx; cases hx), (by intro hx; cases hx)⟩,
          Or.inr (Or.inr (Or.inr (Or.inl rfl)))⟩
      · rw [if_neg hm] at hp0 hscan
        rw [hp0] at hdig
        rw [GoodTok, specScanner_digit text q hdig, hscan]
        exact ⟨⟨rfl, (by intro hx; cases hx), (by intro hx; cases hx), (by intro hx; cases hx),
          (by intro hx; cases hx), (by intro hx; cases hx)⟩,
          Or.inr (Or.inr (Or.inr (Or.inl rfl)))⟩

theorem refNumber_lt (text : List Nat) (pos : Nat) (v : JNum) (p2 : Nat)
    (h : refNumber text pos = some (v, p2)) : pos < p2 ∧ p2 ≤ text.length := by
  obtain ⟨p0, pInt, pFrac, eneg, pE1, hp0, hdig, hpInt, hfrs, hexs, -⟩ :=
    refNumber_elim text pos v p2 h
  have hp0len : p0 < text.length := isDigit_lt_of text p0 hdig
  have h1 : pos ≤ p0 := by rw [hp0]; split <;> omega
  have h2 : p0 + 1 ≤ pInt := by
    rw [hpInt]; split
    · omega
    · exact skipDigits_ge text (p0 + 1)
  have h2b : pInt ≤ text.length := by
    rw [hpInt]; split
    · omega
    · exact skipDigits_le text (p0 + 1) (by omega)
  have h3 : pInt ≤ pFrac ∧ pFrac ≤ text.length := by
    rcases hfrs with ⟨-, hpf⟩ | ⟨-, hd1, hpf⟩
    · omega
    · have := isDigit_lt_of text (pInt + 1) hd1
      constructor
      · rw [hpf]; exact le_trans (by omega) (skipDigits_ge text (pInt + 2))
      · rw [hpf]; exact skipDigits_le text (pInt + 2) (by omega)
  have h4 : pFrac ≤ p2 ∧ p2 ≤ text.length := by
    rcases hexs with ⟨-, -, -, hp2⟩ | ⟨-, hpE1, hdE, -, hp2⟩
    · omega
    · have hE1len := isDigit_lt_of text pE1 hdE
      have hE1ge : pFrac ≤ pE1 := by rw [hpE1]; split <;> omega
      constructor
      · rw [hp2]; exact le_trans (by omega) (skipDigits_ge text (pE1 + 1))
      · rw [hp2]; exact skipDigits_le text (pE1 + 1) (by omega)
  omega

theorem goodTok_closeBrace (text : List Nat) (p : Nat)
    (h : charCodeAt text p = CharacterCodes.closeBrace) : GoodTok text p := by
  rw [GoodTok, specScanner_closeBrace text p h]
  exact ⟨rfl, (by intro hx; cases hx), (by intro hx; cases hx), (by intro hx; cases hx),
    (by intro hx; cases hx), (by intro hx; cases hx)⟩

theorem goodTok_closeBracket (text : List Nat) (p : Nat)
    (h : charCodeAt text p = CharacterCodes.closeBracket) : GoodTok text p := by
  rw [GoodTok, specScanner_closeBracket text p h]
  exact ⟨rfl, (by intro hx; cases hx), (by intro hx; cases hx), (by intro hx; cases hx),
    (by intro hx; cases hx), (by intro hx; cases hx)⟩

theorem goodTok_colon (text : List Nat) (p : Nat)
    (h : charCodeAt text p = CharacterCodes.colon) : GoodTok text p := by
  rw [GoodTok, specScanner_colon text p h]
  exact ⟨rfl, (by intro hx; cases hx), (by intro hx; cases hx), (by intro hx; cases hx),
    (by intro hx; cases hx), (by intro hx; cases hx)⟩

theorem goodTok_quote (text : List Nat) (p : Nat)
    (h : charCodeAt text p = CharacterCodes.doubleQuote)
    (content : List Nat) (ks2 : Nat) (hs : refString text (p + 1) = some (content, ks2)) :
    GoodTok text p := by
  have hscan := scanString_of_refString text (p + 1) content ks2 hs
  have hrw := specScanner_quote text p h
  rw [hscan] at hrw
  rw [GoodTok, hrw]
  exact ⟨rfl, (by intro hx; cases hx), (by intro hx; cases hx), (by intro hx; cases hx),
    (by intro hx; cases hx), (by intro hx; cases hx)⟩

theorem refMembers_quote (kr : Nat) (text : List Nat) (q : Nat)
    (acc : List (List Nat × JValue)) (r : List (List Nat × JValue) × Nat)
    (h : refMembers kr text q acc = some r) :
    charCodeAt text q = CharacterCodes.doubleQuote ∧
    ∃ content ks2, refString text (q + 1) = some (content, ks2) := by
  cases kr with
  | zero => exact absurd h (by simp [refMembers])
  | succ k =>
    simp only [refMembers] at h
    split at h
    · rename_i hq
      split at h
      · exact absurd h (by simp)
      · rename_i ks hks
        exact ⟨hq, ks.1, ks.2, hks⟩
    · exact absurd h (by simp)

theorem refMembers_goodTok (kr : Nat) (text : List Nat) (q : Nat)
    (acc : List (List Nat × JValue)) (r : List (List Nat × JValue) × Nat)
    (h : refMembers kr text q acc = some r) : GoodTok text q := by
  obtain ⟨hq, content, ks2, hs⟩ := refMembers_quote kr text q acc r h
  exact goodTok_quote text q hq content ks2 hs

theorem nextTok_of_comma (text : List Nat) (p : Nat)
    (h : charCodeAt text (refSkipWs text p) = CharacterCodes.comma) : NextTok text p :=
  Or.inr (Or.inl h)

theorem nextTok_of_closeBrace (text : List Nat) (p : Nat)
    (h : charCodeAt text (refSkipWs text p) = CharacterCodes.closeBrace) : NextTok text p :=
  Or.inr (Or.inr (Or.inl h))

theorem nextTok_of_closeBracket (text : List Nat) (p : Nat)
    (h : charCodeAt text (refSkipWs text p) = CharacterCodes.closeBracket) : NextTok text p :=
  Or.inr (Or.inr (Or.inr h))

theorem refElements_first (kr : Nat) (text : List Nat) (q : Nat) (acc : List JValue)
    (r : List JValue × Nat) (h : refElements kr text q acc = some r) :
    ∃ vr : JValue × Nat, refValue (kr - 1) text q = some vr ∧ NextTok text vr.2 := by
  cases kr with
  | zero => exact absurd h (by simp [refElements])
  | succ k =>
    simp only [refElements] at h
    split at h
    · exact absurd h (by simp)
    · rename_i vr hvr
      refine ⟨vr, hvr, ?_⟩
      split at h
      · exact nextTok_of_comma text vr.2 (by assumption)
      split at h
      · exact nextTok_of_closeBracket text vr.2 (by assumption)
      · exact absurd h (by simp)

theorem refElements_goodTok (kr : Nat) (text : List Nat) (q : Nat) (acc : List JValue)
    (r : List JValue × Nat) (h : refElements kr text q acc = some r) :
    GoodTok text q ∧
    ¬ ((specScanner text q).token = SyntaxKind.CloseBracketToken ∧
       ParseOptions.DEFAULT.allowTrailingComma = true) ∧
    ¬ ((specScanner text q).token = SyntaxKind.CloseBracketToken ∨
       (specScanner text q).token = SyntaxKind.EOF) ∧
    ¬ (specScanner text q).token = SyntaxKind.CommaToken := by
  obtain ⟨vr, hvr, hnt⟩ := refElements_first kr text q acc r h
  obtain ⟨hg, htok⟩ := refValue_goodTok _ text q vr.1 vr.2 (by rw [hvr]) hnt
  refine ⟨hg, ?_, ?_, ?_⟩
  · rcases htok with h' | h' | h' | h' | h' | h' | h' <;> rw [h'] <;> rintro ⟨hx, -⟩ <;> cases hx
  · rcases htok with h' | h' | h' | h' | h' | h' | h' <;> rw [h'] <;> rintro (hx | hx) <;> cases hx
  · rcases htok with h' | h' | h' | h' | h' | h' | h' <;> rw [h'] <;> intro hx <;> cases hx

theorem RunsTo.cast {α : Type} {f : Nat → Option α} {x y : α} (h : RunsTo f x) (he : x = y) :
    RunsTo f y := he ▸ h

theorem runsTo_congr2 {α : Type} (G : Nat → Option α) {F : Nat → Option α} {x : α}
    (he : ∀ k, F k = G k) (h : RunsTo G x) : RunsTo F x := runsTo_congr he h

theorem runsTo_bind {α β : Type} {A : Nat → Option α} (x : α) {B : α → Nat → Option β} {y : β}
    (h1 : RunsTo A x) (h2 : RunsTo (fun k => B x k) y) :
    RunsTo (fun k => (A k).bind (fun a => B a k)) y := RunsTo.bindF h1 h2

theorem visitScanNext_skipWs (opts : ParseOptions) (text : List Nat) (p : Nat)
    (hGood : GoodTok text (refSkipWs text p)) (scn : Scanner) (evs : List VisitEvent)
    (htext : scn.text = text) (hpos : scn.pos = p) :
    RunsTo (fun k => visitScanNext k opts ({ scn := scn, events := evs } : PState))
      ({ scn := specScanner text (refSkipWs text p), events := evs } : PState) :=
  visitScanNext_ws opts text _ hGood _ p rfl (refSkipWs_ge text p)
    (fun i h1 h2 => (refSkipWs_all text p i h1 h2).2) scn evs htext hpos

theorem noErr_nil : NoErr [] := by intro e he; cases he

theorem noErr_cons (a : VisitEvent) (l : List VisitEvent) (ha : IsErrEv a = false)
    (hl : NoErr l) : NoErr (a :: l) := by
  intro e he
  rcases List.mem_cons.mp he with h | h
  · rw [h]; exact ha
  · exact hl e h

theorem noErr_append (a b : List VisitEvent) (ha : NoErr a) (hb : NoErr b) :
    NoErr (a ++ b) := by
  intro e he
  rcases List.mem_append.mp he with h | h
  · exact ha e h
  · exact hb e h

theorem noErr_single (a : VisitEvent) (ha : IsErrEv a = false) : NoErr [a] :=
  noErr_cons a [] ha noErr_nil

theorem errorsOf_eq_nil (δ : List VisitEvent) (h : NoErr δ) : errorsOf δ = [] := by
  induction δ with
  | nil => rfl
  | cons e rest ih =>
    have hrest : NoErr rest := fun x hx => h x (by simp [hx])
    have ht := ih hrest
    unfold errorsOf at ht ⊢
    rw [List.foldr_cons]
    cases e
    case error c o l =>
      have := h (VisitEvent.error c o l) (by simp)
      exact absurd this (by simp [IsErrEv])
    all_goals exact ht

set_option maxHeartbeats 4000000 in
theorem sim_main : ∀ kr, SimV kr ∧ SimM kr ∧ SimE kr := by
  intro kr
  induction kr with
  | zero =>
    refine ⟨?_, ?_, ?_⟩
    · intro text q v p' h; exact absurd h (by simp [refValue])
    · intro text q acc0 ms p' h; exact absurd h (by simp [refMembers])
    · intro text q acc0 xs p' h; exact absurd h (by simp [refElements])
  | succ k ih =>
    obtain ⟨ihV, ihM, ihE⟩ := ih
    refine ⟨?_, ?_, ?_⟩
    · -- values
      intro text q v p' h hnt
      simp only [refValue] at h
      split at h
      · -- object
        rename_i hc
        have hrw := specScanner_openBrace text q hc
        split at h
        · -- empty object
          rename_i hbr
          simp at h
          obtain ⟨hv, hp⟩ := h
          subst hv; subst hp
          have hrwB := specScanner_closeBrace text (refSkipWs text (q + 1)) hbr
          refine ⟨[VisitEvent.objectBegin q (q + 1 - q), VisitEvent.objectEnd (refSkipWs text (q + 1)) (refSkipWs text (q + 1) + 1 - refSkipWs text (q + 1))], ?_, ?_, ?_⟩
          · exact noErr_cons _ _ rfl (noErr_single _ rfl)
          · intro acc
            exact ⟨none, rfl⟩
          · intro evs
            apply runsTo_pred rfl
            apply runsTo_congr2 (fun k => (parseObject k ParseOptions.DEFAULT ({ scn := specScanner text q, events := evs } : PState)).bind (fun st2 => some (st2, true))) (fun k => by rw [hrw]; rfl)
            refine runsTo_bind ({ scn := specScanner text (refSkipWs text (refSkipWs text (q + 1) + 1)), events := VisitEvent.objectEnd (refSkipWs text (q + 1)) (refSkipWs text (q + 1) + 1 - refSkipWs text (q + 1)) :: VisitEvent.objectBegin q (q + 1 - q) :: evs } : PState) ?_ (RunsTo.ret _ _ (fun k => rfl))
            apply runsTo_pred rfl
            apply runsTo_congr2 (fun k => (visitScanNext k ParseOptions.DEFAULT ({ scn := specScanner text q, events := VisitEvent.objectBegin q (q + 1 - q) :: evs } : PState)).bind (fun st2 => (parseObjectLoop k ParseOptions.DEFAULT false st2).bind (fun st3 => if (st3.emit VisitEvent.objectEnd).scn.token ≠ SyntaxKind.CloseBraceToken then handleError k ParseOptions.DEFAULT ParseErrorCode.CloseBraceExpected [SyntaxKind.CloseBraceToken] [] (st3.emit VisitEvent.objectEnd) else visitScanNext k ParseOptions.DEFAULT (st3.emit VisitEvent.objectEnd)))) (fun k => by rw [hrw]; rfl)
            refine runsTo_bind ({ scn := specScanner text (refSkipWs text (q + 1)), events := VisitEvent.objectBegin q (q + 1 - q) :: evs } : PState) ?_ ?_
            · exact visitScanNext_skipWs ParseOptions.DEFAULT text (q + 1)
                (goodTok_closeBrace text _ hbr) _ _ (by rw [hrw]) (by rw [hrw])
            refine runsTo_bind ({ scn := specScanner text (refSkipWs text (q + 1)), events := VisitEvent.objectBegin q (q + 1 - q) :: evs } : PState) ?_ ?_
            · apply runsTo_pred rfl
              exact RunsTo.ret _ _ (fun k => by rw [hrwB]; rfl)
            · apply runsTo_congr2 (fun k => visitScanNext k ParseOptions.DEFAULT ({ scn := specScanner text (refSkipWs text (q + 1)), events := VisitEvent.objectEnd (refSkipWs text (q + 1)) (refSkipWs text (q + 1) + 1 - refSkipWs text (q + 1)) :: VisitEvent.objectBegin q (q + 1 - q) :: evs } : PState)) (fun k => by rw [hrwB]; rfl)
              exact visitScanNext_skipWs ParseOptions.DEFAULT text (refSkipWs text (q + 1) + 1)
                (nextTok_goodTok text _ hnt) _ _ (by rw [hrwB]) (by rw [hrwB])
        · -- nonempty object
          rename_i hbr
          rcases hm : refMembers k text (refSkipWs text (q + 1)) [] with _ | mres <;>
            rw [hm] at h
          · exact absurd h (by simp)
          rcases mres with ⟨ms, pm⟩
          simp at h
          obtain ⟨hv, hp⟩ := h
          subst hv; subst hp
          obtain ⟨δm, herrm, hrepm, hpm1, hbrm, hrunm⟩ := ihM text (refSkipWs text (q + 1)) [] ms pm hm
          obtain ⟨hq1, content1, ks21, hs1⟩ := refMembers_quote k text (refSkipWs text (q + 1)) [] _ hm
          have hsc1 := scanString_of_refString text (refSkipWs text (q + 1) + 1) content1 ks21 hs1
          have hrwQ1 := specScanner_quote text (refSkipWs text (q + 1)) hq1
          rw [hsc1] at hrwQ1
          have hrwCBm := specScanner_closeBrace text (pm - 1) hbrm
          refine ⟨VisitEvent.objectBegin q (q + 1 - q) :: (δm ++ [VisitEvent.objectEnd (pm - 1) (pm - 1 + 1 - (pm - 1))]), ?_, ?_, ?_⟩
          · exact noErr_cons _ _ rfl (noErr_append _ _ herrm (noErr_single _ rfl))
          · intro acc
            obtain ⟨prop2, heq⟩ := hrepm { currentProperty := none, currentParent := JValue.obj [], previousParents := (acc.currentParent, acc.currentProperty) :: acc.previousParents } rfl
            refine ⟨prop2, ?_⟩
            show List.foldl replayStep (replayStep acc (VisitEvent.objectBegin q (q + 1 - q))) (δm ++ [VisitEvent.objectEnd (pm - 1) (pm - 1 + 1 - (pm - 1))]) = _
            rw [List.foldl_append]
            rw [show replayStep acc (VisitEvent.objectBegin q (q + 1 - q)) = { currentProperty := none, currentParent := JValue.obj [], previousParents := (acc.currentParent, acc.currentProperty) :: acc.previousParents } from rfl]
            rw [heq]
            rfl
          · intro evs
            have hmain : RunsTo (fun k => parseValue k ParseOptions.DEFAULT ({ scn := specScanner text q, events := evs } : PState)) (({ scn := specScanner text (refSkipWs text pm), events := VisitEvent.objectEnd (pm - 1) (pm - 1 + 1 - (pm - 1)) :: (δm.reverse ++ (VisitEvent.objectBegin q (q + 1 - q) :: evs)) } : PState), true) := by
              apply runsTo_pred rfl
              apply runsTo_congr2 (fun k => (parseObject k ParseOptions.DEFAULT ({ scn := specScanner text q, events := evs } : PState)).bind (fun st2 => some (st2, true))) (fun k => by rw [hrw]; rfl)
              refine runsTo_bind ({ scn := specScanner text (refSkipWs text pm), events := VisitEvent.objectEnd (pm - 1) (pm - 1 + 1 - (pm - 1)) :: (δm.reverse ++ (VisitEvent.objectBegin q (q + 1 - q) :: evs)) } : PState) ?_ (RunsTo.ret _ _ (fun k => rfl))
              apply runsTo_pred rfl
              apply runsTo_congr2 (fun k => (visitScanNext k ParseOptions.DEFAULT ({ scn := specScanner text q, events := VisitEvent.objectBegin q (q + 1 - q) :: evs } : PState)).bind (fun st2 => (parseObjectLoop k ParseOptions.DEFAULT false st2).bind (fun st3 => if (st3.emit VisitEvent.objectEnd).scn.token ≠ SyntaxKind.CloseBraceToken then handleError k ParseOptions.DEFAULT ParseErrorCode.CloseBraceExpected [SyntaxKind.CloseBraceToken] [] (st3.emit VisitEvent.objectEnd) else visitScanNext k ParseOptions.DEFAULT (st3.emit VisitEvent.objectEnd)))) (fun k => by rw [hrw]; rfl)
              refine runsTo_bind ({ scn := specScanner text (refSkipWs text (q + 1)), events := VisitEvent.objectBegin q (q + 1 - q) :: evs } : PState) ?_ ?_
              · exact visitScanNext_skipWs ParseOptions.DEFAULT text (q + 1)
                  (refMembers_goodTok k text _ [] _ hm) _ _ (by rw [hrw]) (by rw [hrw])
              refine runsTo_bind ({ scn := specScanner text (pm - 1), events := δm.reverse ++ (VisitEvent.objectBegin q (q + 1 - q) :: evs) } : PState) ?_ ?_
              · apply runsTo_pred rfl
                apply runsTo_congr2 (fun k => (parseObjectStep k ParseOptions.DEFAULT ({ scn := specScanner text (refSkipWs text (q + 1)), events := VisitEvent.objectBegin q (q + 1 - q) :: evs } : PState)).bind (fun stD => parseObjectLoop k ParseOptions.DEFAULT true stD)) (fun k => by rw [hrwQ1]; rfl)
                exact hrunm (VisitEvent.objectBegin q (q + 1 - q) :: evs)
              · apply runsTo_congr2 (fun k => visitScanNext k ParseOptions.DEFAULT ({ scn := specScanner text (pm - 1), events := VisitEvent.objectEnd (pm - 1) (pm - 1 + 1 - (pm - 1)) :: (δm.reverse ++ (VisitEvent.objectBegin q (q + 1 - q) :: evs)) } : PState)) (fun k => by rw [hrwCBm]; rfl)
                refine RunsTo.cast (visitScanNext_skipWs ParseOptions.DEFAULT text (pm - 1 + 1)
                  (by rw [show pm - 1 + 1 = pm from by omega]; exact nextTok_goodTok text _ hnt) _ _ (by rw [hrwCBm]) (by rw [hrwCBm])) ?_
                rw [show pm - 1 + 1 = pm from by omega]
            exact RunsTo.cast hmain (by simp)
      split at h
      · -- array
        rename_i hc
        have hrw := specScanner_openBracket text q hc
        split at h
        · -- empty array
          rename_i hbr
          simp at h
          obtain ⟨hv, hp⟩ := h
          subst hv; subst hp
          have hrwB := specScanner_closeBracket text (refSkipWs text (q + 1)) hbr
          refine ⟨[VisitEvent.arrayBegin q (q + 1 - q), VisitEvent.arrayEnd (refSkipWs text (q + 1)) (refSkipWs text (q + 1) + 1 - refSkipWs text (q + 1))], ?_, ?_, ?_⟩
          · exact noErr_cons _ _ rfl (noErr_single _ rfl)
          · intro acc
            exact ⟨none, rfl⟩
          · intro evs
            apply runsTo_pred rfl
            apply runsTo_congr2 (fun k => (parseArray k ParseOptions.DEFAULT ({ scn := specScanner text q, events := evs } : PState)).bind (fun st2 => some (st2, true))) (fun k => by rw [hrw]; rfl)
            refine runsTo_bind ({ scn := specScanner text (refSkipWs text (refSkipWs text (q + 1) + 1)), events := VisitEvent.arrayEnd (refSkipWs text (q + 1)) (refSkipWs text (q + 1) + 1 - refSkipWs text (q + 1)) :: VisitEvent.arrayBegin q (q + 1 - q) :: evs } : PState) ?_ (RunsTo.ret _ _ (fun k => rfl))
            apply runsTo_pred rfl
            apply runsTo_congr2 (fun k => (visitScanNext k ParseOptions.DEFAULT ({ scn := specScanner text q, events := VisitEvent.arrayBegin q (q + 1 - q) :: evs } : PState)).bind (fun st2 => (parseArrayLoop k ParseOptions.DEFAULT false st2).bind (fun st3 => if (st3.emit VisitEvent.arrayEnd).scn.token ≠ SyntaxKind.CloseBracketToken then handleError k ParseOptions.DEFAULT ParseErrorCode.CloseBracketExpected [SyntaxKind.CloseBracketToken] [] (st3.emit VisitEvent.arrayEnd) else visitScanNext k ParseOptions.DEFAULT (st3.emit VisitEvent.arrayEnd)))) (fun k => by rw [hrw]; rfl)
            refine runsTo_bind ({ scn := specScanner text (refSkipWs text (q + 1)), events := VisitEvent.arrayBegin q (q + 1 - q) :: evs } : PState) ?_ ?_
            · exact visitScanNext_skipWs ParseOptions.DEFAULT text (q + 1)
                (goodTok_closeBracket text _ hbr) _ _ (by rw [hrw]) (by rw [hrw])
            refine runsTo_bind ({ scn := specScanner text (refSkipWs text (q + 1)), events := VisitEvent.arrayBegin q (q + 1 - q) :: evs } : PState) ?_ ?_
            · apply runsTo_pred rfl
              exact RunsTo.ret _ _ (fun k => by rw [hrwB]; rfl)
            · apply runsTo_congr2 (fun k => visitScanNext k ParseOptions.DEFAULT ({ scn := specScanner text (refSkipWs text (q + 1)), events := VisitEvent.arrayEnd (refSkipWs text (q + 1)) (refSkipWs text (q + 1) + 1 - refSkipWs text (q + 1)) :: VisitEvent.arrayBegin q (q + 1 - q) :: evs } : PState)) (fun k => by rw [hrwB]; rfl)
              exact visitScanNext_skipWs ParseOptions.DEFAULT text (refSkipWs text (q + 1) + 1)
                (nextTok_goodTok text _ hnt) _ _ (by rw [hrwB]) (by rw [hrwB])
        · -- nonempty array
          rename_i hbr
          rcases hm : refElements k text (refSkipWs text (q + 1)) [] with _ | mres <;>
            rw [hm] at h
          · exact absurd h (by simp)
          rcases mres with ⟨xs, pm⟩
          simp at h
          obtain ⟨hv, hp⟩ := h
          subst hv; subst hp
          obtain ⟨δm, herrm, hrepm, hpm1, hbrm, hrunm⟩ := ihE text (refSkipWs text (q + 1)) [] xs pm hm
          obtain ⟨hg1, hniTC, hniX, hniC⟩ := refElements_goodTok k text (refSkipWs text (q + 1)) [] _ hm
          have hrwCBm := specScanner_closeBracket text (pm - 1) hbrm
          refine ⟨VisitEvent.arrayBegin q (q + 1 - q) :: (δm ++ [VisitEvent.arrayEnd (pm - 1) (pm - 1 + 1 - (pm - 1))]), ?_, ?_, ?_⟩
          · exact noErr_cons _ _ rfl (noErr_append _ _ herrm (noErr_single _ rfl))
          · intro acc
            obtain ⟨prop2, heq⟩ := hrepm { currentProperty := none, currentParent := JValue.arr [], previousParents := (acc.currentParent, acc.currentProperty) :: acc.previousParents } rfl
            refine ⟨prop2, ?_⟩
            show List.foldl replayStep (replayStep acc (VisitEvent.arrayBegin q (q + 1 - q))) (δm ++ [VisitEvent.arrayEnd (pm - 1) (pm - 1 + 1 - (pm - 1))]) = _
            rw [List.foldl_append]
            rw [show replayStep acc (VisitEvent.arrayBegin q (q + 1 - q)) = { currentProperty := none, currentParent := JValue.arr [], previousParents := (acc.currentParent, acc.currentProperty) :: acc.previousParents } from rfl]
            rw [heq]
            rfl
          · intro evs
            have hmain : RunsTo (fun k => parseValue k ParseOptions.DEFAULT ({ scn := specScanner text q, events := evs } : PState)) (({ scn := specScanner text (refSkipWs text pm), events := VisitEvent.arrayEnd (pm - 1) (pm - 1 + 1 - (pm - 1)) :: (δm.reverse ++ (VisitEvent.arrayBegin q (q + 1 - q) :: evs)) } : PState), true) := by
              apply runsTo_pred rfl
              apply runsTo_congr2 (fun k => (parseArray k ParseOptions.DEFAULT ({ scn := specScanner text q, events := evs } : PState)).bind (fun st2 => some (st2, true))) (fun k => by rw [hrw]; rfl)
              refine runsTo_bind ({ scn := specScanner text (refSkipWs text pm), events := VisitEvent.arrayEnd (pm - 1) (pm - 1 + 1 - (pm - 1)) :: (δm.reverse ++ (VisitEvent.arrayBegin q (q + 1 - q) :: evs)) } : PState) ?_ (RunsTo.ret _ _ (fun k => rfl))
              apply runsTo_pred rfl
              apply runsTo_congr2 (fun k => (visitScanNext k ParseOptions.DEFAULT ({ scn := specScanner text q, events := VisitEvent.arrayBegin q (q + 1 - q) :: evs } : PState)).bind (fun st2 => (parseArrayLoop k ParseOptions.DEFAULT false st2).bind (fun st3 => if (st3.emit VisitEvent.arrayEnd).scn.token ≠ SyntaxKind.CloseBracketToken then handleError k ParseOptions.DEFAULT ParseErrorCode.CloseBracketExpected [SyntaxKind.CloseBracketToken] [] (st3.emit VisitEvent.arrayEnd) else visitScanNext k ParseOptions.DEFAULT (st3.emit VisitEvent.arrayEnd)))) (fun k => by rw [hrw]; rfl)
              refine runsTo_bind ({ scn := specScanner text (refSkipWs text (q + 1)), events := VisitEvent.arrayBegin q (q + 1 - q) :: evs } : PState) ?_ ?_
              · exact visitScanNext_skipWs ParseOptions.DEFAULT text (q + 1)
                  hg1 _ _ (by rw [hrw]) (by rw [hrw])
              refine runsTo_bind ({ scn := specScanner text (pm - 1), events := δm.reverse ++ (VisitEvent.arrayBegin q (q + 1 - q) :: evs) } : PState) ?_ ?_
              · apply runsTo_pred rfl
                apply runsTo_congr2 (fun k => (parseArrayStep k ParseOptions.DEFAULT ({ scn := specScanner text (refSkipWs text (q + 1)), events := VisitEvent.arrayBegin q (q + 1 - q) :: evs } : PState)).bind (fun stD => parseArrayLoop k ParseOptions.DEFAULT true stD)) (fun k => by simp only [parseArrayLoop, if_neg hniX, if_neg hniC, Option.some_bind]; rfl)
                exact hrunm (VisitEvent.arrayBegin q (q + 1 - q) :: evs)
              · apply runsTo_congr2 (fun k => visitScanNext k ParseOptions.DEFAULT ({ scn := specScanner text (pm - 1), events := VisitEvent.arrayEnd (pm - 1) (pm - 1 + 1 - (pm - 1)) :: (δm.reverse ++ (VisitEvent.arrayBegin q (q + 1 - q) :: evs)) } : PState)) (fun k => by rw [hrwCBm]; rfl)
                refine RunsTo.cast (visitScanNext_skipWs ParseOptions.DEFAULT text (pm - 1 + 1)
                  (by rw [show pm - 1 + 1 = pm from by omega]; exact nextTok_goodTok text _ hnt) _ _ (by rw [hrwCBm]) (by rw [hrwCBm])) ?_
                rw [show pm - 1 + 1 = pm from by omega]
            exact RunsTo.cast hmain (by simp)
      split at h
      · -- string
        rename_i hc
        rcases hs : refString text (q + 1) with _ | sres <;> rw [hs] at h
        · exact absurd h (by simp)
        rcases sres with ⟨content, ks2⟩
        simp at h
        obtain ⟨hv, hp⟩ := h
        subst hv; subst hp
        have hscan := scanString_of_refString text (q + 1) content ks2 hs
        have hrw := specScanner_quote text q hc
        rw [hscan] at hrw
        refine ⟨[VisitEvent.literal (JLit.str content) q (ks2 - q)], noErr_single _ rfl, ?_, ?_⟩
        · intro acc
          exact ⟨acc.currentProperty, rfl⟩
        · intro evs
          apply runsTo_pred rfl
          apply runsTo_congr2 (fun k =>
            (parseStringRule k ParseOptions.DEFAULT true
              ({ scn := specScanner text q, events := evs } : PState)).bind
              (fun st2 => some (st2, true)))
            (fun k => by rw [hrw]; rfl)
          refine runsTo_bind ({ scn := specScanner text (refSkipWs text ks2), events := VisitEvent.literal (JLit.str content) q (ks2 - q) :: evs } : PState) ?_ (RunsTo.ret _ _ (fun k => rfl))
          apply runsTo_pred rfl
          apply runsTo_congr2 (fun k => visitScanNext k ParseOptions.DEFAULT ({ scn := specScanner text q, events := VisitEvent.literal (JLit.str content) q (ks2 - q) :: evs } : PState))
            (fun k => by rw [hrw]; rfl)
          exact visitScanNext_skipWs ParseOptions.DEFAULT text ks2
            (nextTok_goodTok text ks2 hnt) _ _ (by rw [hrw]) (by rw [hrw])
      split at h
      · -- true
        rename_i hc
        split at h
        · rename_i hks
          simp at h
          obtain ⟨hv, hp⟩ := h
          subst hv; subst hp
          have hrw := specScanner_true text q hc hks.1 hks.2.1 hks.2.2
            (nextTok_stops text (q + 4) hnt)
          refine ⟨[VisitEvent.literal (JLit.bool true) q (q + 4 - q)], noErr_single _ rfl, ?_, ?_⟩
          · intro acc
            exact ⟨acc.currentProperty, rfl⟩
          · intro evs
            apply runsTo_pred rfl
            apply runsTo_congr2 (fun k => parseLiteral k ParseOptions.DEFAULT ({ scn := specScanner text q, events := evs } : PState)) (fun k => by rw [hrw]; rfl)
            apply runsTo_pred rfl
            apply runsTo_congr2 (fun k => (visitScanNext k ParseOptions.DEFAULT ({ scn := specScanner text q, events := VisitEvent.literal (JLit.bool true) q (q + 4 - q) :: evs } : PState)).bind (fun st2 => some (st2, true))) (fun k => by rw [hrw]; rfl)
            refine runsTo_bind ({ scn := specScanner text (refSkipWs text (q + 4)), events := VisitEvent.literal (JLit.bool true) q (q + 4 - q) :: evs } : PState) ?_ (RunsTo.ret _ _ (fun k => rfl))
            exact visitScanNext_skipWs ParseOptions.DEFAULT text (q + 4)
              (nextTok_goodTok text (q + 4) hnt) _ _ (by rw [hrw]) (by rw [hrw])
        · exact absurd h (by simp)
      split at h
      · -- false
        rename_i hc
        split at h
        · rename_i hks
          simp at h
          obtain ⟨hv, hp⟩ := h
          subst hv; subst hp
          have hrw := specScanner_false text q hc hks.1 hks.2.1 hks.2.2.1 hks.2.2.2
            (nextTok_stops text (q + 5) hnt)
          refine ⟨[VisitEvent.literal (JLit.bool false) q (q + 5 - q)], noErr_single _ rfl, ?_, ?_⟩
          · intro acc
            exact ⟨acc.currentProperty, rfl⟩
          · intro evs
            apply runsTo_pred rfl
            apply runsTo_congr2 (fun k => parseLiteral k ParseOptions.DEFAULT ({ scn := specScanner text q, events := evs } : PState)) (fun k => by rw [hrw]; rfl)
            apply runsTo_pred rfl
            apply runsTo_congr2 (fun k => (visitScanNext k ParseOptions.DEFAULT ({ scn := specScanner text q, events := VisitEvent.literal (JLit.bool false) q (q + 5 - q) :: evs } : PState)).bind (fun st2 => some (st2, true))) (fun k => by rw [hrw]; rfl)
            refine runsTo_bind ({ scn := specScanner text (refSkipWs text (q + 5)), events := VisitEvent.literal (JLit.bool false) q (q + 5 - q) :: evs } : PState) ?_ (RunsTo.ret _ _ (fun k => rfl))
            exact visitScanNext_skipWs ParseOptions.DEFAULT text (q + 5)
              (nextTok_goodTok text (q + 5) hnt) _ _ (by rw [hrw]) (by rw [hrw])
        · exact absurd h (by simp)
      split at h
      · -- null
        rename_i hc
        split at h
        · rename_i hks
          simp at h
          obtain ⟨hv, hp⟩ := h
          subst hv; subst hp
          have hrw := specScanner_null text q hc hks.1 hks.2.1 hks.2.2
            (nextTok_stops text (q + 4) hnt)
          refine ⟨[VisitEvent.literal JLit.null q (q + 4 - q)], noErr_single _ rfl, ?_, ?_⟩
          · intro acc
            exact ⟨acc.currentProperty, rfl⟩
          · intro evs
            apply runsTo_pred rfl
            apply runsTo_congr2 (fun k => parseLiteral k ParseOptions.DEFAULT ({ scn := specScanner text q, events := evs } : PState)) (fun k => by rw [hrw]; rfl)
            apply runsTo_pred rfl
            apply runsTo_congr2 (fun k => (visitScanNext k ParseOptions.DEFAULT ({ scn := specScanner text q, events := VisitEvent.literal JLit.null q (q + 4 - q) :: evs } : PState)).bind (fun st2 => some (st2, true))) (fun k => by rw [hrw]; rfl)
            refine runsTo_bind ({ scn := specScanner text (refSkipWs text (q + 4)), events := VisitEvent.literal JLit.null q (q + 4 - q) :: evs } : PState) ?_ (RunsTo.ret _ _ (fun k => rfl))
            exact visitScanNext_skipWs ParseOptions.DEFAULT text (q + 4)
              (nextTok_goodTok text (q + 4) hnt) _ _ (by rw [hrw]) (by rw [hrw])
        · exact absurd h (by simp)
      · -- number
        rename_i hc1 hc2 hc3 hc4 hc5 hc6
        rcases hn : refNumber text q with _ | nres <;> rw [hn] at h
        · exact absurd h (by simp)
        rcases nres with ⟨nv, np⟩
        simp at h
        obtain ⟨hv, hp⟩ := h
        subst hv; subst hp
        obtain ⟨p0, pInt, pFrac, eneg, pE1, hp0, hdig, -, -, -, -⟩ :=
          refNumber_elim text q nv np hn
        have hlt := refNumber_lt text q nv np hn
        have hscan := scanNumber_of_refNumber text q nv np hn
        have hjson := jsonNumberParse_of_refNumber text q nv np hn
        by_cases hm : charCodeAt text q = CharacterCodes.minus
        · rw [if_pos hm] at hp0 hscan
          subst hp0
          have hrw := specScanner_minus_digit text q hm hdig
          rw [hscan] at hrw
          have hsub : substring text q np = CharacterCodes.minus :: substring text (q + 1) np := by
            rw [substring_cons text q np (by omega) (charCodeAt_lt text q (by rw [hm]; decide)), hm]
          rw [hsub] at hjson
          refine ⟨[VisitEvent.literal (JLit.num nv) q (np - q)], noErr_single _ rfl, ?_, ?_⟩
          · intro acc
            exact ⟨acc.currentProperty, rfl⟩
          · intro evs
            apply runsTo_pred rfl
            apply runsTo_congr2 (fun k => parseLiteral k ParseOptions.DEFAULT ({ scn := specScanner text q, events := evs } : PState)) (fun k => by rw [hrw]; rfl)
            apply runsTo_pred rfl
            apply runsTo_congr2 (fun k => (visitScanNext k ParseOptions.DEFAULT ({ scn := specScanner text q, events := VisitEvent.literal (JLit.num nv) q (np - q) :: evs } : PState)).bind (fun st2 => some (st2, true))) (fun k => by rw [hrw]; simp only [parseLiteral, PState.emit, Scanner.tokenLength, hjson])
            refine runsTo_bind ({ scn := specScanner text (refSkipWs text np), events := VisitEvent.literal (JLit.num nv) q (np - q) :: evs } : PState) ?_ (RunsTo.ret _ _ (fun k => rfl))
            exact visitScanNext_skipWs ParseOptions.DEFAULT text np
              (nextTok_goodTok text np hnt) _ _ (by rw [hrw]) (by rw [hrw])
        · rw [if_neg hm] at hp0 hscan
          rw [hp0] at hdig
          have hrw := specScanner_digit text q hdig
          rw [hscan] at hrw
          refine ⟨[VisitEvent.literal (JLit.num nv) q (np - q)], noErr_single _ rfl, ?_, ?_⟩
          · intro acc
            exact ⟨acc.currentProperty, rfl⟩
          · intro evs
            apply runsTo_pred rfl
            apply runsTo_congr2 (fun k => parseLiteral k ParseOptions.DEFAULT ({ scn := specScanner text q, events := evs } : PState)) (fun k => by rw [hrw]; rfl)
            apply runsTo_pred rfl
            apply runsTo_congr2 (fun k => (visitScanNext k ParseOptions.DEFAULT ({ scn := specScanner text q, events := VisitEvent.literal (JLit.num nv) q (np - q) :: evs } : PState)).bind (fun st2 => some (st2, true))) (fun k => by rw [hrw]; simp only [parseLiteral, PState.emit, Scanner.tokenLength, hjson])
            refine runsTo_bind ({ scn := specScanner text (refSkipWs text np), events := VisitEvent.literal (JLit.num nv) q (np - q) :: evs } : PState) ?_ (RunsTo.ret _ _ (fun k => rfl))
            exact visitScanNext_skipWs ParseOptions.DEFAULT text np
              (nextTok_goodTok text np hnt) _ _ (by rw [hrw]) (by rw [hrw])
    · -- members
      intro text q acc0 ms p' h
      simp only [refMembers] at h
      split at h
      · rename_i hq
        split at h
        · exact absurd h (by simp)
        rename_i ks hs
        rcases ks with ⟨name, ks2⟩
        split at h
        · rename_i hcol
          split at h
          · exact absurd h (by simp)
          rename_i vr hval
          rcases vr with ⟨vval, vr2⟩
          have hsc := scanString_of_refString text (q + 1) name ks2 hs
          have hrwQ := specScanner_quote text q hq
          rw [hsc] at hrwQ
          have hrwCol := specScanner_colon text (refSkipWs text ks2) hcol
          split at h
          · -- comma: another member follows
            rename_i hp6c
            obtain ⟨δr, herrr, hrepr, hp1r, hbrr, hrunr⟩ := ihM text
              (refSkipWs text (refSkipWs text vr2 + 1)) (refInsert acc0 name vval) ms p' h
            have hntv : NextTok text vr2 := nextTok_of_comma text vr2 hp6c
            obtain ⟨δv, herrv, hrepv, hrunv⟩ := ihV text
              (refSkipWs text (refSkipWs text ks2 + 1)) vval vr2 hval hntv
            have hgv := (refValue_goodTok k text _ vval vr2 hval hntv).1
            obtain ⟨hq7, content7, ks27, hs7⟩ := refMembers_quote k text
              (refSkipWs text (refSkipWs text vr2 + 1)) (refInsert acc0 name vval) _ h
            have hsc7 := scanString_of_refString text _ content7 ks27 hs7
            have hrwQ7 := specScanner_quote text (refSkipWs text (refSkipWs text vr2 + 1)) hq7
            rw [hsc7] at hrwQ7
            have hrwComma := specScanner_comma text (refSkipWs text vr2) hp6c
            refine ⟨VisitEvent.objectProperty name q (ks2 - q) :: VisitEvent.separator CharacterCodes.colon (refSkipWs text ks2) (refSkipWs text ks2 + 1 - refSkipWs text ks2) :: (δv ++ (VisitEvent.separator CharacterCodes.comma (refSkipWs text vr2) (refSkipWs text vr2 + 1 - refSkipWs text vr2) :: δr)), ?_, ?_, hp1r, hbrr, ?_⟩
            · exact noErr_cons _ _ rfl (noErr_cons _ _ rfl (noErr_append _ _ herrv
                (noErr_cons _ _ rfl herrr)))
            · intro acc hacc
              rcases acc with ⟨accProp, accPar, accPrev⟩
              simp only [] at hacc
              subst hacc
              obtain ⟨propv, heqv⟩ := hrepv ({ currentProperty := some name, currentParent := JValue.obj acc0, previousParents := accPrev } : ParseAcc)
              obtain ⟨propr, heqr⟩ := hrepr ({ currentProperty := propv, currentParent := JValue.obj (refInsert acc0 name vval), previousParents := accPrev } : ParseAcc) rfl
              refine ⟨propr, ?_⟩
              rw [List.foldl_cons, List.foldl_cons, List.foldl_append]
              rw [show replayStep (replayStep ({ currentProperty := accProp, currentParent := JValue.obj acc0, previousParents := accPrev } : ParseAcc) (VisitEvent.objectProperty name q (ks2 - q))) (VisitEvent.separator CharacterCodes.colon (refSkipWs text ks2) (refSkipWs text ks2 + 1 - refSkipWs text ks2)) = ({ currentProperty := some name, currentParent := JValue.obj acc0, previousParents := accPrev } : ParseAcc) from rfl]
              rw [heqv]
              rw [List.foldl_cons]
              rw [show replayStep ({ currentProperty := propv, currentParent := onValue (JValue.obj acc0) (some name) vval, previousParents := accPrev } : ParseAcc) (VisitEvent.separator CharacterCodes.comma (refSkipWs text vr2) (refSkipWs text vr2 + 1 - refSkipWs text vr2)) = ({ currentProperty := propv, currentParent := JValue.obj (refInsert acc0 name vval), previousParents := accPrev } : ParseAcc) from by rw [show onValue (JValue.obj acc0) (some name) vval = JValue.obj (setMember acc0 name vval) from rfl, refInsert_eq_setMember]; rfl]
              rw [heqr]
            · intro evs
              have hmain : RunsTo (fun k => (parseObjectStep k ParseOptions.DEFAULT ({ scn := specScanner text q, events := evs } : PState)).bind (fun stD => parseObjectLoop k ParseOptions.DEFAULT true stD)) ({ scn := specScanner text (p' - 1), events := δr.reverse ++ (VisitEvent.separator CharacterCodes.comma (refSkipWs text vr2) (refSkipWs text vr2 + 1 - refSkipWs text vr2) :: (δv.reverse ++ (VisitEvent.separator CharacterCodes.colon (refSkipWs text ks2) (refSkipWs text ks2 + 1 - refSkipWs text ks2) :: VisitEvent.objectProperty name q (ks2 - q) :: evs))) } : PState) := by
                refine runsTo_bind ({ scn := specScanner text (refSkipWs text vr2), events := δv.reverse ++ (VisitEvent.separator CharacterCodes.colon (refSkipWs text ks2) (refSkipWs text ks2 + 1 - refSkipWs text ks2) :: VisitEvent.objectProperty name q (ks2 - q) :: evs) } : PState) ?_ ?_
                · -- parseObjectStep for one member
                  apply runsTo_pred rfl
                  apply runsTo_congr2 (fun k => (parseProperty k ParseOptions.DEFAULT ({ scn := specScanner text q, events := evs } : PState)).bind (fun pres => if pres.2 then some pres.1 else handleError k ParseOptions.DEFAULT ParseErrorCode.ValueExpected [] [SyntaxKind.CloseBraceToken, SyntaxKind.CommaToken] pres.1)) (fun k => rfl)
                  refine runsTo_bind (({ scn := specScanner text (refSkipWs text vr2), events := δv.reverse ++ (VisitEvent.separator CharacterCodes.colon (refSkipWs text ks2) (refSkipWs text ks2 + 1 - refSkipWs text ks2) :: VisitEvent.objectProperty name q (ks2 - q) :: evs) } : PState), true) ?_ (RunsTo.ret _ _ (fun k => rfl))
                  apply runsTo_pred rfl
                  apply runsTo_congr2 (fun k => (parseStringRule k ParseOptions.DEFAULT false ({ scn := specScanner text q, events := evs } : PState)).bind (fun st1 => if st1.scn.token = SyntaxKind.ColonToken then (visitScanNext k ParseOptions.DEFAULT (st1.emit (VisitEvent.separator CharacterCodes.colon))).bind (fun st3 => (parseValue k ParseOptions.DEFAULT st3).bind (fun vres => if vres.2 then some (vres.1, true) else (handleError k ParseOptions.DEFAULT ParseErrorCode.ValueExpected [] [SyntaxKind.CloseBraceToken, SyntaxKind.CommaToken] vres.1).bind (fun st4 => some (st4, true)))) else (handleError k ParseOptions.DEFAULT ParseErrorCode.ColonExpected [] [SyntaxKind.CloseBraceToken, SyntaxKind.CommaToken] st1).bind (fun st2 => some (st2, true)))) (fun k => by rw [hrwQ]; rfl)
                  refine runsTo_bind ({ scn := specScanner text (refSkipWs text ks2), events := VisitEvent.objectProperty name q (ks2 - q) :: evs } : PState) ?_ ?_
                  · apply runsTo_pred rfl
                    apply runsTo_congr2 (fun k => visitScanNext k ParseOptions.DEFAULT ({ scn := specScanner text q, events := VisitEvent.objectProperty name q (ks2 - q) :: evs } : PState)) (fun k => by rw [hrwQ]; rfl)
                    exact visitScanNext_skipWs ParseOptions.DEFAULT text ks2
                      (goodTok_colon text _ hcol) _ _ (by rw [hrwQ]) (by rw [hrwQ])
                  apply runsTo_congr2 (fun k => (visitScanNext k ParseOptions.DEFAULT ({ scn := specScanner text (refSkipWs text ks2), events := VisitEvent.separator CharacterCodes.colon (refSkipWs text ks2) (refSkipWs text ks2 + 1 - refSkipWs text ks2) :: VisitEvent.objectProperty name q (ks2 - q) :: evs } : PState)).bind (fun st3 => (parseValue k ParseOptions.DEFAULT st3).bind (fun vres => if vres.2 then some (vres.1, true) else (handleError k ParseOptions.DEFAULT ParseErrorCode.ValueExpected [] [SyntaxKind.CloseBraceToken, SyntaxKind.CommaToken] vres.1).bind (fun st4 => some (st4, true))))) (fun k => by rw [hrwCol]; rfl)
                  refine runsTo_bind ({ scn := specScanner text (refSkipWs text (refSkipWs text ks2 + 1)), events := VisitEvent.separator CharacterCodes.colon (refSkipWs text ks2) (refSkipWs text ks2 + 1 - refSkipWs text ks2) :: VisitEvent.objectProperty name q (ks2 - q) :: evs } : PState) ?_ ?_
                  · exact visitScanNext_skipWs ParseOptions.DEFAULT text (refSkipWs text ks2 + 1)
                      hgv _ _ (by rw [hrwCol]) (by rw [hrwCol])
                  refine runsTo_bind (({ scn := specScanner text (refSkipWs text vr2), events := δv.reverse ++ (VisitEvent.separator CharacterCodes.colon (refSkipWs text ks2) (refSkipWs text ks2 + 1 - refSkipWs text ks2) :: VisitEvent.objectProperty name q (ks2 - q) :: evs) } : PState), true) ?_ (RunsTo.ret _ _ (fun k => rfl))
                  exact hrunv (VisitEvent.separator CharacterCodes.colon (refSkipWs text ks2) (refSkipWs text ks2 + 1 - refSkipWs text ks2) :: VisitEvent.objectProperty name q (ks2 - q) :: evs)
                · -- the loop: comma, then the next member
                  apply runsTo_pred rfl
                  apply runsTo_congr2 (fun k => (visitScanNext k ParseOptions.DEFAULT ({ scn := specScanner text (refSkipWs text vr2), events := VisitEvent.separator CharacterCodes.comma (refSkipWs text vr2) (refSkipWs text vr2 + 1 - refSkipWs text vr2) :: (δv.reverse ++ (VisitEvent.separator CharacterCodes.colon (refSkipWs text ks2) (refSkipWs text ks2 + 1 - refSkipWs text ks2) :: VisitEvent.objectProperty name q (ks2 - q) :: evs)) } : PState)).bind (fun stC => if stC.scn.token = SyntaxKind.CloseBraceToken ∧ ParseOptions.DEFAULT.allowTrailingComma then some stC else (parseObjectStep k ParseOptions.DEFAULT stC).bind (fun stD => parseObjectLoop k ParseOptions.DEFAULT true stD))) (fun k => by rw [hrwComma]; rfl)
                  refine runsTo_bind ({ scn := specScanner text (refSkipWs text (refSkipWs text vr2 + 1)), events := VisitEvent.separator CharacterCodes.comma (refSkipWs text vr2) (refSkipWs text vr2 + 1 - refSkipWs text vr2) :: (δv.reverse ++ (VisitEvent.separator CharacterCodes.colon (refSkipWs text ks2) (refSkipWs text ks2 + 1 - refSkipWs text ks2) :: VisitEvent.objectProperty name q (ks2 - q) :: evs)) } : PState) ?_ ?_
                  · exact visitScanNext_skipWs ParseOptions.DEFAULT text (refSkipWs text vr2 + 1)
                      (refMembers_goodTok k text _ (refInsert acc0 name vval) _ h) _ _
                      (by rw [hrwComma]) (by rw [hrwComma])
                  apply runsTo_congr2 (fun k => (parseObjectStep k ParseOptions.DEFAULT ({ scn := specScanner text (refSkipWs text (refSkipWs text vr2 + 1)), events := VisitEvent.separator CharacterCodes.comma (refSkipWs text vr2) (refSkipWs text vr2 + 1 - refSkipWs text vr2) :: (δv.reverse ++ (VisitEvent.separator CharacterCodes.colon (refSkipWs text ks2) (refSkipWs text ks2 + 1 - refSkipWs text ks2) :: VisitEvent.objectProperty name q (ks2 - q) :: evs)) } : PState)).bind (fun stD => parseObjectLoop k ParseOptions.DEFAULT true stD)) (fun k => by rw [hrwQ7]; rfl)
                  exact hrunr (VisitEvent.separator CharacterCodes.comma (refSkipWs text vr2) (refSkipWs text vr2 + 1 - refSkipWs text vr2) :: (δv.reverse ++ (VisitEvent.separator CharacterCodes.colon (refSkipWs text ks2) (refSkipWs text ks2 + 1 - refSkipWs text ks2) :: VisitEvent.objectProperty name q (ks2 - q) :: evs)))
              exact RunsTo.cast hmain (by simp)
          split at h
          · -- closing brace: last member
            rename_i hp6b
            simp at h
            obtain ⟨hms, hp⟩ := h
            subst hp
            have hntv : NextTok text vr2 := nextTok_of_closeBrace text vr2 hp6b
            obtain ⟨δv, herrv, hrepv, hrunv⟩ := ihV text
              (refSkipWs text (refSkipWs text ks2 + 1)) vval vr2 hval hntv
            have hgv := (refValue_goodTok k text _ vval vr2 hval hntv).1
            have hrwCB := specScanner_closeBrace text (refSkipWs text vr2) hp6b
            refine ⟨VisitEvent.objectProperty name q (ks2 - q) :: VisitEvent.separator CharacterCodes.colon (refSkipWs text ks2) (refSkipWs text ks2 + 1 - refSkipWs text ks2) :: δv, ?_, ?_, by omega, by simpa using hp6b, ?_⟩
            · exact noErr_cons _ _ rfl (noErr_cons _ _ rfl herrv)
            · intro acc hacc
              rcases acc with ⟨accProp, accPar, accPrev⟩
              simp only [] at hacc
              subst hacc
              obtain ⟨propv, heqv⟩ := hrepv ({ currentProperty := some name, currentParent := JValue.obj acc0, previousParents := accPrev } : ParseAcc)
              refine ⟨propv, ?_⟩
              rw [List.foldl_cons, List.foldl_cons]
              rw [show replayStep (replayStep ({ currentProperty := accProp, currentParent := JValue.obj acc0, previousParents := accPrev } : ParseAcc) (VisitEvent.objectProperty name q (ks2 - q))) (VisitEvent.separator CharacterCodes.colon (refSkipWs text ks2) (refSkipWs text ks2 + 1 - refSkipWs text ks2)) = ({ currentProperty := some name, currentParent := JValue.obj acc0, previousParents := accPrev } : ParseAcc) from rfl]
              rw [heqv]
              rw [← hms, show onValue (JValue.obj acc0) (some name) vval = JValue.obj (setMember acc0 name vval) from rfl, refInsert_eq_setMember]
            · intro evs
              have hmain : RunsTo (fun k => (parseObjectStep k ParseOptions.DEFAULT ({ scn := specScanner text q, events := evs } : PState)).bind (fun stD => parseObjectLoop k ParseOptions.DEFAULT true stD)) ({ scn := specScanner text (refSkipWs text vr2), events := δv.reverse ++ (VisitEvent.separator CharacterCodes.colon (refSkipWs text ks2) (refSkipWs text ks2 + 1 - refSkipWs text ks2) :: VisitEvent.objectProperty name q (ks2 - q) :: evs) } : PState) := by
                refine runsTo_bind ({ scn := specScanner text (refSkipWs text vr2), events := δv.reverse ++ (VisitEvent.separator CharacterCodes.colon (refSkipWs text ks2) (refSkipWs text ks2 + 1 - refSkipWs text ks2) :: VisitEvent.objectProperty name q (ks2 - q) :: evs) } : PState) ?_ ?_
                · apply runsTo_pred rfl
                  apply runsTo_congr2 (fun k => (parseProperty k ParseOptions.DEFAULT ({ scn := specScanner text q, events := evs } : PState)).bind (fun pres => if pres.2 then some pres.1 else handleError k ParseOptions.DEFAULT ParseErrorCode.ValueExpected [] [SyntaxKind.CloseBraceToken, SyntaxKind.CommaToken] pres.1)) (fun k => rfl)
                  refine runsTo_bind (({ scn := specScanner text (refSkipWs text vr2), events := δv.reverse ++ (VisitEvent.separator CharacterCodes.colon (refSkipWs text ks2) (refSkipWs text ks2 + 1 - refSkipWs text ks2) :: VisitEvent.objectProperty name q (ks2 - q) :: evs) } : PState), true) ?_ (RunsTo.ret _ _ (fun k => rfl))
                  apply runsTo_pred rfl
                  apply runsTo_congr2 (fun k => (parseStringRule k ParseOptions.DEFAULT false ({ scn := specScanner text q, events := evs } : PState)).bind (fun st1 => if st1.scn.token = SyntaxKind.ColonToken then (visitScanNext k ParseOptions.DEFAULT (st1.emit (VisitEvent.separator CharacterCodes.colon))).bind (fun st3 => (parseValue k ParseOptions.DEFAULT st3).bind (fun vres => if vres.2 then some (vres.1, true) else (handleError k ParseOptions.DEFAULT ParseErrorCode.ValueExpected [] [SyntaxKind.CloseBraceToken, SyntaxKind.CommaToken] vres.1).bind (fun st4 => some (st4, true)))) else (handleError k ParseOptions.DEFAULT ParseErrorCode.ColonExpected [] [SyntaxKind.CloseBraceToken, SyntaxKind.CommaToken] st1).bind (fun st2 => some (st2, true)))) (fun k => by rw [hrwQ]; rfl)
                  refine runsTo_bind ({ scn := specScanner text (refSkipWs text ks2), events := VisitEvent.objectProperty name q (ks2 - q) :: evs } : PState) ?_ ?_
                  · apply runsTo_pred rfl
                    apply runsTo_congr2 (fun k => visitScanNext k ParseOptions.DEFAULT ({ scn := specScanner text q, events := VisitEvent.objectProperty name q (ks2 - q) :: evs } : PState)) (fun k => by rw [hrwQ]; rfl)
                    exact visitScanNext_skipWs ParseOptions.DEFAULT text ks2
                      (goodTok_colon text _ hcol) _ _ (by rw [hrwQ]) (by rw [hrwQ])
                  apply runsTo_congr2 (fun k => (visitScanNext k ParseOptions.DEFAULT ({ scn := specScanner text (refSkipWs text ks2), events := VisitEvent.separator CharacterCodes.colon (refSkipWs text ks2) (refSkipWs text ks2 + 1 - refSkipWs text ks2) :: VisitEvent.objectProperty name q (ks2 - q) :: evs } : PState)).bind (fun st3 => (parseValue k ParseOptions.DEFAULT st3).bind (fun vres => if vres.2 then some (vres.1, true) else (handleError k ParseOptions.DEFAULT ParseErrorCode.ValueExpected [] [SyntaxKind.CloseBraceToken, SyntaxKind.CommaToken] vres.1).bind (fun st4 => some (st4, true))))) (fun k => by rw [hrwCol]; rfl)
                  refine runsTo_bind ({ scn := specScanner text (refSkipWs text (refSkipWs text ks2 + 1)), events := VisitEvent.separator CharacterCodes.colon (refSkipWs text ks2) (refSkipWs text ks2 + 1 - refSkipWs text ks2) :: VisitEvent.objectProperty name q (ks2 - q) :: evs } : PState) ?_ ?_
                  · exact visitScanNext_skipWs ParseOptions.DEFAULT text (refSkipWs text ks2 + 1)
                      hgv _ _ (by rw [hrwCol]) (by rw [hrwCol])
                  refine runsTo_bind (({ scn := specScanner text (refSkipWs text vr2), events := δv.reverse ++ (VisitEvent.separator CharacterCodes.colon (refSkipWs text ks2) (refSkipWs text ks2 + 1 - refSkipWs text ks2) :: VisitEvent.objectProperty name q (ks2 - q) :: evs) } : PState), true) ?_ (RunsTo.ret _ _ (fun k => rfl))
                  exact hrunv (VisitEvent.separator CharacterCodes.colon (refSkipWs text ks2) (refSkipWs text ks2 + 1 - refSkipWs text ks2) :: VisitEvent.objectProperty name q (ks2 - q) :: evs)
                · apply runsTo_pred rfl
                  exact RunsTo.ret _ _ (fun k => by rw [hrwCB]; rfl)
              exact RunsTo.cast hmain (by simp)
          · exact absurd h (by simp)
        · exact absurd h (by simp)
      · exact absurd h (by simp)
    · -- elements
      intro text q acc0 xs p' h
      simp only [refElements] at h
      split at h
      · exact absurd h (by simp)
      rename_i vr hval
      rcases vr with ⟨vval, vr2⟩
      split at h
      · -- comma: another element follows
        rename_i hp6c
        obtain ⟨δr, herrr, hrepr, hp1r, hbrr, hrunr⟩ := ihE text
          (refSkipWs text (refSkipWs text vr2 + 1)) (acc0 ++ [vval]) xs p' h
        have hntv : NextTok text vr2 := nextTok_of_comma text vr2 hp6c
        obtain ⟨δv, herrv, hrepv, hrunv⟩ := ihV text q vval vr2 hval hntv
        obtain ⟨hg7, hniTC7, hniX7, hniC7⟩ := refElements_goodTok k text
          (refSkipWs text (refSkipWs text vr2 + 1)) (acc0 ++ [vval]) _ h
        have hrwComma := specScanner_comma text (refSkipWs text vr2) hp6c
        refine ⟨δv ++ (VisitEvent.separator CharacterCodes.comma (refSkipWs text vr2) (refSkipWs text vr2 + 1 - refSkipWs text vr2) :: δr), ?_, ?_, hp1r, hbrr, ?_⟩
        · exact noErr_append _ _ herrv (noErr_cons _ _ rfl herrr)
        · intro acc hacc
          rcases acc with ⟨accProp, accPar, accPrev⟩
          simp only [] at hacc
          subst hacc
          obtain ⟨propv, heqv⟩ := hrepv ({ currentProperty := accProp, currentParent := JValue.arr acc0, previousParents := accPrev } : ParseAcc)
          obtain ⟨propr, heqr⟩ := hrepr ({ currentProperty := propv, currentParent := JValue.arr (acc0 ++ [vval]), previousParents := accPrev } : ParseAcc) rfl
          refine ⟨propr, ?_⟩
          rw [List.foldl_append]
          rw [heqv]
          rw [List.foldl_cons]
          rw [show replayStep ({ currentProperty := propv, currentParent := onValue (JValue.arr acc0) accProp vval, previousParents := accPrev } : ParseAcc) (VisitEvent.separator CharacterCodes.comma (refSkipWs text vr2) (refSkipWs text vr2 + 1 - refSkipWs text vr2)) = ({ currentProperty := propv, currentParent := JValue.arr (acc0 ++ [vval]), previousParents := accPrev } : ParseAcc) from rfl]
          rw [heqr]
        · intro evs
          have hmain : RunsTo (fun k => (parseArrayStep k ParseOptions.DEFAULT ({ scn := specScanner text q, events := evs } : PState)).bind (fun stD => parseArrayLoop k ParseOptions.DEFAULT true stD)) ({ scn := specScanner text (p' - 1), events := δr.reverse ++ (VisitEvent.separator CharacterCodes.comma (refSkipWs text vr2) (refSkipWs text vr2 + 1 - refSkipWs text vr2) :: (δv.reverse ++ evs)) } : PState) := by
            refine runsTo_bind ({ scn := specScanner text (refSkipWs text vr2), events := δv.reverse ++ evs } : PState) ?_ ?_
            · apply runsTo_pred rfl
              apply runsTo_congr2 (fun k => (parseValue k ParseOptions.DEFAULT ({ scn := specScanner text q, events := evs } : PState)).bind (fun vres => if vres.2 then some vres.1 else handleError k ParseOptions.DEFAULT ParseErrorCode.ValueExpected [] [SyntaxKind.CloseBracketToken, SyntaxKind.CommaToken] vres.1)) (fun k => rfl)
              refine runsTo_bind (({ scn := specScanner text (refSkipWs text vr2), events := δv.reverse ++ evs } : PState), true) ?_ (RunsTo.ret _ _ (fun k => rfl))
              exact hrunv evs
            · apply runsTo_pred rfl
              apply runsTo_congr2 (fun k => (visitScanNext k ParseOptions.DEFAULT ({ scn := specScanner text (refSkipWs text vr2), events := VisitEvent.separator CharacterCodes.comma (refSkipWs text vr2) (refSkipWs text vr2 + 1 - refSkipWs text vr2) :: (δv.reverse ++ evs) } : PState)).bind (fun stC => if stC.scn.token = SyntaxKind.CloseBracketToken ∧ ParseOptions.DEFAULT.allowTrailingComma then some stC else (parseArrayStep k ParseOptions.DEFAULT stC).bind (fun stD => parseArrayLoop k ParseOptions.DEFAULT true stD))) (fun k => by rw [hrwComma]; rfl)
              refine runsTo_bind ({ scn := specScanner text (refSkipWs text (refSkipWs text vr2 + 1)), events := VisitEvent.separator CharacterCodes.comma (refSkipWs text vr2) (refSkipWs text vr2 + 1 - refSkipWs text vr2) :: (δv.reverse ++ evs) } : PState) ?_ ?_
              · exact visitScanNext_skipWs ParseOptions.DEFAULT text (refSkipWs text vr2 + 1)
                  hg7 _ _ (by rw [hrwComma]) (by rw [hrwComma])
              apply runsTo_congr2 (fun k => (parseArrayStep k ParseOptions.DEFAULT ({ scn := specScanner text (refSkipWs text (refSkipWs text vr2 + 1)), events := VisitEvent.separator CharacterCodes.comma (refSkipWs text vr2) (refSkipWs text vr2 + 1 - refSkipWs text vr2) :: (δv.reverse ++ evs) } : PState)).bind (fun stD => parseArrayLoop k ParseOptions.DEFAULT true stD)) (fun k => by simp only [if_neg hniTC7])
              exact hrunr (VisitEvent.separator CharacterCodes.comma (refSkipWs text vr2) (refSkipWs text vr2 + 1 - refSkipWs text vr2) :: (δv.reverse ++ evs))
          exact RunsTo.cast hmain (by simp)
      split at h
      · -- closing bracket: last element
        rename_i hp6b
        simp at h
        obtain ⟨hxs, hp⟩ := h
        subst hp
        have hntv : NextTok text vr2 := nextTok_of_closeBracket text vr2 hp6b
        obtain ⟨δv, herrv, hrepv, hrunv⟩ := ihV text q vval vr2 hval hntv
        have hrwCB := specScanner_closeBracket text (refSkipWs text vr2) hp6b
        refine ⟨δv, herrv, ?_, by omega, by simpa using hp6b, ?_⟩
        · intro acc hacc
          rcases acc with ⟨accProp, accPar, accPrev⟩
          simp only [] at hacc
          subst hacc
          obtain ⟨propv, heqv⟩ := hrepv ({ currentProperty := accProp, currentParent := JValue.arr acc0, previousParents := accPrev } : ParseAcc)
          refine ⟨propv, ?_⟩
          rw [heqv]
          rw [← hxs]
          rfl
        · intro evs
          have hmain : RunsTo (fun k => (parseArrayStep k ParseOptions.DEFAULT ({ scn := specScanner text q, events := evs } : PState)).bind (fun stD => parseArrayLoop k ParseOptions.DEFAULT true stD)) ({ scn := specScanner text (refSkipWs text vr2), events := δv.reverse ++ evs } : PState) := by
            refine runsTo_bind ({ scn := specScanner text (refSkipWs text vr2), events := δv.reverse ++ evs } : PState) ?_ ?_
            · apply runsTo_pred rfl
              apply runsTo_congr2 (fun k => (parseValue k ParseOptions.DEFAULT ({ scn := specScanner text q, events := evs } : PState)).bind (fun vres => if vres.2 then some vres.1 else handleError k ParseOptions.DEFAULT ParseErrorCode.ValueExpected [] [SyntaxKind.CloseBracketToken, SyntaxKind.CommaToken] vres.1)) (fun k => rfl)
              refine runsTo_bind (({ scn := specScanner text (refSkipWs text vr2), events := δv.reverse ++ evs } : PState), true) ?_ (RunsTo.ret _ _ (fun k => rfl))
              exact hrunv evs
            · apply runsTo_pred rfl
              exact RunsTo.ret _ _ (fun k => by rw [hrwCB]; rfl)
          exact RunsTo.cast hmain (by simp)
      · exact absurd h (by simp)

set_option maxHeartbeats 1000000 in
theorem parse_runsTo (text : List Nat) (v : JValue) (h : refDecode text = some v) :
    RunsTo (fun fuel => parse fuel text ParseOptions.DEFAULT) (some v, ([] : List ParseError)) := by
  unfold refDecode at h
  rcases hrv : refValue (2 * text.length + 2) text (refSkipWs text 0) with _ | vr <;>
    rw [hrv] at h
  · exact absurd h (by simp)
  rcases vr with ⟨vv, vp⟩
  simp only [] at h
  split at h
  · rename_i hend
    injection h with h
    subst h
    have hnt : NextTok text vp := Or.inl (by rw [hend])
    obtain ⟨hgood, htok⟩ := refValue_goodTok _ text (refSkipWs text 0) vv vp hrv hnt
    obtain ⟨δ, herr, hrep, hrun⟩ := (sim_main (2 * text.length + 2)).1 text
      (refSkipWs text 0) vv vp hrv hnt
    have hne : ¬ (specScanner text (refSkipWs text 0)).token = SyntaxKind.EOF := by
      rcases htok with h' | h' | h' | h' | h' | h' | h' <;> rw [h'] <;> intro hx <;> cases hx
    have hrwEOF := specScanner_eof text (refSkipWs text vp) (by rw [hend])
    have hvc : RunsTo (fun k => visitCore k ParseOptions.DEFAULT text)
        (({ scn := specScanner text (refSkipWs text vp), events := δ.reverse ++ [] } : PState),
          true) := by
      apply runsTo_congr2 (fun k => (visitScanNext k ParseOptions.DEFAULT ({ scn := createScanner text, events := [] } : PState)).bind (fun st1 => if st1.scn.token = SyntaxKind.EOF then (if ParseOptions.DEFAULT.allowEmptyContent then some (st1, true) else (handleError k ParseOptions.DEFAULT ParseErrorCode.ValueExpected [] [] st1).bind (fun st2 => some (st2, false))) else (parseValue k ParseOptions.DEFAULT st1).bind (fun vres => if vres.2 then (if vres.1.scn.token ≠ SyntaxKind.EOF then (handleError k ParseOptions.DEFAULT ParseErrorCode.EndOfFileExpected [] [] vres.1).bind (fun st3 => some (st3, true)) else some (vres.1, true)) else (handleError k ParseOptions.DEFAULT ParseErrorCode.ValueExpected [] [] vres.1).bind (fun st3 => some (st3, false))))) (fun k => rfl)
      refine runsTo_bind ({ scn := specScanner text (refSkipWs text 0), events := ([] : List VisitEvent) } : PState) ?_ ?_
      · exact visitScanNext_skipWs ParseOptions.DEFAULT text 0 hgood _ _ rfl rfl
      apply runsTo_congr2 (fun k => (parseValue k ParseOptions.DEFAULT ({ scn := specScanner text (refSkipWs text 0), events := ([] : List VisitEvent) } : PState)).bind (fun vres => if vres.2 then (if vres.1.scn.token ≠ SyntaxKind.EOF then (handleError k ParseOptions.DEFAULT ParseErrorCode.EndOfFileExpected [] [] vres.1).bind (fun st3 => some (st3, true)) else some (vres.1, true)) else (handleError k ParseOptions.DEFAULT ParseErrorCode.ValueExpected [] [] vres.1).bind (fun st3 => some (st3, false)))) (fun k => by simp only [if_neg hne])
      refine runsTo_bind (({ scn := specScanner text (refSkipWs text vp), events := δ.reverse ++ [] } : PState), true) ?_ (RunsTo.ret _ _ (fun k => by rw [hrwEOF]; rfl))
      exact hrun []
    have hmap : RunsTo (fun fuel => parse fuel text ParseOptions.DEFAULT)
        ((fun res : PState × Bool => (rootResult (res.1.events.reverse.foldl replayStep
          initParseAcc), errorsOf res.1.events.reverse))
          (({ scn := specScanner text (refSkipWs text vp), events := δ.reverse ++ [] } : PState),
            true)) := by
      apply runsTo_congr2 (fun k => (visitCore k ParseOptions.DEFAULT text).map (fun res => (rootResult (res.1.events.reverse.foldl replayStep initParseAcc), errorsOf res.1.events.reverse)))
      · intro k
        unfold parse
        rcases visitCore k ParseOptions.DEFAULT text with _ | res <;> rfl
      · exact RunsTo.mapF hvc
    refine RunsTo.cast hmap ?_
    obtain ⟨prop2, heq⟩ := hrep initParseAcc
    have hevs : (δ.reverse ++ []).reverse = δ := by simp
    simp only [hevs]
    rw [heq]
    rw [errorsOf_eq_nil δ herr]
    rfl
  · exact absurd h (by simp)

/-- C1: for every input text that is valid JSON per the standard grammar (no
comments, no trailing commas) — i.e. on which the reference decoder
`refDecode` succeeds — `parse` with default options, whenever its step budget
suffices (and a sufficient budget exists), returns an empty error list and a
value tree structurally equal to the reference decoder's output. -/
theorem claim_C1 (text : List Nat) (v : JValue) (h : refDecode text = some v) :
    (∃ fuel0, ∀ fuel, fuel0 ≤ fuel →
      parse fuel text ParseOptions.DEFAULT = some (some v, [])) ∧
    (∀ fuel r, parse fuel text ParseOptions.DEFAULT = some r → r = (some v, [])) := by
  obtain ⟨⟨f0, hs⟩, hd⟩ := parse_runsTo text v h
  refine ⟨⟨f0, fun fuel hf => hs fuel hf⟩, fun fuel r hr => ?_⟩
  rcases hd fuel with h' | h'
  · simp only [] at h'
    rw [h'] at hr
    exact absurd hr (by simp)
  · simp only [] at h'
    rw [h'] at hr
    exact (Option.some.inj hr).symm

theorem claim_C1_witness :
    refDecode (strCodes "[1, true]")
      = some (JValue.arr [JValue.num 1, JValue.bool true]) ∧
    parse 500 (strCodes "[1, true]") ParseOptions.DEFAULT
      = some (some (JValue.arr [JValue.num 1, JValue.bool true]), []) := by
  refine ⟨rfl, ?_⟩
  have h2 := (claim_C1 (strCodes "[1, true]") (JValue.arr [JValue.num 1, JValue.bool true])
    rfl).2 500 (some (JValue.arr [JValue.num 1, JValue.bool true]), ([] : List ParseError)) rfl
  exact rfl

end JsonTs
